import Mathlib

/-!
Verification of the RESP codec of the simple-redis repository.

Buffers are lists of byte values (`List Nat`).  Texts are byte lists as
well: the Rust code stores valid UTF-8 in `String`s and the codec treats
them byte-for-byte, so the byte-level view is faithful.  All string
literals of the source appear as explicit byte lists here
(13 = CR, 10 = LF, 43 = `+`, 45 = `-`, 58 = `:`, 36 = `$`, 42 = `*`,
95 = `_`, 35 = `#`, 44 = `,`, 37 = `%`, 126 = `~`, 46 = `.`, 101 = `e`,
116 = `t`, 102 = `f`, 48–57 = digits).

Code of the repository that is not present under `src/` (the shared
helpers of `resp/mod.rs`, the per-kind codecs other than set and double,
and the per-command constructors of `cmd/map.rs` and `cmd/hmap.rs`) is
modelled from the specification; such definitions carry a doc comment
starting with `Modelled from the spec:`.
-/

namespace SimpleRedis

/-- The two-byte line terminator CRLF. -/
def CRLF : List Nat := [13, 10]

/-- Decimal digits of `n`, least significant first, as ASCII bytes.
The first argument is recursion fuel; `fuel ≥ n` suffices. -/
def digitsLE : Nat → Nat → List Nat
  | 0, _ => []
  | fuel + 1, n => if n = 0 then [] else (n % 10 + 48) :: digitsLE fuel (n / 10)

/-- Decimal digits of a natural number, most significant first, as ASCII
bytes; `0` is rendered as `[48]`, matching Rust's `Display`. -/
def natBytes (n : Nat) : List Nat :=
  if n = 0 then [48] else (digitsLE n n).reverse

/-- Is a byte an ASCII decimal digit? -/
def isDigitByte (b : Nat) : Bool := 48 ≤ b && b ≤ 57

/-- Numeric value of a digit-byte list, most significant first. -/
def digitsVal (l : List Nat) : Nat :=
  l.foldl (fun a b => a * 10 + (b - 48)) 0

/-- Greedily split off the leading run of digit bytes. -/
def takeDigits : List Nat → (List Nat × List Nat)
  | [] => ([], [])
  | b :: rest =>
    if isDigitByte b then
      let (ds, r) := takeDigits rest
      (b :: ds, r)
    else ([], b :: rest)

/-- Index of the first CRLF pair in a byte list, if any. -/
def findCRLF : List Nat → Option Nat
  | [] => none
  | [_] => none
  | a :: b :: rest =>
    if a = 13 ∧ b = 10 then some 0 else (findCRLF (b :: rest)).map (fun i => i + 1)

/-- A byte list containing no CRLF pair. -/
def noCRLF : List Nat → Bool
  | [] => true
  | [_] => true
  | a :: b :: rest => if a = 13 ∧ b = 10 then false else noCRLF (b :: rest)

/-- The last byte, if any, is not CR: appending CRLF to such a list does
not create a CRLF pair before the appended one. -/
def lastNotCR : List Nat → Bool
  | [] => true
  | [a] => decide (a ≠ 13)
  | _ :: b :: rest => lastNotCR (b :: rest)

/-- A text usable on a CRLF-terminated line: no internal CRLF pair and
not ending in a bare CR. -/
def lineClean (l : List Nat) : Bool := noCRLF l && lastNotCR l

/-- Strict byte-lexicographic order on byte lists; this is the order of
Rust `String` keys in a `BTreeMap`. -/
def bytesLt : List Nat → List Nat → Bool
  | [], [] => false
  | [], _ :: _ => true
  | _ :: _, [] => false
  | a :: as', b :: bs' => if a < b then true else if b < a then false else bytesLt as' bs'

/-- Error type of the codec, after `RespError` in the source.  The
payloads of the message-carrying variants are dropped: no claim inspects
the message text. -/
inductive RespError where
  | notComplete
  | invalidFrameType
  | invalidFrame
  | invalidFrameLength (n : Int)
  | parseIntFail
  | parseFloatFail
deriving DecidableEq, Repr

mutual

/-- The frame value model, after `RespFrame` in `resp/frame.rs`.
Doubles are represented exactly as `m * 10 ^ e` with integer `m`, `e`:
every finite `f64` and every decimal literal accepted by the decoders
denotes such a value.  Map entries are the key-sorted association list
underlying the Rust `BTreeMap`. -/
inductive RespFrame where
  | simpleString (s : List Nat)
  | error (s : List Nat)
  | integer (i : Int)
  | bulkString (b : List Nat)
  | nullBulkString
  | array (fs : FrameList)
  | nullArray
  | null
  | boolean (b : Bool)
  | double (m : Int) (e : Int)
  | map (entries : PairList)
  | set (fs : FrameList)
deriving DecidableEq, Repr

/-- A sequence of frames (the `Vec<RespFrame>` of the source). -/
inductive FrameList where
  | nil
  | cons (f : RespFrame) (fs : FrameList)
deriving DecidableEq, Repr

/-- A sequence of key/frame entries (the `BTreeMap<String, RespFrame>`
of the source, as its ordered entry sequence). -/
inductive PairList where
  | nil
  | cons (k : List Nat) (v : RespFrame) (ps : PairList)
deriving DecidableEq, Repr

end

/-- Decidable equality of `Except` results, so that decoder outcomes on
concrete buffers can be checked by evaluation. -/
instance exceptDecEq {e a : Type} [DecidableEq e] [DecidableEq a] : DecidableEq (Except e a)
  | .error x, .error y =>
    if h : x = y then .isTrue (by rw [h]) else .isFalse (by intro hc; cases hc; exact h rfl)
  | .error _, .ok _ => .isFalse (by intro hc; cases hc)
  | .ok _, .error _ => .isFalse (by intro hc; cases hc)
  | .ok x, .ok y =>
    if h : x = y then .isTrue (by rw [h]) else .isFalse (by intro hc; cases hc; exact h rfl)

/-- Number of frames in a sequence. -/
def FrameList.length : FrameList → Nat
  | .nil => 0
  | .cons _ fs => fs.length + 1

/-- Number of entries in a map entry sequence. -/
def PairList.length : PairList → Nat
  | .nil => 0
  | .cons _ _ ps => ps.length + 1

/-- The exact rational value denoted by a double frame. -/
def doubleVal (m e : Int) : ℚ := (m : ℚ) * (10 : ℚ) ^ e

/-- Render a non-negative significand value `n * 10 ^ e` in plain
decimal notation, as Rust's `Display` for `f64` does (no exponent). -/
def renderFixedPos (n : Nat) (e : Int) : List Nat :=
  if 0 ≤ e then natBytes n ++ List.replicate e.toNat 48
  else if (-e).toNat < (natBytes n).length then
    (natBytes n).take ((natBytes n).length - (-e).toNat) ++
      46 :: (natBytes n).drop ((natBytes n).length - (-e).toNat)
  else 48 :: 46 :: List.replicate ((-e).toNat - (natBytes n).length) 48 ++ natBytes n

/-- Render `n * 10 ^ e` in Rust `LowerExp` notation `d[.ddd]e<exp>`:
one digit before the point, and a sign on the exponent only when the
exponent is negative. -/
def renderExpPos (n : Nat) (e : Int) : List Nat :=
  let ds := natBytes n
  let mant := ds.headD 48 :: (if ds.length = 1 then [] else 46 :: ds.tail)
  let shown : Int := e + ds.length - 1
  mant ++ 101 :: (if shown < 0 then 45 :: natBytes (-shown).toNat else natBytes shown.toNat)

/-- Encoding of a double, after `f64::encode` in `resp/double.rs`:
exponential notation when `|v| > 1e8 || |v| < 1e-8` (formatted with
`{:+e}`, an explicit sign on the significand), otherwise plain decimal
with an explicit `+` for non-negative values and a bare `-` for negative
ones. -/
def doubleEncode (m e : Int) : List Nat :=
  let v := doubleVal m e
  if |v| > (100000000 : ℚ) ∨ |v| < (1 / 100000000 : ℚ) then
    44 :: (if m < 0 then 45 else 43) :: renderExpPos m.natAbs e ++ CRLF
  else
    44 :: (if m < 0 then 45 :: renderFixedPos m.natAbs e else 43 :: renderFixedPos m.natAbs e) ++ CRLF

/-- Encoding of an integer frame: the source formats with an explicit
sign (`:{:+}`), as witnessed by `test_set_encode`, which expects
`:+1234` for `1234`. -/
def intEncode (i : Int) : List Nat :=
  58 :: (if 0 ≤ i then 43 :: natBytes i.toNat else 45 :: natBytes (-i).toNat) ++ CRLF

mutual

/-- Frame encoder, after `RespEncode` in the source: produces the
canonical wire bytes of a frame. -/
def encodeFrame : RespFrame → List Nat
  | .simpleString s => 43 :: s ++ CRLF
  | .error s => 45 :: s ++ CRLF
  | .integer i => intEncode i
  | .bulkString b => 36 :: natBytes b.length ++ CRLF ++ b ++ CRLF
  | .nullBulkString => [36, 45, 49, 13, 10]
  | .array fs => 42 :: natBytes fs.length ++ CRLF ++ encodeList fs
  | .nullArray => [42, 45, 49, 13, 10]
  | .null => [95, 13, 10]
  | .boolean b => if b then [35, 116, 13, 10] else [35, 102, 13, 10]
  | .double m e => doubleEncode m e
  | .map entries => 37 :: natBytes entries.length ++ CRLF ++ encodePairs entries
  | .set fs => 126 :: natBytes fs.length ++ CRLF ++ encodeList fs

/-- Encode a list of frames back to back (aggregate bodies). -/
def encodeList : FrameList → List Nat
  | .nil => []
  | .cons f fs => encodeFrame f ++ encodeList fs

/-- Encode map entries: each key as a simple string, then its value. -/
def encodePairs : PairList → List Nat
  | .nil => []
  | .cons k v ps => 43 :: k ++ CRLF ++ encodeFrame v ++ encodePairs ps

end

/-- All keys of a map entry sequence are strictly greater than `k`. -/
def PairList.allGt (k : List Nat) : PairList → Bool
  | .nil => true
  | .cons k' _ ps => bytesLt k k' && ps.allGt k

mutual

/-- Well-formedness of a constructible frame, the class on which the
round-trip theorems are stated: line texts (simple strings, errors, map
keys) fit on one CRLF-terminated line, doubles are in normal form
(`m = 0 → e = 0`, otherwise `10 ∤ m`), maps are non-empty with strictly
sorted keys, and sets are non-empty (the decoders reject non-positive
map/set counts). -/
def wfFrame : RespFrame → Bool
  | .simpleString s => lineClean s
  | .error s => lineClean s
  | .integer _ => true
  | .bulkString _ => true
  | .nullBulkString => true
  | .array fs => wfList fs
  | .nullArray => true
  | .null => true
  | .boolean _ => true
  | .double m e => if m = 0 then e = 0 else decide (m % 10 ≠ 0)
  | .map entries =>
    match entries with
    | .nil => false
    | _ => wfPairs entries
  | .set fs =>
    match fs with
    | .nil => false
    | _ => wfList fs

/-- Well-formedness of every frame of a sequence. -/
def wfList : FrameList → Bool
  | .nil => true
  | .cons f fs => wfFrame f && wfList fs

/-- Well-formedness of map entries: clean, strictly increasing keys and
well-formed values. -/
def wfPairs : PairList → Bool
  | .nil => true
  | .cons k v ps => lineClean k && wfFrame v && ps.allGt k && wfPairs ps

end

/-! ## Strategy A: the incremental decoder (`RespDecode`) -/

/-- The fixed wire form of a null bulk string, `$-1\r\n`. -/
def nullBulkPat : List Nat := [36, 45, 49, 13, 10]

/-- The fixed wire form of a null array, `*-1\r\n`. -/
def nullArrayPat : List Nat := [42, 45, 49, 13, 10]

/-- The fixed wire form of the null frame, `_\r\n`. -/
def nullPat : List Nat := [95, 13, 10]

/-- The fixed wire form of boolean true, `#t\r\n`. -/
def truePat : List Nat := [35, 116, 13, 10]

/-- The fixed wire form of boolean false, `#f\r\n`. -/
def falsePat : List Nat := [35, 102, 13, 10]

/-- Modelled from the spec: the shared helper `extract_simple_frame_data`
of `resp/mod.rs` (absent from `src/`).  Requires at least three buffered
bytes, checks the type-discriminant byte, and locates the first CRLF
after it; a missing CRLF is the recoverable incomplete signal. -/
def extractSimpleFrameData (buf : List Nat) (pb : Nat) : Except RespError Nat :=
  if buf.length < 3 then .error .notComplete
  else if buf.head? = some pb then
    match findCRLF (buf.drop 1) with
    | some i => .ok (i + 1)
    | none => .error .notComplete
  else .error .invalidFrameType

/-- Modelled from the spec: the shared helper `extract_fixed_data` of
`resp/mod.rs` (absent from `src/`), used for the fixed-form frames
(`$-1\r\n`, `*-1\r\n`, `_\r\n`, `#t\r\n`, `#f\r\n`).  A buffer that is a
strict prefix of the expected bytes is incomplete; any other mismatch is
a frame-type error (so e.g. `*0\r\n` falls through to the array
decoder). -/
def extractFixedData (buf expect : List Nat) : Except RespError Unit :=
  if buf.length < expect.length then
    if buf = expect.take buf.length then .error .notComplete else .error .invalidFrameType
  else if buf.take expect.length = expect then .ok () else .error .invalidFrameType

/-- Parse a full byte list as an unsigned decimal number (Rust
`str::parse` semantics: nothing but digits, at least one). -/
def parseNatAll (l : List Nat) : Option Nat :=
  match l with
  | [] => none
  | _ => if l.all isDigitByte then some (digitsVal l) else none

/-- Parse a full byte list as a signed decimal integer (Rust
`str::parse::<i64>` semantics: one optional `+` or `-` sign, then
digits). -/
def parseSignedInt (l : List Nat) : Option Int :=
  match l with
  | 43 :: rest => (parseNatAll rest).map (fun n => (n : Int))
  | 45 :: rest => (parseNatAll rest).map (fun n => -(n : Int))
  | _ => (parseNatAll l).map (fun n => (n : Int))

/-- Modelled from the spec: the shared helper `parse_length` of
`resp/mod.rs` (absent from `src/`): locate the header line and parse the
declared length after the discriminant byte. -/
def parseLength (buf : List Nat) (pb : Nat) : Except RespError (Nat × Int) :=
  match extractSimpleFrameData buf pb with
  | .error e => .error e
  | .ok e =>
    match parseSignedInt ((buf.take e).drop 1) with
    | some n => .ok (e, n)
    | none => .error .parseIntFail

/-- Modelled from the spec: expect-length of the single-line frame kinds
(simple string, error, integer, double): the line through its CRLF. -/
def simpleExpectLen (pb : Nat) (buf : List Nat) : Except RespError Nat :=
  match extractSimpleFrameData buf pb with
  | .error e => .error e
  | .ok e => .ok (e + 2)

/-- Modelled from the spec: expect-length of the boolean frame. -/
def boolExpectLen (buf : List Nat) : Except RespError Nat :=
  match extractFixedData buf truePat with
  | .ok _ => .ok 4
  | .error .notComplete => .error .notComplete
  | .error _ =>
    match extractFixedData buf falsePat with
    | .ok _ => .ok 4
    | .error e => .error e

/-- Modelled from the spec: expect-length of the null frame. -/
def nullExpectLen (buf : List Nat) : Except RespError Nat :=
  match extractFixedData buf nullPat with
  | .ok _ => .ok 3
  | .error e => .error e

/-- Modelled from the spec: expect-length for the `$` discriminant
(`BulkString::expect_length`): header plus declared payload plus its
CRLF; a declared length of `-1` is the five-byte null form, any other
negative length is malformed, and a buffer shorter than the computed
total is incomplete (§8: truncations yield "incomplete"). -/
def bulkExpectLen (buf : List Nat) : Except RespError Nat :=
  match parseLength buf 36 with
  | .error e => .error e
  | .ok (e, len) =>
    if len = -1 then .ok (e + 2)
    else if len < 0 then .error (.invalidFrameLength len)
    else
      let total := e + 2 + len.toNat + 2
      if buf.length < total then .error .notComplete else .ok total

/-- Sum of the expect-lengths of `c` consecutive frames, scanned with
`step` (the body walk of `calc_total_length`). -/
def walkLens (step : List Nat → Except RespError Nat) : Nat → List Nat → Except RespError Nat
  | 0, _ => .ok 0
  | c + 1, buf =>
    match step buf with
    | .error e => .error e
    | .ok n =>
      match walkLens step c (buf.drop n) with
      | .error e => .error e
      | .ok m => .ok (n + m)

/-- Sum of the expect-lengths of `c` consecutive key/value pairs (a
simple-string key then a value frame), for map bodies. -/
def walkPairLens (step : List Nat → Except RespError Nat) : Nat → List Nat → Except RespError Nat
  | 0, _ => .ok 0
  | c + 1, buf =>
    match simpleExpectLen 43 buf with
    | .error e => .error e
    | .ok n =>
      match step (buf.drop n) with
      | .error e => .error e
      | .ok m =>
        match walkPairLens step c (buf.drop (n + m)) with
        | .error e => .error e
        | .ok r => .ok (n + m + r)

/-- Modelled from the spec: the shared helper `calc_total_length` of
`resp/mod.rs` (absent from `src/`): total byte length of an aggregate
frame whose header ends at `e` and declares `len` elements — the header
plus the recursively scanned elements.  Map and set counts must be
positive (§3, §4.2, §9: zero or negative declared map/set counts are
rejected as malformed). -/
def calcTotalLength (step : List Nat → Except RespError Nat) (buf : List Nat) (e : Nat)
    (len : Int) (pb : Nat) : Except RespError Nat :=
  if pb = 42 then
    match walkLens step len.toNat (buf.drop (e + 2)) with
    | .error err => .error err
    | .ok t => .ok (e + 2 + t)
  else if pb = 126 then
    if len ≤ 0 then .error (.invalidFrameLength len)
    else
      match walkLens step len.toNat (buf.drop (e + 2)) with
      | .error err => .error err
      | .ok t => .ok (e + 2 + t)
  else if pb = 37 then
    if len ≤ 0 then .error (.invalidFrameLength len)
    else
      match walkPairLens step len.toNat (buf.drop (e + 2)) with
      | .error err => .error err
      | .ok t => .ok (e + 2 + t)
  else .ok (len.toNat + 2)

/-- Strategy A length scan, after `RespFrame::expect_length` in
`resp/frame.rs`: dispatch on the first byte; an empty buffer or an
unknown discriminant is `NotComplete` (the catch-all arm of the source).
The fuel argument only bounds nesting depth; any fuel exceeding the
buffer length is enough. -/
def frameExpectLen : Nat → List Nat → Except RespError Nat
  | 0, _ => .error .notComplete
  | fuel + 1, buf =>
    match buf with
    | [] => .error .notComplete
    | b :: _ =>
      if b = 42 then
        match parseLength buf 42 with
        | .error err => .error err
        | .ok (e, len) =>
          if len = -1 then .ok (e + 2)
          else if len < 0 then .error (.invalidFrameLength len)
          else calcTotalLength (frameExpectLen fuel) buf e len 42
      else if b = 126 then
        match parseLength buf 126 with
        | .error err => .error err
        | .ok (e, len) => calcTotalLength (frameExpectLen fuel) buf e len 126
      else if b = 37 then
        match parseLength buf 37 with
        | .error err => .error err
        | .ok (e, len) => calcTotalLength (frameExpectLen fuel) buf e len 37
      else if b = 36 then bulkExpectLen buf
      else if b = 58 then simpleExpectLen 58 buf
      else if b = 43 then simpleExpectLen 43 buf
      else if b = 45 then simpleExpectLen 45 buf
      else if b = 35 then boolExpectLen buf
      else if b = 44 then simpleExpectLen 44 buf
      else if b = 95 then nullExpectLen buf
      else .error .notComplete

/-- Strip factors of ten from a significand, shifting them into the
exponent (fuel-driven; `fuel ≥ n` suffices). -/
def stripTens : Nat → Nat → Int → Nat × Int
  | 0, n, e => (n, e)
  | fuel + 1, n, e => if n ≠ 0 ∧ n % 10 = 0 then stripTens fuel (n / 10) (e + 1) else (n, e)

/-- Normal form of a decimal value `m * 10 ^ e`: zero is `(0, 0)`, and a
non-zero significand is not divisible by ten.  This is the canonical
significand/exponent pair of the shortest decimal representation, which
is what Rust's float formatting emits. -/
def normPair (m : Int) (e : Int) : Int × Int :=
  if m = 0 then (0, 0)
  else
    let p := stripTens m.natAbs m.natAbs e
    (if m < 0 then -(p.1 : Int) else (p.1 : Int), p.2)

/-- The exponent part of a decimal float literal: an optional sign and
at least one digit, combined with the fractional length into the
effective decimal exponent. -/
def parseFloatExp (fracLen : Nat) (r : List Nat) : Option (Int × List Nat) :=
  let (esgn, r1) : Int × List Nat :=
    if r.head? = some 43 then (1, r.tail)
    else if r.head? = some 45 then (-1, r.tail)
    else (1, r)
  match takeDigits r1 with
  | ([], _) => none
  | (eds, r2) => some (esgn * digitsVal eds - fracLen, r2)

/-- The optional fractional part of a float literal: a dot followed by
digits, or nothing. -/
def fracSplit (l2 : List Nat) : List Nat × List Nat :=
  if l2.head? = some 46 then takeDigits l2.tail else ([], l2)

/-- The optional exponent marker of a float literal: `e` or `E` followed
by a signed exponent, or nothing (yielding the exponent implied by the
fractional length alone). -/
def expSplit (fracLen : Nat) (l3 : List Nat) : Option (Int × List Nat) :=
  if l3.head? = some 101 ∨ l3.head? = some 69 then parseFloatExp fracLen l3.tail
  else some (-(fracLen : Int), l3)

/-- The magnitude part of a decimal float literal: digits, an optional
fractional part (at least one digit overall), and an optional signed
exponent; returns the magnitude as a significand/exponent pair. -/
def parseFloatMag (l : List Nat) : Option ((Nat × Int) × List Nat) :=
  let (ids, l2) := takeDigits l
  let (fds, l3) := fracSplit l2
  if ids.length + fds.length = 0 then none
  else
    match expSplit fds.length l3 with
    | none => none
    | some (ex, r2) => some ((digitsVal ids * 10 ^ fds.length + digitsVal fds, ex), r2)

/-- Decimal floating literal grammar shared by Rust's
`str::parse::<f64>` and winnow's `float` on the inputs this codec
produces: an optional sign, then a magnitude with an optional signed
exponent.  The special forms `inf`/`NaN` are outside the translatable
fragment and are not modelled.  Returns the exact value as a
significand/exponent pair plus the unconsumed remainder. -/
def parseFloatLit (l : List Nat) : Option ((Int × Int) × List Nat) :=
  match l with
  | 43 :: r =>
    match parseFloatMag r with
    | none => none
    | some ((n, ex), rest) => some (((n : Int), ex), rest)
  | 45 :: r =>
    match parseFloatMag r with
    | none => none
    | some ((n, ex), rest) => some ((-(n : Int), ex), rest)
  | _ =>
    match parseFloatMag l with
    | none => none
    | some ((n, ex), rest) => some (((n : Int), ex), rest)

/-- Decode one CRLF-terminated line: the content between the
discriminant byte and the CRLF, consuming through the CRLF on success
and nothing on failure. -/
def lineDecode (pb : Nat) (buf : List Nat) : Except RespError (List Nat) × List Nat :=
  match extractSimpleFrameData buf pb with
  | .error e => (.error e, buf)
  | .ok e => (.ok ((buf.take e).drop 1), buf.drop (e + 2))

/-- Decode `c` consecutive frames with `step`, as the element loops of
the aggregate decoders do; on a failing element the bytes already
consumed stay consumed (the Rust loop returns early from an advanced
`BytesMut`). -/
def walkDecode (step : List Nat → Except RespError RespFrame × List Nat) :
    Nat → List Nat → Except RespError FrameList × List Nat
  | 0, buf => (.ok .nil, buf)
  | c + 1, buf =>
    match step buf with
    | (.error e, rest) => (.error e, rest)
    | (.ok f, rest) =>
      match walkDecode step c rest with
      | (.error e, rest2) => (.error e, rest2)
      | (.ok fs, rest2) => (.ok (.cons f fs), rest2)

/-- Decode `c` consecutive key/value pairs (simple-string key, then a
value frame), for the map decoder's loop. -/
def walkDecodePairs (step : List Nat → Except RespError RespFrame × List Nat) :
    Nat → List Nat → Except RespError PairList × List Nat
  | 0, buf => (.ok .nil, buf)
  | c + 1, buf =>
    match lineDecode 43 buf with
    | (.error e, rest) => (.error e, rest)
    | (.ok k, rest) =>
      match step rest with
      | (.error e, rest2) => (.error e, rest2)
      | (.ok v, rest2) =>
        match walkDecodePairs step c rest2 with
        | (.error e, rest3) => (.error e, rest3)
        | (.ok ps, rest3) => (.ok (.cons k v ps), rest3)

/-- Insert one entry into a sorted entry sequence, replacing an existing
entry with the same key — `BTreeMap::insert`. -/
def insertPair (k : List Nat) (v : RespFrame) : PairList → PairList
  | .nil => .cons k v .nil
  | .cons k' v' ps =>
    if bytesLt k k' then .cons k v (.cons k' v' ps)
    else if k = k' then .cons k v ps
    else .cons k' v' (insertPair k v ps)

/-- Fold a decoded pair sequence into a `BTreeMap`-ordered sequence by
repeated insertion, as the map decoder's loop does. -/
def pairsFold : PairList → PairList → PairList
  | acc, .nil => acc
  | acc, .cons k v ps => pairsFold (insertPair k v acc) ps

/-- Strategy A incremental decode, after `RespDecode for RespFrame` in
`resp/frame.rs` together with the per-kind decoders (`resp/set.rs` is in
`src/`; the other kinds are modelled from the spec with the same
`parse_length`/`calc_total_length`/check/advance/loop shape as
`set.rs`).  Returns the outcome and the remaining buffer (the mutated
`BytesMut`).  Fuel only bounds nesting depth. -/
def frameDecodeA : Nat → List Nat → Except RespError RespFrame × List Nat
  | 0, buf => (.error .notComplete, buf)
  | fuel + 1, buf =>
    match buf with
    | [] => (.error .notComplete, buf)
    | b :: _ =>
      if b = 43 then
        match lineDecode 43 buf with
        | (.error e, rest) => (.error e, rest)
        | (.ok s, rest) => (.ok (.simpleString s), rest)
      else if b = 45 then
        match lineDecode 45 buf with
        | (.error e, rest) => (.error e, rest)
        | (.ok s, rest) => (.ok (.error s), rest)
      else if b = 58 then
        match lineDecode 58 buf with
        | (.error e, rest) => (.error e, rest)
        | (.ok s, rest) =>
          match parseSignedInt s with
          | some i => (.ok (.integer i), rest)
          | none => (.error .parseIntFail, rest)
      else if b = 36 then
        match extractFixedData buf nullBulkPat with
        | .ok _ => (.ok .nullBulkString, buf.drop 5)
        | .error .notComplete => (.error .notComplete, buf)
        | .error _ =>
          match parseLength buf 36 with
          | .error e => (.error e, buf)
          | .ok (e, len) =>
            if len < 0 then (.error (.invalidFrameLength len), buf)
            else if buf.length < e + 2 + len.toNat + 2 then (.error .notComplete, buf)
            else (.ok (.bulkString ((buf.drop (e + 2)).take len.toNat)), buf.drop (e + 2 + len.toNat + 2))
      else if b = 42 then
        match extractFixedData buf nullArrayPat with
        | .ok _ => (.ok .nullArray, buf.drop 5)
        | .error .notComplete => (.error .notComplete, buf)
        | .error _ =>
          match parseLength buf 42 with
          | .error e => (.error e, buf)
          | .ok (e, len) =>
            if len < 0 then (.error (.invalidFrameLength len), buf)
            else
              match calcTotalLength (frameExpectLen fuel) buf e len 42 with
              | .error err => (.error err, buf)
              | .ok total =>
                if buf.length < total then (.error .notComplete, buf)
                else
                  match walkDecode (frameDecodeA fuel) len.toNat (buf.drop (e + 2)) with
                  | (.error err, rest) => (.error err, rest)
                  | (.ok fs, rest) => (.ok (.array fs), rest)
      else if b = 95 then
        match extractFixedData buf nullPat with
        | .ok _ => (.ok .null, buf.drop 3)
        | .error e => (.error e, buf)
      else if b = 35 then
        match extractFixedData buf truePat with
        | .ok _ => (.ok (.boolean true), buf.drop 4)
        | .error .notComplete => (.error .notComplete, buf)
        | .error _ =>
          match extractFixedData buf falsePat with
          | .ok _ => (.ok (.boolean false), buf.drop 4)
          | .error e => (.error e, buf)
      else if b = 44 then
        match lineDecode 44 buf with
        | (.error e, rest) => (.error e, rest)
        | (.ok s, rest) =>
          match parseFloatLit s with
          | some (p, []) => (.ok (.double (normPair p.1 p.2).1 (normPair p.1 p.2).2), rest)
          | _ => (.error .parseFloatFail, rest)
      else if b = 37 then
        match parseLength buf 37 with
        | .error e => (.error e, buf)
        | .ok (e, len) =>
          match calcTotalLength (frameExpectLen fuel) buf e len 37 with
          | .error err => (.error err, buf)
          | .ok total =>
            if buf.length < total then (.error .notComplete, buf)
            else
              match walkDecodePairs (frameDecodeA fuel) len.toNat (buf.drop (e + 2)) with
              | (.error err, rest) => (.error err, rest)
              | (.ok ps, rest) => (.ok (.map (pairsFold .nil ps)), rest)
      else if b = 126 then
        match parseLength buf 126 with
        | .error e => (.error e, buf)
        | .ok (e, len) =>
          match calcTotalLength (frameExpectLen fuel) buf e len 126 with
          | .error err => (.error err, buf)
          | .ok total =>
            if buf.length < total then (.error .notComplete, buf)
            else
              match walkDecode (frameDecodeA fuel) len.toNat (buf.drop (e + 2)) with
              | (.error err, rest) => (.error err, rest)
              | (.ok fs, rest) => (.ok (.set fs), rest)
      else (.error .invalidFrameType, buf)

/-- Strategy A decode entry point (`RespDecode::decode` with a fresh
buffer): fuel exceeding the buffer length is always sufficient, since
each nesting level consumes at least three header bytes. -/
def respDecode (buf : List Nat) : Except RespError RespFrame × List Nat :=
  frameDecodeA (buf.length + 1) buf

/-- Strategy A length scan entry point (`RespFrame::expect_length`). -/
def respExpectLength (buf : List Nat) : Except RespError Nat :=
  frameExpectLen (buf.length + 1) buf

/-! ## Strategy B: the winnow-based parser (`respv2`) -/

/-- Error classes of the winnow parsers: `Backtrack` (no match),
`Cut` (committed failure, produced by `err_cut` for grammar-rule
violations) and `Incomplete` (more input needed; only `bulk_string_len`
produces it). -/
inductive PErr where
  | backtrack
  | cut
  | incomplete
deriving DecidableEq, Repr

/-- Result of a winnow parser on a byte slice: the parsed value and the
unconsumed remainder, or an error class. -/
abbrev PRes (α : Type) := Except PErr (α × List Nat)

/-- `terminated(take_until(0.., CRLF), CRLF)`: the bytes before the
first CRLF, consuming through it; no CRLF in the slice backtracks
(winnow's complete-input semantics for `&[u8]`). -/
def pLine (l : List Nat) : PRes (List Nat) :=
  match findCRLF l with
  | some i => .ok (l.take i, l.drop (i + 2))
  | none => .error .backtrack

/-- Literal tag parser: match the exact bytes or backtrack. -/
def pTag (pat l : List Nat) : PRes Unit :=
  if l.take pat.length = pat then .ok ((), l.drop pat.length) else .error .backtrack

/-- The largest `i64` value: `digit1.parse_to::<i64>()` converts the
digit run before any negation, so a run whose value exceeds this bound
fails the parse. -/
def maxI64 : Nat := 9223372036854775807

/-- The `integer` parser of `respv2/parser.rs`: an optional `-` sign
(only a minus — a leading `+` is not accepted), `digit1` parsed to `i64`
(the unsigned digit run must fit `i64`, so `-9223372036854775808`, whose
digits exceed `maxI64`, fails even though it is a valid `i64`), then
CRLF. -/
def pIntegerB (l : List Nat) : PRes Int :=
  let (neg, l1) : Bool × List Nat :=
    if l.head? = some 45 then (true, l.tail) else (false, l)
  match takeDigits l1 with
  | ([], _) => .error .backtrack
  | (ds, r) =>
    if digitsVal ds ≤ maxI64 then
      if r.take 2 = CRLF then
        .ok (if neg then -(digitsVal ds : Int) else (digitsVal ds : Int), r.drop 2)
      else .error .backtrack
    else .error .backtrack

/-- The `bulk_string_len` parser: lengths `0` and `-1` succeed
immediately (for `0` the payload CRLF is not skipped), lengths below
`-1` are a committed failure, and otherwise the payload plus CRLF is
skipped, reporting `Incomplete` when not enough bytes are buffered. -/
def bulkStringLenB (l : List Nat) : PRes Unit :=
  match pIntegerB l with
  | .error e => .error e
  | .ok (len, rest) =>
    if len = 0 ∨ len = -1 then .ok ((), rest)
    else if len < -1 then .error .cut
    else if rest.length < len.toNat + 2 then .error .incomplete
    else .ok ((), rest.drop (len.toNat + 2))

/-- Run `step` `c` times in sequence over the input (the skip loops of
`array_len`). -/
def walkUnitB (step : List Nat → PRes Unit) : Nat → List Nat → PRes Unit
  | 0, l => .ok ((), l)
  | c + 1, l =>
    match step l with
    | .error e => .error e
    | .ok (_, rest) => walkUnitB step c rest

/-- The `array_len` parser: lengths `0` and `-1` succeed, lengths below
`-1` are a committed failure, and otherwise `len` nested frames are
skipped. -/
def arrayLenB (step : List Nat → PRes Unit) (l : List Nat) : PRes Unit :=
  match pIntegerB l with
  | .error e => .error e
  | .ok (len, rest) =>
    if len = 0 ∨ len = -1 then .ok ((), rest)
    else if len < -1 then .error .cut
    else walkUnitB step len.toNat rest

/-- One `map_len` entry skip: a key line, then a nested frame. -/
def mapEntryLenB (step : List Nat → PRes Unit) (l : List Nat) : PRes Unit :=
  match pLine l with
  | .error e => .error e
  | .ok (_, rest) => step rest

/-- The `map_len` parser: a non-positive count is a committed failure,
otherwise each entry's key line and value frame are skipped. -/
def mapLenB (step : List Nat → PRes Unit) (l : List Nat) : PRes Unit :=
  match pIntegerB l with
  | .error e => .error e
  | .ok (len, rest) =>
    if len ≤ 0 then .error .cut
    else walkUnitB (mapEntryLenB step) len.toNat rest

/-- The `parse_frame_len` dispatcher of `respv2/parser.rs`: `any` reads
the discriminant byte, simple kinds take one line, `$`, `*` and `%`
recurse; the `~` (set) arm is commented out in the source, so sets — and
every unknown discriminant — `fail`. -/
def parseFrameLenB : Nat → List Nat → PRes Unit
  | 0, _ => .error .incomplete
  | fuel + 1, l =>
    match l with
    | [] => .error .backtrack
    | b :: r =>
      if b = 43 ∨ b = 45 ∨ b = 58 ∨ b = 95 ∨ b = 35 ∨ b = 44 then
        match pLine r with
        | .error e => .error e
        | .ok (_, rest) => .ok ((), rest)
      else if b = 36 then bulkStringLenB r
      else if b = 42 then arrayLenB (parseFrameLenB fuel) r
      else if b = 37 then mapLenB (parseFrameLenB fuel) r
      else .error .backtrack

/-- Parse `c` consecutive frames (the `array` parser's loop). -/
def walkParseB (step : List Nat → PRes RespFrame) : Nat → List Nat → PRes FrameList
  | 0, l => .ok (.nil, l)
  | c + 1, l =>
    match step l with
    | .error e => .error e
    | .ok (f, rest) =>
      match walkParseB step c rest with
      | .error e => .error e
      | .ok (fs, rest2) => .ok (.cons f fs, rest2)

/-- Parse `c` consecutive map entries: `preceded('+', parse_string)`
for the key, then a value frame (the `map` parser's loop). -/
def walkParseMapB (step : List Nat → PRes RespFrame) : Nat → List Nat → PRes PairList
  | 0, l => .ok (.nil, l)
  | c + 1, l =>
    if l.head? = some 43 then
      match pLine l.tail with
      | .error e => .error e
      | .ok (k, rest) =>
        match step rest with
        | .error e => .error e
        | .ok (v, rest2) =>
          match walkParseMapB step c rest2 with
          | .error e => .error e
          | .ok (ps, rest3) => .ok (.cons k v ps, rest3)
    else .error .backtrack

/-- The `parse_frame` dispatcher of `respv2/parser.rs`.  `alt` tries the
null forms first and falls through only on `Backtrack`.  The `integer`
parser accepts no `+` sign; the `boolean` parser consumes only its `t`
or `f` byte (not the CRLF); the `~` (set) arm is commented out in the
source, so set frames `fail`. -/
def parseFrameB : Nat → List Nat → PRes RespFrame
  | 0, _ => .error .incomplete
  | fuel + 1, l =>
    match l with
    | [] => .error .backtrack
    | b :: r =>
      if b = 43 then
        match pLine r with
        | .error e => .error e
        | .ok (s, rest) => .ok (.simpleString s, rest)
      else if b = 45 then
        match pLine r with
        | .error e => .error e
        | .ok (s, rest) => .ok (.error s, rest)
      else if b = 58 then
        match pIntegerB r with
        | .error e => .error e
        | .ok (i, rest) => .ok (.integer i, rest)
      else if b = 36 then
        match pTag [45, 49, 13, 10] r with
        | .ok (_, rest) => .ok (.nullBulkString, rest)
        | .error .backtrack =>
          match pIntegerB r with
          | .error e => .error e
          | .ok (len, rest) =>
            if len = 0 then .ok (.bulkString [], rest)
            else if len < 0 then .error .cut
            else if rest.length < len.toNat then .error .backtrack
            else if (rest.drop len.toNat).take 2 = CRLF then
              .ok (.bulkString (rest.take len.toNat), (rest.drop len.toNat).drop 2)
            else .error .backtrack
        | .error e => .error e
      else if b = 42 then
        match pTag [45, 49, 13, 10] r with
        | .ok (_, rest) => .ok (.nullArray, rest)
        | .error .backtrack =>
          match pIntegerB r with
          | .error e => .error e
          | .ok (len, rest) =>
            if len = 0 then .ok (.array .nil, rest)
            else if len < 0 then .error .cut
            else
              match walkParseB (parseFrameB fuel) len.toNat rest with
              | .error e => .error e
              | .ok (fs, rest2) => .ok (.array fs, rest2)
        | .error e => .error e
      else if b = 95 then
        match pTag CRLF r with
        | .error e => .error e
        | .ok (_, rest) => .ok (.null, rest)
      else if b = 35 then
        match r with
        | 116 :: rest => .ok (.boolean true, rest)
        | 102 :: rest => .ok (.boolean false, rest)
        | _ => .error .backtrack
      else if b = 44 then
        match parseFloatLit r with
        | some (p, rest1) =>
          if rest1.take 2 = CRLF then
            .ok (.double (normPair p.1 p.2).1 (normPair p.1 p.2).2, rest1.drop 2)
          else .error .backtrack
        | none => .error .backtrack
      else if b = 37 then
        match pIntegerB r with
        | .error e => .error e
        | .ok (len, rest) =>
          if len ≤ 0 then .error .cut
          else
            match walkParseMapB (parseFrameB fuel) len.toNat rest with
            | .error e => .error e
            | .ok (ps, rest2) => .ok (.map (pairsFold .nil ps), rest2)
      else .error .backtrack

/-- `parse_frame_length` of `respv2/parser.rs`: run `parse_frame_len`
and report the number of bytes consumed; every parser error — including
committed grammar failures — is mapped to `RespError::NotComplete`. -/
def parseFrameLength (buf : List Nat) : Except RespError Nat :=
  match parseFrameLenB (buf.length + 1) buf with
  | .ok (_, rest) => .ok (buf.length - rest.length)
  | .error _ => .error .notComplete

/-- Strategy B length scan (`RespDecodeV2::expect_length`). -/
def v2ExpectLength (buf : List Nat) : Except RespError Nat :=
  parseFrameLength buf

/-- Strategy B decode (`RespDecodeV2::decode`): first scan the frame
length (propagating its error), then split off exactly that many bytes
and run `parse_frame` on them, mapping a parser failure to
`InvalidFrame`. -/
def v2Decode (buf : List Nat) : Except RespError RespFrame × List Nat :=
  match parseFrameLength buf with
  | .error e => (.error e, buf)
  | .ok len =>
    match parseFrameB (len + 1) (buf.take len) with
    | .ok (f, _) => (.ok f, buf.drop len)
    | .error _ => (.error .invalidFrame, buf.drop len)

/-! ## The command layer (`cmd/mod.rs`) -/

/-- Command-layer errors, after `CommandError` (message payloads
dropped). -/
inductive CommandError where
  | invalidCommand
  | invalidArgument
  | respErr
  | utf8Err
deriving DecidableEq, Repr

/-- The typed commands, after `Command` in `cmd/mod.rs`. -/
inductive Command where
  | get (key : List Nat)
  | set (key : List Nat) (value : RespFrame)
  | hget (key field : List Nat)
  | hset (key field : List Nat) (value : RespFrame)
  | hgetall (key : List Nat) (sort : Bool)
  | unrecognized
deriving DecidableEq, Repr

/-- The process-wide canonical OK response (`RESP_OK`). -/
def respOk : RespFrame := .simpleString [79, 75]

/-- `Unrecognized::execute`: ignore the backend and return a clone of
the canonical OK response. -/
def unrecognizedExecute : RespFrame := respOk

/-- ASCII lowercase of a byte (`to_ascii_lowercase`). -/
def lowerByte (b : Nat) : Nat := if 65 ≤ b ∧ b ≤ 90 then b + 32 else b

/-- UTF-8 validity of a byte list, as `String::from_utf8` checks it:
ASCII bytes, or well-formed 2- to 4-byte sequences, with overlong
encodings, the surrogate range and code points above U+10FFFF all
rejected. -/
def isUtf8 : List Nat → Bool
  | [] => true
  | b :: rest =>
    if b ≤ 127 then isUtf8 rest
    else if 194 ≤ b ∧ b ≤ 223 then
      match rest with
      | c1 :: rest1 => decide (128 ≤ c1 ∧ c1 ≤ 191) && isUtf8 rest1
      | [] => false
    else if 224 ≤ b ∧ b ≤ 239 then
      match rest with
      | c1 :: c2 :: rest2 =>
        (if b = 224 then decide (160 ≤ c1 ∧ c1 ≤ 191)
         else if b = 237 then decide (128 ≤ c1 ∧ c1 ≤ 159)
         else decide (128 ≤ c1 ∧ c1 ≤ 191)) &&
          decide (128 ≤ c2 ∧ c2 ≤ 191) && isUtf8 rest2
      | _ => false
    else if 240 ≤ b ∧ b ≤ 244 then
      match rest with
      | c1 :: c2 :: c3 :: rest3 =>
        (if b = 240 then decide (144 ≤ c1 ∧ c1 ≤ 191)
         else if b = 244 then decide (128 ≤ c1 ∧ c1 ≤ 143)
         else decide (128 ≤ c1 ∧ c1 ≤ 191)) &&
          decide (128 ≤ c2 ∧ c2 ≤ 191) && decide (128 ≤ c3 ∧ c3 ≤ 191) && isUtf8 rest3
      | _ => false
    else false

/-- Element access in a frame sequence. -/
def FrameList.get? : FrameList → Nat → Option RespFrame
  | .nil, _ => none
  | .cons f _, 0 => some f
  | .cons _ fs, n + 1 => fs.get? n

/-- `validate_command`: the array must have exactly
`names.length + nArgs` elements, and each leading position must hold a
bulk string matching the expected name case-insensitively. -/
def validateCommand (v : FrameList) (names : List (List Nat)) (nArgs : Nat) : Except CommandError Unit :=
  if v.length ≠ nArgs + names.length then .error .invalidArgument
  else
    let rec go : List (List Nat) → Nat → Except CommandError Unit
      | [], _ => .ok ()
      | name :: more, i =>
        match v.get? i with
        | some (.bulkString cmd) =>
          if cmd.map lowerByte = name then go more (i + 1) else .error .invalidCommand
        | _ => .error .invalidCommand
    go names 0

/-- Modelled from the spec: `Get::try_from` (in `cmd/map.rs`, absent
from `src/`): validate the shape, then extract the key from the single
bulk-string argument; the key bytes become a `String` through
`String::from_utf8`, so a non-UTF-8 key is a `Utf8Error` (§7). -/
def getTryFrom (v : FrameList) : Except CommandError Command :=
  match validateCommand v [[103, 101, 116]] 1 with
  | .error e => .error e
  | .ok _ =>
    match v.get? 1 with
    | some (.bulkString key) =>
      if isUtf8 key then .ok (.get key) else .error .utf8Err
    | _ => .error .invalidArgument

/-- Modelled from the spec: `Set::try_from` (in `cmd/map.rs`, absent
from `src/`): a bulk-string key (a `String` via `String::from_utf8`, so
a non-UTF-8 key is a `Utf8Error`) and an arbitrary value frame. -/
def setTryFrom (v : FrameList) : Except CommandError Command :=
  match validateCommand v [[115, 101, 116]] 2 with
  | .error e => .error e
  | .ok _ =>
    match v.get? 1, v.get? 2 with
    | some (.bulkString key), some value =>
      if isUtf8 key then .ok (.set key value) else .error .utf8Err
    | _, _ => .error .invalidArgument

/-- Modelled from the spec: `HGet::try_from` (in `cmd/hmap.rs`, absent
from `src/`); key and field become `String`s, so non-UTF-8 bytes are a
`Utf8Error`. -/
def hgetTryFrom (v : FrameList) : Except CommandError Command :=
  match validateCommand v [[104, 103, 101, 116]] 2 with
  | .error e => .error e
  | .ok _ =>
    match v.get? 1, v.get? 2 with
    | some (.bulkString key), some (.bulkString field) =>
      if isUtf8 key && isUtf8 field then .ok (.hget key field) else .error .utf8Err
    | _, _ => .error .invalidArgument

/-- Modelled from the spec: `HSet::try_from` (in `cmd/hmap.rs`, absent
from `src/`); key and field become `String`s, so non-UTF-8 bytes are a
`Utf8Error`. -/
def hsetTryFrom (v : FrameList) : Except CommandError Command :=
  match validateCommand v [[104, 115, 101, 116]] 3 with
  | .error e => .error e
  | .ok _ =>
    match v.get? 1, v.get? 2, v.get? 3 with
    | some (.bulkString key), some (.bulkString field), some value =>
      if isUtf8 key && isUtf8 field then .ok (.hset key field value) else .error .utf8Err
    | _, _, _ => .error .invalidArgument

/-- Modelled from the spec: `HGetAll::try_from` (in `cmd/hmap.rs`,
absent from `src/`); the `sort` flag is off for decoded commands, and a
non-UTF-8 key is a `Utf8Error`. -/
def hgetallTryFrom (v : FrameList) : Except CommandError Command :=
  match validateCommand v [[104, 103, 101, 116, 97, 108, 108]] 1 with
  | .error e => .error e
  | .ok _ =>
    match v.get? 1 with
    | some (.bulkString key) =>
      if isUtf8 key then .ok (.hgetall key false) else .error .utf8Err
    | _ => .error .invalidArgument

/-- `TryFrom<RespArray> for Command` in `cmd/mod.rs`: dispatch on the
first element, which must be a bulk string; its bytes are compared
*exactly* (no case folding) against the five lowercase command names,
and any other name maps to `Unrecognized`. -/
def commandFromArray (v : FrameList) : Except CommandError Command :=
  match v.get? 0 with
  | some (.bulkString cmd) =>
    if cmd = [103, 101, 116] then getTryFrom v
    else if cmd = [115, 101, 116] then setTryFrom v
    else if cmd = [104, 103, 101, 116] then hgetTryFrom v
    else if cmd = [104, 115, 101, 116] then hsetTryFrom v
    else if cmd = [104, 103, 101, 116, 97, 108, 108] then hgetallTryFrom v
    else .ok .unrecognized
  | _ => .error .invalidCommand

/-! ## The strategy-B-friendly fragment -/

mutual

/-- The fragment of well-formed frames on which strategy B succeeds and
agrees with strategy A: no sets (the `~` arm is commented out in
`respv2/parser.rs`), no non-negative integers (B's `integer` accepts no
`+` sign while the encoder emits one), no integer below `-maxI64` — in
particular not the smallest `i64`, whose digit run overflows B's
unsigned-first `i64` parse — no booleans (B's `boolean` does not consume
its CRLF), no empty bulk strings (B's zero-length shortcut does not skip
the payload CRLF), and no bulk-string payload or declared element count
beyond `maxI64` (B parses every length through the same `i64` parser). -/
def v2Friendly : RespFrame → Bool
  | .simpleString _ => true
  | .error _ => true
  | .integer i => decide (i < 0 ∧ -i ≤ (maxI64 : Int))
  | .bulkString p => !p.isEmpty && decide (p.length ≤ maxI64)
  | .nullBulkString => true
  | .nullArray => true
  | .null => true
  | .boolean _ => false
  | .double _ _ => true
  | .array fs => decide (fs.length ≤ maxI64) && v2FriendlyList fs
  | .map ps => decide (ps.length ≤ maxI64) && v2FriendlyPairs ps
  | .set _ => false

/-- Friendliness of every frame of a sequence. -/
def v2FriendlyList : FrameList → Bool
  | .nil => true
  | .cons f fs => v2Friendly f && v2FriendlyList fs

/-- Friendliness of every value of a map body. -/
def v2FriendlyPairs : PairList → Bool
  | .nil => true
  | .cons _ v ps => v2Friendly v && v2FriendlyPairs ps

end

/-! ## Foundational lemmas: digits -/

theorem isDigitByte_iff {b : Nat} : isDigitByte b = true ↔ 48 ≤ b ∧ b ≤ 57 := by
  simp [isDigitByte]

theorem digitsLE_all_digit : ∀ fuel n, n ≤ fuel → ∀ b ∈ digitsLE fuel n, isDigitByte b = true := by
  intro fuel
  induction fuel with
  | zero => intro n _ b hb; simp [digitsLE] at hb
  | succ fuel ih =>
    intro n hn b hb
    by_cases h0 : n = 0
    · simp [digitsLE, h0] at hb
    · simp only [digitsLE, if_neg h0, List.mem_cons] at hb
      rcases hb with hb | hb
      · subst hb
        rw [isDigitByte_iff]
        omega
      · exact ih (n / 10) (by omega) b hb

theorem digitsVal_append (l : List Nat) (d : Nat) :
    digitsVal (l ++ [d]) = digitsVal l * 10 + (d - 48) := by
  simp [digitsVal, List.foldl_append]

theorem digitsLE_val : ∀ fuel n, n ≤ fuel → digitsVal (digitsLE fuel n).reverse = n := by
  intro fuel
  induction fuel with
  | zero => intro n hn; interval_cases n; simp [digitsLE, digitsVal]
  | succ fuel ih =>
    intro n hn
    by_cases h0 : n = 0
    · simp [digitsLE, h0, digitsVal]
    · simp only [digitsLE, if_neg h0, List.reverse_cons]
      rw [digitsVal_append, ih (n / 10) (by omega)]
      omega

theorem digitsVal_natBytes (n : Nat) : digitsVal (natBytes n) = n := by
  by_cases h0 : n = 0
  · simp [natBytes, h0, digitsVal]
  · simp only [natBytes, if_neg h0]
    exact digitsLE_val n n le_rfl

theorem natBytes_all_digit (n : Nat) : ∀ b ∈ natBytes n, isDigitByte b = true := by
  by_cases h0 : n = 0
  · intro b hb
    simp [natBytes, h0] at hb
    subst hb; decide
  · intro b hb
    simp only [natBytes, if_neg h0, List.mem_reverse] at hb
    exact digitsLE_all_digit n n le_rfl b hb

theorem natBytes_ne_nil (n : Nat) : natBytes n ≠ [] := by
  by_cases h0 : n = 0
  · simp [natBytes, h0]
  · simp only [natBytes, if_neg h0]
    match hfuel : n, h0 with
    | fuel + 1, _ =>
      simp [digitsLE]

theorem natBytes_cons (n : Nat) :
    ∃ d ds, natBytes n = d :: ds ∧ isDigitByte d = true := by
  match h : natBytes n with
  | [] => exact absurd h (natBytes_ne_nil n)
  | d :: ds =>
    refine ⟨d, ds, rfl, ?_⟩
    exact natBytes_all_digit n d (by rw [h]; exact List.mem_cons_self d ds)

theorem takeDigits_append (ds rest : List Nat) (h : ∀ b ∈ ds, isDigitByte b = true)
    (h2 : ∀ b, rest.head? = some b → isDigitByte b = false) :
    takeDigits (ds ++ rest) = (ds, rest) := by
  induction ds with
  | nil =>
    simp only [List.nil_append]
    match rest with
    | [] => rfl
    | b :: r =>
      have := h2 b rfl
      simp [takeDigits, this]
  | cons d ds ih =>
    have hd : isDigitByte d = true := h d (List.mem_cons_self d ds)
    have hrec := ih (fun b hb => h b (List.mem_cons_of_mem d hb))
    simp [takeDigits, hd, hrec]

theorem parseNatAll_natBytes (n : Nat) (h : natBytes n ≠ []) :
    parseNatAll (natBytes n) = some n := by
  match hb : natBytes n with
  | [] => exact absurd hb h
  | d :: ds =>
    have hall : (natBytes n).all isDigitByte = true := by
      rw [List.all_eq_true]
      exact natBytes_all_digit n
    rw [hb] at hall
    simp only [parseNatAll, hall, if_true]
    rw [← hb, digitsVal_natBytes]

theorem parseSignedInt_natBytes (n : Nat) :
    parseSignedInt (natBytes n) = some (n : Int) := by
  obtain ⟨d, ds, hds, hd⟩ := natBytes_cons n
  have h43 : d ≠ 43 := by rw [isDigitByte_iff] at hd; omega
  have h45 : d ≠ 45 := by rw [isDigitByte_iff] at hd; omega
  have hpn : parseNatAll (natBytes n) = some n := parseNatAll_natBytes n (by rw [hds]; simp)
  rw [hds] at hpn ⊢
  match hm : d, h43, h45 with
  | b, _, _ =>
    simp only [parseSignedInt]
    split
    · rename_i heq; injection heq with h1 _; omega
    · rename_i heq; injection heq with h1 _; omega
    · simp [hpn]

theorem parseSignedInt_pos (n : Nat) :
    parseSignedInt (43 :: natBytes n) = some (n : Int) := by
  have hpn : parseNatAll (natBytes n) = some n := parseNatAll_natBytes n (natBytes_ne_nil n)
  simp [parseSignedInt, hpn]

theorem parseSignedInt_neg (n : Nat) :
    parseSignedInt (45 :: natBytes n) = some (-(n : Int)) := by
  have hpn : parseNatAll (natBytes n) = some n := parseNatAll_natBytes n (natBytes_ne_nil n)
  simp [parseSignedInt, hpn]

/-! ## Foundational lemmas: CRLF search -/

theorem noCRLF_cons {a : Nat} {l : List Nat} (h : noCRLF (a :: l) = true) : noCRLF l = true := by
  match l with
  | [] => rfl
  | b :: r =>
    rw [noCRLF] at h
    split at h
    · exact absurd h (by simp)
    · exact h

theorem noCRLF_pair {a b : Nat} {l : List Nat} (h : noCRLF (a :: b :: l) = true) :
    ¬(a = 13 ∧ b = 10) := by
  intro hab
  rw [noCRLF, if_pos hab] at h
  exact absurd h (by simp)

theorem lastNotCR_cons {a : Nat} {l : List Nat} (h : lastNotCR (a :: l) = true) (hne : l ≠ []) :
    lastNotCR l = true := by
  match l, hne with
  | b :: r, _ => exact h

theorem findCRLF_append (s rest : List Nat) (h1 : noCRLF s = true) (h2 : lastNotCR s = true) :
    findCRLF (s ++ 13 :: 10 :: rest) = some s.length := by
  induction s with
  | nil => simp [findCRLF]
  | cons a s ih =>
    match s with
    | [] =>
      have ha13 : a ≠ 13 := by
        simpa [lastNotCR] using h2
      simp [findCRLF, ha13]
    | b :: r =>
      have hpair : ¬(a = 13 ∧ b = 10) := noCRLF_pair h1
      have ihx := ih (noCRLF_cons h1) (lastNotCR_cons h2 (by simp))
      simp only [List.cons_append]
      rw [findCRLF, if_neg hpair]
      simp only [List.cons_append] at ihx
      rw [ihx]
      simp [List.length_cons]

theorem noCRLF_take (l : List Nat) (k : Nat) (h : noCRLF l = true) : noCRLF (l.take k) = true := by
  induction l generalizing k with
  | nil => simp [List.take_nil]; rfl
  | cons a l ih =>
    match k with
    | 0 => rfl
    | k + 1 =>
      simp only [List.take_succ_cons]
      match l with
      | [] => simp [List.take_nil]; rfl
      | b :: r =>
        match k with
        | 0 => rfl
        | k2 + 1 =>
          have hpair : ¬(a = 13 ∧ b = 10) := noCRLF_pair h
          have iht := ih (k2 + 1) (noCRLF_cons h)
          simp only [List.take_succ_cons] at iht ⊢
          rw [noCRLF, if_neg hpair]
          exact iht

theorem noCRLF_append_cr (s : List Nat) (h1 : noCRLF s = true) (h2 : lastNotCR s = true) :
    noCRLF (s ++ [13]) = true := by
  induction s with
  | nil => rfl
  | cons a s ih =>
    match s with
    | [] =>
      have ha13 : a ≠ 13 := by simpa [lastNotCR] using h2
      simp only [List.nil_append, List.cons_append]
      rw [noCRLF, if_neg (by rintro ⟨_, ⟨⟩⟩)]
      rfl
    | b :: r =>
      have hpair : ¬(a = 13 ∧ b = 10) := noCRLF_pair h1
      have ihx := ih (noCRLF_cons h1) (lastNotCR_cons h2 (by simp))
      simp only [List.cons_append]
      rw [noCRLF, if_neg hpair]
      simp only [List.cons_append] at ihx
      exact ihx

theorem findCRLF_eq_none_of_noCRLF (l : List Nat) (h : noCRLF l = true) : findCRLF l = none := by
  induction l with
  | nil => rfl
  | cons a l ih =>
    match l with
    | [] => rfl
    | b :: r =>
      have hpair : ¬(a = 13 ∧ b = 10) := noCRLF_pair h
      rw [findCRLF, if_neg hpair, ih (noCRLF_cons h)]
      rfl

theorem noCRLF_of_all_ne13 (l : List Nat) (h : ∀ b ∈ l, b ≠ 13) : noCRLF l = true := by
  induction l with
  | nil => rfl
  | cons a l ih =>
    match l with
    | [] => rfl
    | b :: r =>
      rw [noCRLF, if_neg (by rintro ⟨ha, _⟩; exact h a (by simp) ha)]
      exact ih (fun b hb => h b (List.mem_cons_of_mem a hb))

theorem lastNotCR_of_all_ne13 (l : List Nat) (h : ∀ b ∈ l, b ≠ 13) : lastNotCR l = true := by
  induction l with
  | nil => rfl
  | cons a l ih =>
    match l with
    | [] => simpa [lastNotCR] using h a (by simp)
    | b :: r =>
      rw [lastNotCR]
      exact ih (fun b hb => h b (List.mem_cons_of_mem a hb))

theorem lineClean_of_all_ne13 (l : List Nat) (h : ∀ b ∈ l, b ≠ 13) : lineClean l = true := by
  simp [lineClean, noCRLF_of_all_ne13 l h, lastNotCR_of_all_ne13 l h]

theorem natBytes_all_ne13 (n : Nat) : ∀ b ∈ natBytes n, b ≠ 13 := by
  intro b hb
  have := natBytes_all_digit n b hb
  rw [isDigitByte_iff] at this
  omega

/-! ## Foundational lemmas: decimal values and rendering -/

theorem digitsVal_foldl_init (l : List Nat) :
    ∀ init, l.foldl (fun a b => a * 10 + (b - 48)) init = init * 10 ^ l.length + digitsVal l := by
  induction l with
  | nil => intro init; simp [digitsVal]
  | cons d r ih =>
    intro init
    have h1 := ih (init * 10 + (d - 48))
    have h2 := ih (d - 48)
    simp only [List.foldl_cons, List.length_cons]
    rw [h1]
    have hv : digitsVal (d :: r) = (d - 48) * 10 ^ r.length + digitsVal r := by
      simp only [digitsVal, List.foldl_cons]
      have := ih (0 * 10 + (d - 48))
      simpa using this
    rw [hv]
    ring

theorem digitsVal_append_gen (a b : List Nat) :
    digitsVal (a ++ b) = digitsVal a * 10 ^ b.length + digitsVal b := by
  simp only [digitsVal, List.foldl_append]
  exact digitsVal_foldl_init b (List.foldl (fun a b => a * 10 + (b - 48)) 0 a)

theorem digitsVal_replicate48 (k : Nat) : digitsVal (List.replicate k 48) = 0 := by
  induction k with
  | zero => rfl
  | succ k ih =>
    simp only [List.replicate_succ, digitsVal, List.foldl_cons] at ih ⊢
    simpa using ih

theorem digitsVal_zeros_append (k : Nat) (l : List Nat) :
    digitsVal (List.replicate k 48 ++ l) = digitsVal l := by
  simp only [digitsVal, List.foldl_append]
  have : List.foldl (fun a b => a * 10 + (b - 48)) 0 (List.replicate k 48) = 0 := by
    simpa [digitsVal] using digitsVal_replicate48 k
  rw [this]

theorem digitsVal_split (l : List Nat) (j : Nat) :
    digitsVal (l.take j) * 10 ^ (l.length - j) + digitsVal (l.drop j) = digitsVal l := by
  conv_rhs => rw [← List.take_append_drop j l]
  rw [digitsVal_append_gen]
  congr 2
  simp [List.length_drop]

theorem stripTens_stop (fuel n : Nat) (e : Int) (h : n = 0 ∨ n % 10 ≠ 0) :
    stripTens fuel n e = (n, e) := by
  match fuel with
  | 0 => rfl
  | fuel + 1 =>
    have : ¬(n ≠ 0 ∧ n % 10 = 0) := by omega
    simp [stripTens, this]

theorem stripTens_mul_pow (n : Nat) (hn : 1 ≤ n) (hd : n % 10 ≠ 0) :
    ∀ (k : Nat) (fuel : Nat), n * 10 ^ k ≤ fuel → ∀ e : Int,
      stripTens fuel (n * 10 ^ k) e = (n, e + (k : Int)) := by
  intro k
  induction k with
  | zero =>
    intro fuel _ e
    simpa using stripTens_stop fuel n e (Or.inr hd)
  | succ k ih =>
    intro fuel hfuel e
    have hp : (0 : Nat) < 10 ^ k := Nat.pos_pow_of_pos k (by omega)
    have hpow : 10 ^ (k + 1) = 10 ^ k * 10 := pow_succ 10 k
    have hnk : 1 ≤ n * 10 ^ k := Nat.one_le_iff_ne_zero.mpr (by positivity)
    have hlt : n * 10 ^ k < n * 10 ^ (k + 1) := by
      have h2 : n * 10 ^ (k + 1) = n * 10 ^ k * 10 := by rw [hpow]; ring
      omega
    match fuel, hfuel with
    | 0, hfuel => omega
    | fuel + 1, hfuel =>
      have hcond : n * 10 ^ (k + 1) ≠ 0 ∧ n * 10 ^ (k + 1) % 10 = 0 := by
        constructor
        · positivity
        · rw [hpow, ← mul_assoc]
          exact Nat.mul_mod_left (n * 10 ^ k) 10
      rw [stripTens, if_pos hcond]
      have hdiv : n * 10 ^ (k + 1) / 10 = n * 10 ^ k := by
        rw [hpow, ← mul_assoc]
        exact Nat.mul_div_cancel _ (by omega)
      rw [hdiv, ih fuel (by omega) (e + 1)]
      rw [Prod.mk.injEq]
      refine ⟨rfl, ?_⟩
      push_cast
      ring

theorem normPair_zero (e : Int) : normPair 0 e = (0, 0) := by
  simp [normPair]

theorem normPair_of_norm (m e : Int) (hm : m ≠ 0) (hd : m.natAbs % 10 ≠ 0) :
    ∀ k : Nat, normPair (m * 10 ^ k) e = (m, e + (k : Int)) := by
  intro k
  have hm0 : m * 10 ^ k ≠ 0 := by
    intro h
    rcases mul_eq_zero.mp h with h | h
    · exact hm h
    · exact absurd h (by positivity)
  have habs : (m * 10 ^ k).natAbs = m.natAbs * 10 ^ k := by
    rw [Int.natAbs_mul]
    congr 1
    simp [Int.natAbs_pow]
  have hstrip := stripTens_mul_pow m.natAbs (by omega) hd k (m.natAbs * 10 ^ k) le_rfl e
  simp only [normPair, if_neg hm0, habs, hstrip]
  by_cases hneg : m < 0
  · have hlt : m * 10 ^ k < 0 := by
      apply mul_neg_of_neg_of_pos hneg
      positivity
    rw [if_pos hlt, Prod.mk.injEq]
    refine ⟨?_, rfl⟩
    have : (m.natAbs : Int) = -m := by omega
    rw [this]
    ring
  · have hpos : 0 < m := lt_of_le_of_ne (not_lt.mp hneg) (Ne.symm hm)
    have hnlt : ¬(m * 10 ^ k < 0) := by
      push_neg
      positivity
    rw [if_neg hnlt, Prod.mk.injEq]
    refine ⟨?_, rfl⟩
    simp [Int.natAbs_of_nonneg (le_of_lt hpos)]

/-- A stop sequence for the greedy float-literal parser: empty, or
starting with a byte that cannot continue the literal. -/
def nonNumHead (l : List Nat) : Bool :=
  match l with
  | [] => true
  | b :: _ => !isDigitByte b && b ≠ 46 && b ≠ 101 && b ≠ 69

theorem nonNumHead_crlf (r : List Nat) : nonNumHead (13 :: 10 :: r) = true := by
  simp [nonNumHead, isDigitByte]

theorem takeDigits_stop (l : List Nat) (h : nonNumHead l = true) : takeDigits l = ([], l) := by
  match l with
  | [] => rfl
  | b :: r =>
    simp only [nonNumHead, Bool.and_eq_true, Bool.not_eq_true'] at h
    simp [takeDigits, h.1.1.1]

theorem takeDigits_block (ds rest : List Nat) (h : ∀ b ∈ ds, isDigitByte b = true)
    (h2 : nonNumHead rest = true) : takeDigits (ds ++ rest) = (ds, rest) := by
  apply takeDigits_append ds rest h
  intro b hb
  match rest, hb with
  | b :: r, hb =>
    injection hb with hb
    subst hb
    simp only [nonNumHead, Bool.and_eq_true, Bool.not_eq_true'] at h2
    exact h2.1.1.1

theorem nonNumHead_elim {b : Nat} {r : List Nat} (h : nonNumHead (b :: r) = true) :
    isDigitByte b = false ∧ b ≠ 46 ∧ b ≠ 101 ∧ b ≠ 69 := by
  simp only [nonNumHead, Bool.and_eq_true, Bool.not_eq_true', decide_eq_true_eq] at h
  exact ⟨h.1.1.1, h.1.1.2, h.1.2, h.2⟩

theorem fracSplit_stop (l2 : List Nat) (h : nonNumHead l2 = true) : fracSplit l2 = ([], l2) := by
  match l2 with
  | [] => rfl
  | b :: r =>
    have h46 := (nonNumHead_elim h).2.1
    simp [fracSplit, h46]

theorem expSplit_stop (fl : Nat) (l3 : List Nat) (h : nonNumHead l3 = true) :
    expSplit fl l3 = some (-(fl : Int), l3) := by
  match l3 with
  | [] => rfl
  | b :: r =>
    obtain ⟨_, _, h101, h69⟩ := nonNumHead_elim h
    simp [expSplit, h101, h69]

theorem parseFloatExp_bare (fl v : Nat) (stop : List Nat) (hstop : nonNumHead stop = true) :
    parseFloatExp fl (natBytes v ++ stop) = some ((v : Int) - fl, stop) := by
  obtain ⟨d, ds, hds, hd⟩ := natBytes_cons v
  have h43 : d ≠ 43 := by rw [isDigitByte_iff] at hd; omega
  have h45 : d ≠ 45 := by rw [isDigitByte_iff] at hd; omega
  have hhead : (natBytes v ++ stop).head? = some d := by rw [hds]; rfl
  have htd := takeDigits_block (natBytes v) stop (natBytes_all_digit v) hstop
  rw [parseFloatExp]
  simp only [hhead, Option.some_inj]
  rw [if_neg h43, if_neg h45]
  simp only [htd]
  match hnb : natBytes v, htd with
  | [], _ => exact absurd hnb (natBytes_ne_nil v)
  | e :: es, htd =>
    simp only
    rw [← hnb, digitsVal_natBytes]
    rw [Option.some_inj, Prod.mk.injEq]
    constructor
    · omega
    · rfl

theorem parseFloatExp_neg (fl v : Nat) (stop : List Nat) (hstop : nonNumHead stop = true) :
    parseFloatExp fl (45 :: (natBytes v ++ stop)) = some (-(v : Int) - fl, stop) := by
  have htd := takeDigits_block (natBytes v) stop (natBytes_all_digit v) hstop
  rw [parseFloatExp]
  simp only [List.head?_cons, Option.some_inj, List.tail_cons]
  norm_num
  simp only [htd]
  match hnb : natBytes v, htd with
  | [], _ => exact absurd hnb (natBytes_ne_nil v)
  | e :: es, htd =>
    simp only
    rw [← hnb, digitsVal_natBytes]

theorem parseFloatMag_fixed_nonneg (n k : Nat) (stop : List Nat) (hstop : nonNumHead stop = true) :
    parseFloatMag ((natBytes n ++ List.replicate k 48) ++ stop) = some ((n * 10 ^ k, 0), stop) := by
  have hall : ∀ b ∈ natBytes n ++ List.replicate k 48, isDigitByte b = true := by
    intro b hb
    rcases List.mem_append.mp hb with hb | hb
    · exact natBytes_all_digit n b hb
    · rw [List.eq_of_mem_replicate hb]; decide
  have htd := takeDigits_block (natBytes n ++ List.replicate k 48) stop hall hstop
  have hne : (natBytes n ++ List.replicate k 48).length ≠ 0 := by
    have := natBytes_ne_nil n
    simp [List.length_append]
    intro h
    exact absurd h this
  have hval : digitsVal (natBytes n ++ List.replicate k 48) = n * 10 ^ k := by
    rw [digitsVal_append_gen, digitsVal_natBytes, digitsVal_replicate48, List.length_replicate]
    omega
  simp only [parseFloatMag, htd, fracSplit_stop stop hstop]
  rw [if_neg (by simpa using hne)]
  simp only [List.length_nil]
  rw [expSplit_stop 0 stop hstop]
  have h0 : digitsVal [] = 0 := rfl
  simp [hval, h0]

theorem parseFloatMag_fixed_frac_small (n k : Nat) (stop : List Nat) (h1 : 1 ≤ k)
    (hk : k < (natBytes n).length) (hstop : nonNumHead stop = true) :
    parseFloatMag ((natBytes n).take ((natBytes n).length - k) ++
      46 :: ((natBytes n).drop ((natBytes n).length - k) ++ stop)) = some ((n, -(k : Int)), stop) := by
  have hids : ∀ b ∈ (natBytes n).take ((natBytes n).length - k), isDigitByte b = true :=
    fun b hb => natBytes_all_digit n b (List.take_subset _ _ hb)
  have hfds : ∀ b ∈ (natBytes n).drop ((natBytes n).length - k), isDigitByte b = true :=
    fun b hb => natBytes_all_digit n b (List.drop_subset _ _ hb)
  have htd1 : takeDigits ((natBytes n).take ((natBytes n).length - k) ++
      46 :: ((natBytes n).drop ((natBytes n).length - k) ++ stop)) =
      ((natBytes n).take ((natBytes n).length - k),
        46 :: ((natBytes n).drop ((natBytes n).length - k) ++ stop)) := by
    apply takeDigits_append _ _ hids
    intro b hb
    injection hb with hb
    subst hb
    decide
  have htd2 := takeDigits_block ((natBytes n).drop ((natBytes n).length - k)) stop hfds hstop
  have hlt : (natBytes n).length - k ≤ (natBytes n).length := by omega
  have hidlen : ((natBytes n).take ((natBytes n).length - k)).length = (natBytes n).length - k := by
    simp [List.length_take]
  have hfdlen : ((natBytes n).drop ((natBytes n).length - k)).length = k := by
    simp [List.length_drop]
    omega
  simp only [parseFloatMag, htd1]
  have hfs : fracSplit (46 :: ((natBytes n).drop ((natBytes n).length - k) ++ stop)) =
      ((natBytes n).drop ((natBytes n).length - k), stop) := by
    simp [fracSplit, htd2]
  rw [hfs]
  rw [if_neg (by simp [hidlen, hfdlen]; omega)]
  rw [expSplit_stop _ stop hstop]
  have hmag := digitsVal_split (natBytes n) ((natBytes n).length - k)
  rw [digitsVal_natBytes] at hmag
  have hexp : (natBytes n).length - ((natBytes n).length - k) = k := by omega
  rw [hexp] at hmag
  simp [hfdlen, hmag]

theorem parseFloatMag_fixed_frac_big (n k : Nat) (stop : List Nat)
    (hk : (natBytes n).length ≤ k) (hstop : nonNumHead stop = true) :
    parseFloatMag (48 :: 46 :: ((List.replicate (k - (natBytes n).length) 48 ++ natBytes n) ++ stop)) =
      some ((n, -(k : Int)), stop) := by
  have hall : ∀ b ∈ List.replicate (k - (natBytes n).length) 48 ++ natBytes n, isDigitByte b = true := by
    intro b hb
    rcases List.mem_append.mp hb with hb | hb
    · rw [List.eq_of_mem_replicate hb]; decide
    · exact natBytes_all_digit n b hb
  have htd2 := takeDigits_block (List.replicate (k - (natBytes n).length) 48 ++ natBytes n) stop hall hstop
  rw [List.append_assoc] at htd2
  have htd1 : takeDigits (48 :: 46 :: ((List.replicate (k - (natBytes n).length) 48 ++ natBytes n) ++ stop)) =
      ([48], 46 :: ((List.replicate (k - (natBytes n).length) 48 ++ natBytes n) ++ stop)) := by
    rw [takeDigits]
    rw [show isDigitByte 48 = true from rfl]
    simp only [if_true]
    rw [takeDigits]
    rw [show isDigitByte 46 = false from rfl]
    simp
  have hlen : (List.replicate (k - (natBytes n).length) 48 ++ natBytes n).length = k := by
    have h1 : 1 ≤ (natBytes n).length := by
      have := natBytes_ne_nil n
      cases hnb : natBytes n with
      | nil => exact absurd hnb this
      | cons a l => simp [hnb]
    simp [List.length_append]
    omega
  have hval : digitsVal (List.replicate (k - (natBytes n).length) 48 ++ natBytes n) = n := by
    rw [digitsVal_zeros_append, digitsVal_natBytes]
  simp only [parseFloatMag, htd1]
  have hfs : fracSplit (46 :: ((List.replicate (k - (natBytes n).length) 48 ++ natBytes n) ++ stop)) =
      (List.replicate (k - (natBytes n).length) 48 ++ natBytes n, stop) := by
    simp [fracSplit, htd2]
  rw [hfs]
  rw [if_neg (by simp)]
  rw [expSplit_stop _ stop hstop]
  have h48 : digitsVal [48] = 0 := rfl
  simp [hlen, hval, h48]

theorem expSplit_shown (fl : Nat) (shown : Int) (rest : List Nat) (hrest : nonNumHead rest = true) :
    expSplit fl (101 ::
      ((if shown < 0 then 45 :: natBytes (-shown).toNat else natBytes shown.toNat) ++ rest)) =
      some (shown - fl, rest) := by
  rw [expSplit]
  rw [if_pos (by simp)]
  simp only [List.tail_cons]
  by_cases hsh : shown < 0
  · rw [if_pos hsh]
    simp only [List.cons_append]
    rw [parseFloatExp_neg fl ((-shown).toNat) rest hrest]
    rw [Option.some_inj, Prod.mk.injEq]
    refine ⟨?_, rfl⟩
    omega
  · rw [if_neg hsh]
    rw [parseFloatExp_bare fl (shown.toNat) rest hrest]
    rw [Option.some_inj, Prod.mk.injEq]
    refine ⟨?_, rfl⟩
    omega

theorem parseFloatMag_mantexp (d : Nat) (ds2 : List Nat) (hd : isDigitByte d = true)
    (halltail : ∀ b ∈ ds2, isDigitByte b = true) (shown : Int) (stop : List Nat)
    (hstop : nonNumHead stop = true) :
    parseFloatMag ((d :: (if ds2.length = 0 then [] else 46 :: ds2)) ++ 101 ::
      ((if shown < 0 then 45 :: natBytes (-shown).toNat else natBytes shown.toNat) ++ stop)) =
      some ((digitsVal (d :: ds2), shown - (ds2.length : Int)), stop) := by
  have hd46 : isDigitByte 46 = false := rfl
  have hd101 : isDigitByte 101 = false := rfl
  match ds2 with
  | [] =>
    simp only [List.length_nil, if_true, List.cons_append, List.nil_append, eq_self_iff_true]
    have htd1 : ∀ X : List Nat, takeDigits (d :: 101 :: X) = ([d], 101 :: X) := by
      intro X
      rw [takeDigits, if_pos hd, takeDigits, hd101]
      simp
    rw [parseFloatMag.eq_def, htd1]
    simp only
    have hfs : ∀ X : List Nat, fracSplit (101 :: X) = ([], 101 :: X) := by
      intro X
      simp [fracSplit]
    rw [hfs]
    rw [if_neg (by simp)]
    simp only [List.length_nil]
    rw [expSplit_shown 0 shown stop hstop]
    have h0 : digitsVal [] = 0 := rfl
    simp [h0]
  | d2 :: ds3 =>
    simp only [List.length_cons]
    rw [if_neg (by omega)]
    simp only [List.cons_append, List.append_assoc]
    have htd1 : ∀ X : List Nat, takeDigits (d :: 46 :: X) = ([d], 46 :: X) := by
      intro X
      rw [takeDigits, if_pos hd, takeDigits, hd46]
      simp
    rw [parseFloatMag.eq_def, htd1]
    simp only
    have htd2 : takeDigits (d2 :: (ds3 ++ (101 ::
        ((if shown < 0 then 45 :: natBytes (-shown).toNat else natBytes shown.toNat) ++ stop)))) =
        ((d2 :: ds3), 101 ::
        ((if shown < 0 then 45 :: natBytes (-shown).toNat else natBytes shown.toNat) ++ stop)) := by
      have h := takeDigits_append (d2 :: ds3) (101 ::
        ((if shown < 0 then 45 :: natBytes (-shown).toNat else natBytes shown.toNat) ++ stop))
        halltail (by intro b hb; injection hb with hb; subst hb; exact hd101)
      simpa only [List.cons_append] using h
    have hfs : fracSplit (46 :: d2 :: (ds3 ++ (101 ::
        ((if shown < 0 then 45 :: natBytes (-shown).toNat else natBytes shown.toNat) ++ stop)))) =
        ((d2 :: ds3), 101 ::
        ((if shown < 0 then 45 :: natBytes (-shown).toNat else natBytes shown.toNat) ++ stop)) := by
      simp only [fracSplit, List.head?_cons, if_pos rfl, List.tail_cons]
      exact htd2
    rw [hfs]
    rw [if_neg (by simp)]
    rw [expSplit_shown (d2 :: ds3).length shown stop hstop]
    rw [Option.some_inj, Prod.mk.injEq]
    refine ⟨?_, rfl⟩
    rw [Prod.mk.injEq]
    refine ⟨?_, rfl⟩
    have hsp := digitsVal_split (d :: d2 :: ds3) 1
    have ht : (d :: d2 :: ds3).take 1 = [d] := rfl
    have hdr : (d :: d2 :: ds3).drop 1 = d2 :: ds3 := rfl
    rw [ht, hdr] at hsp
    have hlen : (d :: d2 :: ds3).length - 1 = (d2 :: ds3).length := by simp
    rw [hlen] at hsp
    exact hsp

theorem parseFloatMag_expform (n : Nat) (e : Int) (stop : List Nat) (hstop : nonNumHead stop = true) :
    parseFloatMag (renderExpPos n e ++ stop) = some ((n, e), stop) := by
  obtain ⟨d, ds2, hds, hd⟩ := natBytes_cons n
  have halltail : ∀ b ∈ ds2, isDigitByte b = true := by
    intro b hb
    apply natBytes_all_digit n b
    rw [hds]
    exact List.mem_cons_of_mem d hb
  have hshape : renderExpPos n e ++ stop =
      (d :: (if ds2.length = 0 then [] else 46 :: ds2)) ++ 101 ::
        ((if (e + ((natBytes n).length : Int) - 1) < 0 then
            45 :: natBytes (-(e + ((natBytes n).length : Int) - 1)).toNat
          else natBytes (e + ((natBytes n).length : Int) - 1).toNat) ++ stop) := by
    rw [renderExpPos, hds]
    match ds2 with
    | [] => simp [List.cons_append, List.append_assoc]
    | x :: xs => simp [List.cons_append, List.append_assoc]
  rw [hshape, parseFloatMag_mantexp d ds2 hd halltail _ stop hstop]
  rw [Option.some_inj, Prod.mk.injEq]
  refine ⟨?_, rfl⟩
  rw [Prod.mk.injEq]
  constructor
  · rw [← hds, digitsVal_natBytes]
  · have hl : (natBytes n).length = ds2.length + 1 := by rw [hds]; rfl
    rw [hl]
    push_cast
    ring

theorem renderFixedPos_ne13 (n : Nat) (e : Int) : ∀ b ∈ renderFixedPos n e, b ≠ 13 := by
  intro b hb
  rw [renderFixedPos] at hb
  by_cases he : 0 ≤ e
  · rw [if_pos he] at hb
    rcases List.mem_append.mp hb with hb | hb
    · exact natBytes_all_ne13 n b hb
    · rw [List.eq_of_mem_replicate hb]; decide
  · rw [if_neg he] at hb
    by_cases hkl : (-e).toNat < (natBytes n).length
    · rw [if_pos hkl] at hb
      rcases List.mem_append.mp hb with hb | hb
      · exact natBytes_all_ne13 n b (List.take_subset _ _ hb)
      · rcases List.mem_cons.mp hb with hb | hb
        · subst hb; decide
        · exact natBytes_all_ne13 n b (List.drop_subset _ _ hb)
    · rw [if_neg hkl] at hb
      rcases List.mem_cons.mp hb with hb | hb
      · subst hb; decide
      · rcases List.mem_cons.mp hb with hb | hb
        · subst hb; decide
        · rcases List.mem_append.mp hb with hb | hb
          · rw [List.eq_of_mem_replicate hb]; decide
          · exact natBytes_all_ne13 n b hb

theorem renderExpPos_ne13 (n : Nat) (e : Int) : ∀ b ∈ renderExpPos n e, b ≠ 13 := by
  intro b hb
  rw [renderExpPos] at hb
  simp only [List.mem_append, List.mem_cons] at hb
  rcases hb with (hb | hb) | hb | hb
  · obtain ⟨d, ds, hds, hd⟩ := natBytes_cons n
    subst hb
    rw [hds]
    simp only [List.headD_cons]
    have := natBytes_all_digit n d (by rw [hds]; exact List.mem_cons_self d ds)
    rw [isDigitByte_iff] at this
    omega
  · split at hb
    · simp at hb
    · rcases List.mem_cons.mp hb with hb | hb
      · subst hb; decide
      · exact natBytes_all_ne13 n b (List.tail_subset _ hb)
  · subst hb; decide
  · split at hb
    · rcases List.mem_cons.mp hb with hb | hb
      · subst hb; decide
      · exact natBytes_all_ne13 _ b hb
    · exact natBytes_all_ne13 _ b hb

theorem wfDouble_elim (m e : Int) (hwf : wfFrame (.double m e) = true) :
    (m = 0 → e = 0) ∧ (m ≠ 0 → m.natAbs % 10 ≠ 0) := by
  rw [wfFrame] at hwf
  by_cases hm : m = 0
  · rw [if_pos hm] at hwf
    simp only [decide_eq_true_eq] at hwf
    exact ⟨fun _ => hwf, fun h => absurd hm h⟩
  · rw [if_neg hm] at hwf
    simp only [decide_eq_true_eq] at hwf
    refine ⟨fun h => absurd h hm, fun _ => ?_⟩
    omega

theorem normPair_self (m e : Int) (hm : m ≠ 0) (hd : m.natAbs % 10 ≠ 0) :
    normPair m e = (m, e) := by
  have h := normPair_of_norm m e hm hd 0
  simpa using h

theorem doubleEncode_split (m e : Int) (hwf : wfFrame (.double m e) = true) :
    ∃ body, doubleEncode m e = 44 :: (body ++ [13, 10]) ∧ (∀ b ∈ body, b ≠ 13) ∧
      (∀ stop, nonNumHead stop = true →
        ∃ p : Int × Int, parseFloatLit (body ++ stop) = some (p, stop) ∧
          normPair p.1 p.2 = (m, e)) := by
  obtain ⟨hz, hnd⟩ := wfDouble_elim m e hwf
  by_cases hc : |doubleVal m e| > (100000000 : ℚ) ∨ |doubleVal m e| < (1 / 100000000 : ℚ)
  · refine ⟨(if m < 0 then 45 else 43) :: renderExpPos m.natAbs e, ?_, ?_, ?_⟩
    · rw [doubleEncode, if_pos hc]
      simp [CRLF, List.cons_append, List.append_assoc]
    · intro b hb
      rcases List.mem_cons.mp hb with hb | hb
      · subst hb
        split <;> decide
      · exact renderExpPos_ne13 m.natAbs e b hb
    · intro stop hstop
      have hmag := parseFloatMag_expform m.natAbs e stop hstop
      by_cases hneg : m < 0
      · refine ⟨(-(m.natAbs : Int), e), ?_, ?_⟩
        · rw [if_pos hneg]
          simp only [List.cons_append]
          rw [parseFloatLit]
          rw [hmag]
        · have habs : -((m.natAbs : Int)) = m := by omega
          rw [habs]
          exact normPair_self m e (by omega) (hnd (by omega))
      · refine ⟨((m.natAbs : Int), e), ?_, ?_⟩
        · rw [if_neg hneg]
          simp only [List.cons_append]
          rw [parseFloatLit]
          rw [hmag]
        · have habs : ((m.natAbs : Int)) = m := by omega
          rw [habs]
          by_cases hm0 : m = 0
          · subst hm0
            rw [hz rfl]
            exact normPair_zero 0
          · exact normPair_self m e hm0 (hnd hm0)
  · have hm0 : m ≠ 0 := by
      intro h
      subst h
      apply hc
      right
      have : doubleVal 0 e = 0 := by simp [doubleVal]
      rw [this]
      norm_num
    refine ⟨(if m < 0 then 45 else 43) :: renderFixedPos m.natAbs e, ?_, ?_, ?_⟩
    · rw [doubleEncode, if_neg hc]
      by_cases hneg : m < 0
      · rw [if_pos hneg, if_pos hneg]
        simp [CRLF, List.cons_append, List.append_assoc]
      · rw [if_neg hneg, if_neg hneg]
        simp [CRLF, List.cons_append, List.append_assoc]
    · intro b hb
      rcases List.mem_cons.mp hb with hb | hb
      · subst hb
        split <;> decide
      · exact renderFixedPos_ne13 m.natAbs e b hb
    · intro stop hstop
      have hq : ∃ q : Nat × Int, parseFloatMag (renderFixedPos m.natAbs e ++ stop) = some (q, stop) ∧
          normPair (if m < 0 then -(q.1 : Int) else (q.1 : Int)) q.2 = (m, e) := by
        by_cases he : 0 ≤ e
        · refine ⟨(m.natAbs * 10 ^ e.toNat, 0), ?_, ?_⟩
          · rw [renderFixedPos, if_pos he]
            exact parseFloatMag_fixed_nonneg m.natAbs e.toNat stop hstop
          · have hsigned : (if m < 0 then -((m.natAbs * 10 ^ e.toNat : Nat) : Int)
                else ((m.natAbs * 10 ^ e.toNat : Nat) : Int)) = m * 10 ^ e.toNat := by
              by_cases hneg : m < 0
              · rw [if_pos hneg]
                push_cast
                rw [abs_of_neg hneg]
                ring
              · rw [if_neg hneg]
                push_cast
                rw [abs_of_nonneg (not_lt.mp hneg)]
            rw [hsigned, normPair_of_norm m 0 hm0 (hnd hm0) e.toNat]
            rw [Prod.mk.injEq]
            refine ⟨rfl, ?_⟩
            omega
        · have hk1 : 1 ≤ (-e).toNat := by omega
          have hke : -((-e).toNat : Int) = e := by omega
          have hsignid : ∀ ex : Int, normPair (if m < 0 then -((m.natAbs : Nat) : Int)
              else ((m.natAbs : Nat) : Int)) ex = (m, ex) := by
            intro ex
            by_cases hneg : m < 0
            · rw [if_pos hneg]
              have habs : -((m.natAbs : Int)) = m := by omega
              rw [habs]
              exact normPair_self m ex hm0 (hnd hm0)
            · rw [if_neg hneg]
              have habs : ((m.natAbs : Int)) = m := by omega
              rw [habs]
              exact normPair_self m ex hm0 (hnd hm0)
          by_cases hkl : (-e).toNat < (natBytes m.natAbs).length
          · refine ⟨(m.natAbs, -(((-e).toNat : Nat) : Int)), ?_, ?_⟩
            · rw [renderFixedPos, if_neg he, if_pos hkl]
              have h := parseFloatMag_fixed_frac_small m.natAbs (-e).toNat stop hk1 hkl hstop
              simpa [List.append_assoc, List.cons_append] using h
            · rw [hke]
              exact hsignid e
          · refine ⟨(m.natAbs, -(((-e).toNat : Nat) : Int)), ?_, ?_⟩
            · rw [renderFixedPos, if_neg he, if_neg hkl]
              have h := parseFloatMag_fixed_frac_big m.natAbs (-e).toNat stop (by omega) hstop
              simpa [List.append_assoc, List.cons_append] using h
            · rw [hke]
              exact hsignid e
      obtain ⟨q, hqparse, hqnorm⟩ := hq
      by_cases hneg : m < 0
      · refine ⟨(-(q.1 : Int), q.2), ?_, ?_⟩
        · rw [if_pos hneg]
          simp only [List.cons_append]
          rw [parseFloatLit]
          rw [hqparse]
        · rw [if_pos hneg] at hqnorm
          exact hqnorm
      · refine ⟨((q.1 : Int), q.2), ?_, ?_⟩
        · rw [if_neg hneg]
          simp only [List.cons_append]
          rw [parseFloatLit]
          rw [hqparse]
        · rw [if_neg hneg] at hqnorm
          exact hqnorm

/-! ## Line-level lemmas for strategy A -/

theorem take_app {α : Type} (l t : List α) : (l ++ t).take l.length = l := by
  induction l with
  | nil => rfl
  | cons a l ih => simp [List.take_succ_cons, ih]

theorem drop_app {α : Type} (l t : List α) (k : Nat) : (l ++ t).drop (l.length + k) = t.drop k := by
  induction l with
  | nil => simp
  | cons a l ih => simpa [Nat.succ_add] using ih

theorem take_app_plus {α : Type} (l t : List α) (k : Nat) :
    (l ++ t).take (l.length + k) = l ++ t.take k := by
  induction l with
  | nil => simp
  | cons a l ih => simpa [Nat.succ_add] using ih

theorem drop_app_zero {α : Type} (l t : List α) : (l ++ t).drop l.length = t := by
  have := drop_app l t 0
  simpa using this

theorem lineClean_elim {s : List Nat} (h : lineClean s = true) :
    noCRLF s = true ∧ lastNotCR s = true := by
  simp only [lineClean, Bool.and_eq_true] at h
  exact h

theorem extractSimple_complete (pb : Nat) (s rest : List Nat) (hclean : lineClean s = true) :
    extractSimpleFrameData (pb :: (s ++ 13 :: 10 :: rest)) pb = .ok (s.length + 1) := by
  obtain ⟨h1, h2⟩ := lineClean_elim hclean
  rw [extractSimpleFrameData]
  rw [if_neg (by simp [List.length_append]; omega)]
  rw [List.head?_cons, if_pos rfl]
  simp only [List.drop_succ_cons, List.drop_zero]
  rw [findCRLF_append s rest h1 h2]

theorem line_content (pb : Nat) (s rest : List Nat) :
    (((pb :: (s ++ 13 :: 10 :: rest)).take (s.length + 1)).drop 1) = s := by
  simp only [List.take_succ_cons, List.drop_succ_cons, List.drop_zero]
  rw [List.take_append_of_le_length (by omega)]
  simp

theorem line_rest (pb : Nat) (s rest : List Nat) :
    (pb :: (s ++ 13 :: 10 :: rest)).drop (s.length + 1 + 2) = rest := by
  have h : s.length + 1 + 2 = (s.length + 2) + 1 := by omega
  rw [h]
  simp only [List.drop_succ_cons]
  have h2 := drop_app s (13 :: 10 :: rest) 2
  simpa using h2

theorem lineDecode_complete (pb : Nat) (s rest : List Nat) (hclean : lineClean s = true) :
    lineDecode pb (pb :: (s ++ 13 :: 10 :: rest)) = (.ok s, rest) := by
  rw [lineDecode, extractSimple_complete pb s rest hclean]
  simp only [line_content, line_rest]

theorem simpleExpectLen_complete (pb : Nat) (s rest : List Nat) (hclean : lineClean s = true) :
    simpleExpectLen pb (pb :: (s ++ 13 :: 10 :: rest)) = .ok (s.length + 3) := by
  rw [simpleExpectLen, extractSimple_complete pb s rest hclean]

theorem extractSimple_trunc (pb : Nat) (s : List Nat) (hclean : lineClean s = true)
    (k : Nat) (hk : k < s.length + 3) :
    extractSimpleFrameData ((pb :: (s ++ [13, 10])).take k) pb = .error .notComplete := by
  obtain ⟨h1, h2⟩ := lineClean_elim hclean
  match k, hk with
  | 0, _ => rfl
  | 1, _ =>
    rw [extractSimpleFrameData]
    rw [if_pos (by simp)]
  | 2, _ =>
    rw [extractSimpleFrameData]
    rw [if_pos (by simp [List.length_take])]
  | j + 3, hk =>
    rw [List.take_succ_cons]
    rw [extractSimpleFrameData]
    have hlen : ((s ++ [13, 10]).take (j + 2)).length = j + 2 := by
      simp [List.length_take, List.length_append]
      omega
    rw [if_neg (by simp only [List.length_cons]; omega)]
    rw [List.head?_cons, if_pos rfl]
    simp only [List.drop_succ_cons, List.drop_zero]
    have hno : noCRLF ((s ++ [13, 10]).take (j + 2)) = true := by
      by_cases hj : j + 2 ≤ s.length
      · rw [List.take_append_of_le_length hj]
        exact noCRLF_take s (j + 2) h1
      · have hj2 : j + 2 = s.length + 1 := by omega
        rw [hj2]
        have heq : (s ++ [13, 10]).take (s.length + 1) = s ++ [13] := by
          have h2a := take_app_plus s ([13, 10] : List Nat) 1
          simpa using h2a
        rw [heq]
        exact noCRLF_append_cr s h1 h2
    rw [findCRLF_eq_none_of_noCRLF _ hno]

theorem extractFixed_complete (pat rest : List Nat) :
    extractFixedData (pat ++ rest) pat = .ok () := by
  rw [extractFixedData]
  rw [if_neg (by simp [List.length_append])]
  rw [if_pos (take_app pat rest)]

theorem extractFixed_prefix (pat : List Nat) (k : Nat) (hk : k < pat.length) :
    extractFixedData (pat.take k) pat = .error .notComplete := by
  rw [extractFixedData]
  have hlen : (pat.take k).length = k := by simp [List.length_take]; omega
  rw [if_pos (by omega)]
  rw [if_pos (by rw [hlen])]

theorem extractFixed_mismatch2 (pb d d2 : Nat) (tail p3 : List Nat) (hd : d ≠ d2) :
    extractFixedData (pb :: d :: tail) (pb :: d2 :: p3) = .error .invalidFrameType := by
  rw [extractFixedData]
  by_cases hl : (pb :: d :: tail).length < (pb :: d2 :: p3).length
  · rw [if_pos hl]
    rw [if_neg ?hne]
    case hne =>
      intro heq
      have hlen : (pb :: d :: tail).length = tail.length + 2 := by simp
      simp only [List.length_cons] at heq
      rw [List.take_succ_cons, List.take_succ_cons] at heq
      injection heq with e1 e2
      injection e2 with e2 _
      exact hd e2
  · rw [if_neg hl]
    rw [if_neg ?hne2]
    case hne2 =>
      intro heq
      simp only [List.length_cons] at heq
      rw [List.take_succ_cons, List.take_succ_cons] at heq
      injection heq with e1 e2
      injection e2 with e2 _
      exact hd e2

theorem parseLength_complete (pb : Nat) (s rest : List Nat) (hclean : lineClean s = true) :
    parseLength (pb :: (s ++ 13 :: 10 :: rest)) pb =
      match parseSignedInt s with
      | some n => .ok (s.length + 1, n)
      | none => .error .parseIntFail := by
  rw [parseLength, extractSimple_complete pb s rest hclean]
  simp only [line_content]

theorem natBytes_lineClean (n : Nat) : lineClean (natBytes n) = true :=
  lineClean_of_all_ne13 (natBytes n) (natBytes_all_ne13 n)

theorem parseLength_nat (pb n : Nat) (rest : List Nat) :
    parseLength (pb :: (natBytes n ++ 13 :: 10 :: rest)) pb =
      .ok ((natBytes n).length + 1, (n : Int)) := by
  rw [parseLength_complete pb (natBytes n) rest (natBytes_lineClean n)]
  rw [parseSignedInt_natBytes]

/-! ## Sorted-map insertion lemmas -/

theorem bytesLt_asymm : ∀ a b : List Nat, bytesLt a b = true → bytesLt b a = false
  | [], [] => by intro h; simp [bytesLt] at h
  | [], _ :: _ => by intro _; rfl
  | _ :: _, [] => by intro h; simp [bytesLt] at h
  | x :: xs, y :: ys => by
    intro h
    rw [bytesLt] at h ⊢
    by_cases hxy : x < y
    · rw [if_neg (by omega), if_pos hxy]
    · rw [if_neg hxy] at h
      by_cases hyx : y < x
      · rw [if_pos hyx] at h
        exact absurd h (by simp)
      · rw [if_neg hyx] at h
        rw [if_neg hyx, if_neg hxy]
        exact bytesLt_asymm xs ys h

theorem bytesLt_ne : ∀ a b : List Nat, bytesLt a b = true → a ≠ b
  | [], [] => by intro h; simp [bytesLt] at h
  | [], _ :: _ => by intro _; simp
  | _ :: _, [] => by intro h; simp [bytesLt] at h
  | x :: xs, y :: ys => by
    intro h
    rw [bytesLt] at h
    by_cases hxy : x < y
    · intro heq
      injection heq with e1 _
      omega
    · rw [if_neg hxy] at h
      by_cases hyx : y < x
      · rw [if_pos hyx] at h
        exact absurd h (by simp)
      · rw [if_neg hyx] at h
        intro heq
        injection heq with _ e2
        exact bytesLt_ne xs ys h e2

/-- Concatenation of entry sequences. -/
def PairList.append : PairList → PairList → PairList
  | .nil, q => q
  | .cons k v ps, q => .cons k v (ps.append q)

theorem PairList.append_assoc : ∀ a b c : PairList, (a.append b).append c = a.append (b.append c)
  | .nil, _, _ => rfl
  | .cons k v ps, b, c => by simp [PairList.append, PairList.append_assoc ps b c]

theorem PairList.append_nil : ∀ a : PairList, a.append .nil = a
  | .nil => rfl
  | .cons k v ps => by simp [PairList.append, PairList.append_nil ps]

/-- Every key of an entry sequence is strictly below `k`. -/
def PairList.allLt : PairList → List Nat → Bool
  | .nil, _ => true
  | .cons k' _ ps, k => bytesLt k' k && ps.allLt k

/-- Every key of the second sequence is above all keys of the first. -/
def PairList.ltAll (acc : PairList) : PairList → Bool
  | .nil => true
  | .cons k _ ps => acc.allLt k && acc.ltAll ps

theorem PairList.nil_ltAll : ∀ ps : PairList, PairList.ltAll .nil ps = true
  | .nil => rfl
  | .cons k v ps => by simp [PairList.ltAll, PairList.allLt, PairList.nil_ltAll ps]

theorem insertPair_atEnd (k : List Nat) (v : RespFrame) :
    ∀ acc : PairList, acc.allLt k = true → insertPair k v acc = acc.append (.cons k v .nil)
  | .nil, _ => rfl
  | .cons k' v' ps, h => by
    simp only [PairList.allLt, Bool.and_eq_true] at h
    have h1 := bytesLt_asymm k' k h.1
    have h2 : k ≠ k' := fun heq => (bytesLt_ne k' k h.1) heq.symm
    rw [insertPair, if_neg (by simp [h1]), if_neg h2]
    rw [insertPair_atEnd k v ps h.2]
    rfl

theorem PairList.append_allLt : ∀ (a : PairList) (b : PairList) (k : List Nat),
    (a.append b).allLt k = (a.allLt k && b.allLt k)
  | .nil, _, _ => rfl
  | .cons k' v' ps, b, k => by
    simp [PairList.append, PairList.allLt, PairList.append_allLt ps b k, Bool.and_assoc]

theorem ltAll_extend (k : List Nat) (v : RespFrame) :
    ∀ (ps acc : PairList), acc.ltAll ps = true → ps.allGt k = true →
      (acc.append (.cons k v .nil)).ltAll ps = true
  | .nil, _, _, _ => rfl
  | .cons k2 v2 ps, acc, h1, h2 => by
    simp only [PairList.ltAll, Bool.and_eq_true] at h1
    simp only [PairList.allGt, Bool.and_eq_true] at h2
    simp only [PairList.ltAll, Bool.and_eq_true]
    constructor
    · rw [PairList.append_allLt]
      simp [h1.1, PairList.allLt, h2.1]
    · exact ltAll_extend k v ps acc h1.2 h2.2

theorem pairsFold_sorted_aux : ∀ (ps acc : PairList),
    wfPairs ps = true → acc.ltAll ps = true → pairsFold acc ps = acc.append ps
  | .nil, acc, _, _ => by
    rw [pairsFold, PairList.append_nil]
  | .cons k v ps, acc, hwf, hlt => by
    simp only [wfPairs, Bool.and_eq_true] at hwf
    simp only [PairList.ltAll, Bool.and_eq_true] at hlt
    rw [pairsFold]
    rw [insertPair_atEnd k v acc hlt.1]
    rw [pairsFold_sorted_aux ps (acc.append (.cons k v .nil)) hwf.2
      (ltAll_extend k v ps acc hlt.2 hwf.1.2)]
    rw [PairList.append_assoc]
    rfl

theorem pairsFold_sorted (ps : PairList) (hwf : wfPairs ps = true) : pairsFold .nil ps = ps := by
  rw [pairsFold_sorted_aux ps .nil hwf (PairList.nil_ltAll ps)]
  rfl

/-! ## Scan-complete lemmas for the scalar frame kinds -/

theorem natBytes_len_pos (n : Nat) : 1 ≤ (natBytes n).length := by
  obtain ⟨d, ds, hds, _⟩ := natBytes_cons n
  rw [hds]
  simp

theorem lineClean_cons_digits (c n : Nat) (hc : c ≠ 13) : lineClean (c :: natBytes n) = true := by
  apply lineClean_of_all_ne13
  intro b hb
  rcases List.mem_cons.mp hb with hb | hb
  · subst hb; exact hc
  · exact natBytes_all_ne13 n b hb

theorem intEncode_shape (i : Int) : ∃ s, intEncode i = 58 :: (s ++ [13, 10]) ∧
    lineClean s = true ∧ parseSignedInt s = some i := by
  by_cases hi : 0 ≤ i
  · refine ⟨43 :: natBytes i.toNat, ?_, lineClean_cons_digits 43 i.toNat (by omega), ?_⟩
    · rw [intEncode, if_pos hi]
      simp [CRLF]
    · rw [parseSignedInt_pos]
      congr 1
      omega
  · refine ⟨45 :: natBytes (-i).toNat, ?_, lineClean_cons_digits 45 (-i).toNat (by omega), ?_⟩
    · rw [intEncode, if_neg hi]
      simp [CRLF]
    · rw [parseSignedInt_neg]
      congr 1
      omega

theorem scanOk_simpleString (s : List Nat) (hwf : lineClean s = true) (fuel : Nat)
    (hfuel : (encodeFrame (.simpleString s)).length ≤ fuel) (rest : List Nat) :
    frameExpectLen fuel (encodeFrame (.simpleString s) ++ rest) =
      .ok (encodeFrame (.simpleString s)).length := by
  have hlen : (encodeFrame (.simpleString s)).length = s.length + 3 := by
    simp [encodeFrame, CRLF]
  have hene : encodeFrame (.simpleString s) ++ rest = 43 :: (s ++ 13 :: 10 :: rest) := by
    simp [encodeFrame, CRLF]
  match fuel, hfuel with
  | 0, hfuel => rw [hlen] at hfuel; omega
  | fuel + 1, _ =>
    rw [hene]
    simp only [frameExpectLen]
    norm_num
    rw [simpleExpectLen_complete 43 s rest hwf, hlen]

theorem scanOk_error (s : List Nat) (hwf : lineClean s = true) (fuel : Nat)
    (hfuel : (encodeFrame (.error s)).length ≤ fuel) (rest : List Nat) :
    frameExpectLen fuel (encodeFrame (.error s) ++ rest) =
      .ok (encodeFrame (.error s)).length := by
  have hlen : (encodeFrame (.error s)).length = s.length + 3 := by
    simp [encodeFrame, CRLF]
  have hene : encodeFrame (.error s) ++ rest = 45 :: (s ++ 13 :: 10 :: rest) := by
    simp [encodeFrame, CRLF]
  match fuel, hfuel with
  | 0, hfuel => rw [hlen] at hfuel; omega
  | fuel + 1, _ =>
    rw [hene]
    simp only [frameExpectLen]
    norm_num
    rw [simpleExpectLen_complete 45 s rest hwf, hlen]

theorem scanOk_integer (i : Int) (fuel : Nat)
    (hfuel : (encodeFrame (.integer i)).length ≤ fuel) (rest : List Nat) :
    frameExpectLen fuel (encodeFrame (.integer i) ++ rest) =
      .ok (encodeFrame (.integer i)).length := by
  obtain ⟨s, hshape, hclean, _⟩ := intEncode_shape i
  have hene : encodeFrame (.integer i) = 58 :: (s ++ [13, 10]) := hshape
  have hlen : (encodeFrame (.integer i)).length = s.length + 3 := by
    rw [hene]
    simp
  have hene2 : encodeFrame (.integer i) ++ rest = 58 :: (s ++ 13 :: 10 :: rest) := by
    rw [hene]
    simp
  match fuel, hfuel with
  | 0, hfuel => rw [hlen] at hfuel; omega
  | fuel + 1, _ =>
    rw [hene2]
    simp only [frameExpectLen]
    norm_num
    rw [simpleExpectLen_complete 58 s rest hclean, hlen]

theorem scanOk_double (m e : Int) (hwf : wfFrame (.double m e) = true) (fuel : Nat)
    (hfuel : (encodeFrame (.double m e)).length ≤ fuel) (rest : List Nat) :
    frameExpectLen fuel (encodeFrame (.double m e) ++ rest) =
      .ok (encodeFrame (.double m e)).length := by
  obtain ⟨body, hshape, hne13, _⟩ := doubleEncode_split m e hwf
  have hclean : lineClean body = true := lineClean_of_all_ne13 body hne13
  have hene : encodeFrame (.double m e) = 44 :: (body ++ [13, 10]) := hshape
  have hlen : (encodeFrame (.double m e)).length = body.length + 3 := by
    rw [hene]; simp
  have hene2 : encodeFrame (.double m e) ++ rest = 44 :: (body ++ 13 :: 10 :: rest) := by
    rw [hene]; simp
  match fuel, hfuel with
  | 0, hfuel => rw [hlen] at hfuel; omega
  | fuel + 1, _ =>
    rw [hene2]
    simp only [frameExpectLen]
    norm_num
    rw [simpleExpectLen_complete 44 body rest hclean, hlen]

theorem scanOk_bulk (p : List Nat) (fuel : Nat)
    (hfuel : (encodeFrame (.bulkString p)).length ≤ fuel) (rest : List Nat) :
    frameExpectLen fuel (encodeFrame (.bulkString p) ++ rest) =
      .ok (encodeFrame (.bulkString p)).length := by
  have hlen : (encodeFrame (.bulkString p)).length = (natBytes p.length).length + p.length + 5 := by
    simp [encodeFrame, CRLF, List.length_append]
    omega
  have hene : encodeFrame (.bulkString p) ++ rest =
      36 :: (natBytes p.length ++ 13 :: 10 :: (p ++ 13 :: 10 :: rest)) := by
    simp [encodeFrame, CRLF]
  match fuel, hfuel with
  | 0, hfuel => rw [hlen] at hfuel; omega
  | fuel + 1, _ =>
    rw [hene]
    simp only [frameExpectLen]
    norm_num
    rw [bulkExpectLen]
    simp only [parseLength_nat 36 p.length (p ++ 13 :: 10 :: rest), Int.toNat_natCast]
    rw [if_neg (by omega), if_neg (by omega)]
    rw [if_neg (by simp [List.length_append]; omega)]
    rw [hlen]
    congr 1
    omega

theorem scanOk_nullBulk (fuel : Nat)
    (hfuel : (encodeFrame .nullBulkString).length ≤ fuel) (rest : List Nat) :
    frameExpectLen fuel (encodeFrame .nullBulkString ++ rest) =
      .ok (encodeFrame .nullBulkString).length := by
  match fuel, hfuel with
  | 0, hfuel => simp [encodeFrame] at hfuel
  | fuel + 1, _ =>
    have hpl : parseLength (36 :: 45 :: 49 :: 13 :: 10 :: rest) 36 = .ok (3, -1) := by
      have h := parseLength_complete 36 [45, 49] rest (by decide)
      rw [show parseSignedInt [45, 49] = some (-1) from rfl] at h
      simpa using h
    have hene : encodeFrame .nullBulkString ++ rest = 36 :: 45 :: 49 :: 13 :: 10 :: rest := by
      simp [encodeFrame, CRLF]
    rw [hene]
    simp only [frameExpectLen]
    norm_num
    rw [bulkExpectLen]
    simp only [hpl]
    norm_num [encodeFrame, CRLF]

theorem scanOk_nullArray (fuel : Nat)
    (hfuel : (encodeFrame .nullArray).length ≤ fuel) (rest : List Nat) :
    frameExpectLen fuel (encodeFrame .nullArray ++ rest) =
      .ok (encodeFrame .nullArray).length := by
  match fuel, hfuel with
  | 0, hfuel => simp [encodeFrame] at hfuel
  | fuel + 1, _ =>
    have hpl : parseLength (42 :: 45 :: 49 :: 13 :: 10 :: rest) 42 = .ok (3, -1) := by
      have h := parseLength_complete 42 [45, 49] rest (by decide)
      rw [show parseSignedInt [45, 49] = some (-1) from rfl] at h
      simpa using h
    have hene : encodeFrame .nullArray ++ rest = 42 :: 45 :: 49 :: 13 :: 10 :: rest := by
      simp [encodeFrame, CRLF]
    rw [hene]
    simp only [frameExpectLen]
    norm_num
    simp only [hpl]
    norm_num [encodeFrame, CRLF]

theorem scanOk_null (fuel : Nat)
    (hfuel : (encodeFrame .null).length ≤ fuel) (rest : List Nat) :
    frameExpectLen fuel (encodeFrame .null ++ rest) = .ok (encodeFrame .null).length := by
  match fuel, hfuel with
  | 0, hfuel => simp [encodeFrame] at hfuel
  | fuel + 1, _ =>
    have hene : encodeFrame .null ++ rest = 95 :: ([13, 10] ++ rest) := by
      simp [encodeFrame]
    have hp : (95 : Nat) :: ([13, 10] ++ rest) = nullPat ++ rest := by
      simp [nullPat]
    rw [hene, hp]
    have hfix := extractFixed_complete nullPat rest
    match hr : nullPat ++ rest with
    | [] => simp [nullPat] at hr
    | b :: tail =>
      have hb : b = 95 := by
        simp [nullPat] at hr
        omega
      subst hb
      simp only [frameExpectLen]
      norm_num
      rw [nullExpectLen]
      rw [← hr, hfix]
      rfl

theorem scanOk_bool (b : Bool) (fuel : Nat)
    (hfuel : (encodeFrame (.boolean b)).length ≤ fuel) (rest : List Nat) :
    frameExpectLen fuel (encodeFrame (.boolean b) ++ rest) =
      .ok (encodeFrame (.boolean b)).length := by
  match fuel, hfuel with
  | 0, hfuel => match b with
    | true => simp [encodeFrame] at hfuel
    | false => simp [encodeFrame] at hfuel
  | fuel + 1, _ =>
    match b with
    | true =>
      have hene : encodeFrame (.boolean true) ++ rest = 35 :: (116 :: 13 :: 10 :: rest) := by
        simp [encodeFrame]
      rw [hene]
      simp only [frameExpectLen]
      norm_num
      rw [boolExpectLen]
      have hfix : extractFixedData (35 :: 116 :: 13 :: 10 :: rest) truePat = .ok () := by
        have h := extractFixed_complete truePat rest
        simpa [truePat] using h
      rw [hfix]
      rfl
    | false =>
      have hene : encodeFrame (.boolean false) ++ rest = 35 :: (102 :: 13 :: 10 :: rest) := by
        simp [encodeFrame]
      rw [hene]
      simp only [frameExpectLen]
      norm_num
      rw [boolExpectLen]
      have hmis : extractFixedData (35 :: 102 :: (13 :: 10 :: rest)) truePat =
          .error .invalidFrameType := by
        have h := extractFixed_mismatch2 35 102 116 (13 :: 10 :: rest) [13, 10] (by omega)
        simpa [truePat] using h
      rw [hmis]
      have hfix : extractFixedData (35 :: 102 :: 13 :: 10 :: rest) falsePat = .ok () := by
        have h := extractFixed_complete falsePat rest
        simpa [falsePat] using h
      rw [hfix]
      rfl

theorem line_rest3 (pb : Nat) (s rest : List Nat) :
    (pb :: (s ++ 13 :: 10 :: rest)).drop (s.length + 3) = rest := by
  have h : s.length + 3 = s.length + 1 + 2 := by omega
  rw [h, line_rest]

theorem wfMap_elim (entries : PairList) (h : wfFrame (.map entries) = true) :
    wfPairs entries = true ∧ 1 ≤ entries.length := by
  cases entries with
  | nil => simp [wfFrame] at h
  | cons k v ps =>
    constructor
    · simpa [wfFrame] using h
    · simp [PairList.length]

theorem wfSet_elim (fs : FrameList) (h : wfFrame (.set fs) = true) :
    wfList fs = true ∧ 1 ≤ fs.length := by
  cases fs with
  | nil => simp [wfFrame] at h
  | cons f fs =>
    constructor
    · simpa [wfFrame] using h
    · simp [FrameList.length]

mutual

/-- A complete well-formed encoded frame (with any bytes after it) scans
to exactly its own length under strategy A's `expect_length`. -/
theorem scanOk : ∀ (f : RespFrame), wfFrame f = true → ∀ (fuel : Nat),
    (encodeFrame f).length ≤ fuel → ∀ rest : List Nat,
    frameExpectLen fuel (encodeFrame f ++ rest) = .ok (encodeFrame f).length
  | .simpleString s, hwf, fuel, hfuel, rest =>
    scanOk_simpleString s (by simpa [wfFrame] using hwf) fuel hfuel rest
  | .error s, hwf, fuel, hfuel, rest =>
    scanOk_error s (by simpa [wfFrame] using hwf) fuel hfuel rest
  | .integer i, _, fuel, hfuel, rest => scanOk_integer i fuel hfuel rest
  | .bulkString p, _, fuel, hfuel, rest => scanOk_bulk p fuel hfuel rest
  | .nullBulkString, _, fuel, hfuel, rest => scanOk_nullBulk fuel hfuel rest
  | .nullArray, _, fuel, hfuel, rest => scanOk_nullArray fuel hfuel rest
  | .null, _, fuel, hfuel, rest => scanOk_null fuel hfuel rest
  | .boolean b, _, fuel, hfuel, rest => scanOk_bool b fuel hfuel rest
  | .double m e, hwf, fuel, hfuel, rest => scanOk_double m e hwf fuel hfuel rest
  | .array fs, hwf, fuel, hfuel, rest => by
    have hwl : wfList fs = true := by simpa [wfFrame] using hwf
    have hd1 := natBytes_len_pos fs.length
    have hlen : (encodeFrame (.array fs)).length =
        (natBytes fs.length).length + (encodeList fs).length + 3 := by
      simp [encodeFrame, CRLF, List.length_append]
      omega
    have hene : encodeFrame (.array fs) ++ rest =
        42 :: (natBytes fs.length ++ 13 :: 10 :: (encodeList fs ++ rest)) := by
      simp [encodeFrame, CRLF]
    match fuel, hfuel with
    | 0, hf => rw [hlen] at hf; omega
    | fuel + 1, hf =>
      rw [hene]
      simp only [frameExpectLen]
      norm_num
      simp only [parseLength_nat 42 fs.length (encodeList fs ++ rest)]
      rw [if_neg (by omega), if_neg (by omega)]
      rw [calcTotalLength]
      norm_num
      have hrec := scanOkList fs hwl fuel (by rw [hlen] at hf; omega) rest
      simp only [hrec]
      rw [hlen]
      congr 1
      omega
  | .map entries, hwf, fuel, hfuel, rest => by
    obtain ⟨hwp, hpos⟩ := wfMap_elim entries hwf
    have hd1 := natBytes_len_pos entries.length
    have hlen : (encodeFrame (.map entries)).length =
        (natBytes entries.length).length + (encodePairs entries).length + 3 := by
      simp [encodeFrame, CRLF, List.length_append]
      omega
    have hene : encodeFrame (.map entries) ++ rest =
        37 :: (natBytes entries.length ++ 13 :: 10 :: (encodePairs entries ++ rest)) := by
      simp [encodeFrame, CRLF]
    match fuel, hfuel with
    | 0, hf => rw [hlen] at hf; omega
    | fuel + 1, hf =>
      rw [hene]
      simp only [frameExpectLen]
      norm_num
      simp only [parseLength_nat 37 entries.length (encodePairs entries ++ rest)]
      rw [calcTotalLength]
      norm_num
      rw [if_neg (by omega)]
      have hrec := scanOkPairs entries hwp fuel (by rw [hlen] at hf; omega) rest
      simp only [hrec]
      rw [hlen]
      congr 1
      omega
  | .set fs, hwf, fuel, hfuel, rest => by
    obtain ⟨hwl, hpos⟩ := wfSet_elim fs hwf
    have hd1 := natBytes_len_pos fs.length
    have hlen : (encodeFrame (.set fs)).length =
        (natBytes fs.length).length + (encodeList fs).length + 3 := by
      simp [encodeFrame, CRLF, List.length_append]
      omega
    have hene : encodeFrame (.set fs) ++ rest =
        126 :: (natBytes fs.length ++ 13 :: 10 :: (encodeList fs ++ rest)) := by
      simp [encodeFrame, CRLF]
    match fuel, hfuel with
    | 0, hf => rw [hlen] at hf; omega
    | fuel + 1, hf =>
      rw [hene]
      simp only [frameExpectLen]
      norm_num
      simp only [parseLength_nat 126 fs.length (encodeList fs ++ rest)]
      rw [calcTotalLength]
      norm_num
      rw [if_neg (by omega)]
      have hrec := scanOkList fs hwl fuel (by rw [hlen] at hf; omega) rest
      simp only [hrec]
      rw [hlen]
      congr 1
      omega

/-- A complete well-formed encoded frame sequence scans to its length
under the aggregate body walk. -/
theorem scanOkList : ∀ (fs : FrameList), wfList fs = true → ∀ (fuel : Nat),
    (encodeList fs).length ≤ fuel → ∀ rest : List Nat,
    walkLens (frameExpectLen fuel) fs.length (encodeList fs ++ rest) =
      .ok (encodeList fs).length
  | .nil, _, fuel, _, rest => by
    simp [encodeList, walkLens, FrameList.length]
  | .cons f fs, hwf, fuel, hfuel, rest => by
    obtain ⟨hwf1, hwf2⟩ : wfFrame f = true ∧ wfList fs = true := by
      simpa [wfList, Bool.and_eq_true] using hwf
    have hlen : (encodeList (.cons f fs)).length =
        (encodeFrame f).length + (encodeList fs).length := by
      simp [encodeList]
    have hene : encodeList (.cons f fs) ++ rest = encodeFrame f ++ (encodeList fs ++ rest) := by
      simp [encodeList]
    have hlenc : FrameList.length (.cons f fs) = fs.length + 1 := rfl
    rw [hlenc, hene]
    simp only [walkLens]
    have h1 := scanOk f hwf1 fuel (by rw [hlen] at hfuel; omega) (encodeList fs ++ rest)
    simp only [h1]
    rw [drop_app_zero]
    have h2 := scanOkList fs hwf2 fuel (by rw [hlen] at hfuel; omega) rest
    simp only [h2]
    rw [hlen]

/-- A complete well-formed encoded map body scans to its length under the
key/value pair walk. -/
theorem scanOkPairs : ∀ (ps : PairList), wfPairs ps = true → ∀ (fuel : Nat),
    (encodePairs ps).length ≤ fuel → ∀ rest : List Nat,
    walkPairLens (frameExpectLen fuel) ps.length (encodePairs ps ++ rest) =
      .ok (encodePairs ps).length
  | .nil, _, fuel, _, rest => by
    simp [encodePairs, walkPairLens, PairList.length]
  | .cons k v ps, hwf, fuel, hfuel, rest => by
    obtain ⟨⟨⟨hk, hv⟩, _⟩, hps⟩ :
        ((lineClean k = true ∧ wfFrame v = true) ∧ PairList.allGt k ps = true) ∧
          wfPairs ps = true := by
      simpa [wfPairs, Bool.and_eq_true] using hwf
    have hlen : (encodePairs (.cons k v ps)).length =
        k.length + 3 + ((encodeFrame v).length + (encodePairs ps).length) := by
      simp [encodePairs, CRLF, List.length_append]
      omega
    have hene : encodePairs (.cons k v ps) ++ rest =
        43 :: (k ++ 13 :: 10 :: (encodeFrame v ++ (encodePairs ps ++ rest))) := by
      simp [encodePairs, CRLF]
    have hlenc : PairList.length (.cons k v ps) = ps.length + 1 := rfl
    rw [hlenc, hene]
    simp only [walkPairLens]
    simp only [simpleExpectLen_complete 43 k (encodeFrame v ++ (encodePairs ps ++ rest)) hk]
    rw [line_rest3]
    have h1 := scanOk v hv fuel (by rw [hlen] at hfuel; omega) (encodePairs ps ++ rest)
    simp only [h1]
    rw [← List.drop_drop, line_rest3, drop_app_zero]
    have h2 := scanOkPairs ps hps fuel (by rw [hlen] at hfuel; omega) rest
    simp only [h2]
    rw [hlen]
    congr 1
    omega

end

/-! ## Scan-prefix lemmas: strict truncations are `notComplete` -/

theorem take_app_le {α : Type} (l t : List α) (k : Nat) (hk : k ≤ l.length) :
    (l ++ t).take k = l.take k := List.take_append_of_le_length hk

theorem simpleExpectLen_trunc (pb : Nat) (s : List Nat) (hclean : lineClean s = true)
    (k : Nat) (hk : k < s.length + 3) :
    simpleExpectLen pb ((pb :: (s ++ [13, 10])).take k) = .error .notComplete := by
  rw [simpleExpectLen]
  simp only [extractSimple_trunc pb s hclean k hk]

theorem parseLength_prefix (pb : Nat) (s : List Nat) (hclean : lineClean s = true)
    (k : Nat) (hk : k < s.length + 3) :
    parseLength ((pb :: (s ++ [13, 10])).take k) pb = .error .notComplete := by
  rw [parseLength]
  simp only [extractSimple_trunc pb s hclean k hk]

theorem frameExpectLen_head (fuel : Nat) (pb : Nat)
    (hpb : pb = 43 ∨ pb = 45 ∨ pb = 58 ∨ pb = 44) (tail : List Nat) :
    frameExpectLen (fuel + 1) (pb :: tail) = simpleExpectLen pb (pb :: tail) := by
  simp only [frameExpectLen]
  rcases hpb with h | h | h | h <;> subst h <;> norm_num

theorem scanPre_line (pb : Nat) (hpb : pb = 43 ∨ pb = 45 ∨ pb = 58 ∨ pb = 44)
    (s : List Nat) (hclean : lineClean s = true) (fuel k : Nat) (hk : k < s.length + 3) :
    frameExpectLen (fuel + 1) ((pb :: (s ++ [13, 10])).take k) = .error .notComplete := by
  match k, hk with
  | 0, _ => rfl
  | j + 1, hk =>
    rw [List.take_succ_cons, frameExpectLen_head fuel pb hpb]
    have hA := simpleExpectLen_trunc pb s hclean (j + 1) hk
    rw [List.take_succ_cons] at hA
    exact hA

theorem scanPre_bulk (p : List Nat) (fuel k : Nat)
    (hk : k < (encodeFrame (.bulkString p)).length) :
    frameExpectLen (fuel + 1) ((encodeFrame (.bulkString p)).take k) = .error .notComplete := by
  have hfull : encodeFrame (.bulkString p) =
      (36 :: (natBytes p.length ++ [13, 10])) ++ (p ++ [13, 10]) := by
    simp [encodeFrame, CRLF]
  have hlen : (encodeFrame (.bulkString p)).length =
      (natBytes p.length).length + p.length + 5 := by
    simp [encodeFrame, CRLF, List.length_append]
    omega
  have hlenA : ((36 : Nat) :: (natBytes p.length ++ [13, 10])).length =
      (natBytes p.length).length + 3 := by
    simp
  rw [hlen] at hk
  match k, hk with
  | 0, _ => rfl
  | j + 1, hk =>
    by_cases hcase : j + 1 < (natBytes p.length).length + 3
    · have hbuf : (encodeFrame (.bulkString p)).take (j + 1) =
          36 :: ((natBytes p.length ++ [13, 10]).take j) := by
        rw [hfull, take_app_le _ _ (j + 1) (by rw [hlenA]; omega), List.take_succ_cons]
      rw [hbuf]
      simp only [frameExpectLen]
      norm_num
      rw [bulkExpectLen]
      have hpl := parseLength_prefix 36 (natBytes p.length) (natBytes_lineClean p.length)
        (j + 1) hcase
      rw [List.take_succ_cons] at hpl
      simp only [hpl]
    · set j2 := j + 1 - ((natBytes p.length).length + 3) with hj2def
      have hsplit : j + 1 = ((36 : Nat) :: (natBytes p.length ++ [13, 10])).length + j2 := by
        rw [hlenA, hj2def]
        omega
      have hj2lt : j2 < p.length + 2 := by
        rw [hj2def]
        omega
      have hbuf : (encodeFrame (.bulkString p)).take (j + 1) =
          36 :: (natBytes p.length ++ 13 :: 10 :: ((p ++ [13, 10]).take j2)) := by
        rw [hfull, hsplit, take_app_plus]
        simp
      rw [hbuf]
      simp only [frameExpectLen]
      norm_num
      rw [bulkExpectLen]
      simp only [parseLength_nat 36 p.length ((p ++ [13, 10]).take j2), Int.toNat_natCast]
      rw [if_neg (by omega), if_neg (by omega)]
      rw [if_pos (by simp [List.length_append, List.length_take]; omega)]

mutual

/-- Every strict truncation of a well-formed encoded frame scans to
`notComplete` under strategy A's `expect_length`. -/
theorem scanPre : ∀ (f : RespFrame), wfFrame f = true → ∀ (fuel k : Nat),
    k < fuel → k < (encodeFrame f).length →
    frameExpectLen fuel ((encodeFrame f).take k) = .error .notComplete
  | .simpleString s, hwf, fuel, k, hkf, hk => by
    have hclean : lineClean s = true := by simpa [wfFrame] using hwf
    have hene : encodeFrame (.simpleString s) = 43 :: (s ++ [13, 10]) := by
      simp [encodeFrame, CRLF]
    have hlen : (encodeFrame (.simpleString s)).length = s.length + 3 := by
      rw [hene]; simp
    rw [hlen] at hk
    match fuel, hkf with
    | 0, hkf => omega
    | fu + 1, _ =>
      rw [hene]
      exact scanPre_line 43 (Or.inl rfl) s hclean fu k hk
  | .error s, hwf, fuel, k, hkf, hk => by
    have hclean : lineClean s = true := by simpa [wfFrame] using hwf
    have hene : encodeFrame (.error s) = 45 :: (s ++ [13, 10]) := by
      simp [encodeFrame, CRLF]
    have hlen : (encodeFrame (.error s)).length = s.length + 3 := by
      rw [hene]; simp
    rw [hlen] at hk
    match fuel, hkf with
    | 0, hkf => omega
    | fu + 1, _ =>
      rw [hene]
      exact scanPre_line 45 (Or.inr (Or.inl rfl)) s hclean fu k hk
  | .integer i, _, fuel, k, hkf, hk => by
    obtain ⟨s, hshape, hclean, _⟩ := intEncode_shape i
    have hene : encodeFrame (.integer i) = 58 :: (s ++ [13, 10]) := hshape
    have hlen : (encodeFrame (.integer i)).length = s.length + 3 := by
      rw [hene]; simp
    rw [hlen] at hk
    match fuel, hkf with
    | 0, hkf => omega
    | fu + 1, _ =>
      rw [hene]
      exact scanPre_line 58 (Or.inr (Or.inr (Or.inl rfl))) s hclean fu k hk
  | .double m e, hwf, fuel, k, hkf, hk => by
    obtain ⟨body, hshape, hne13, _⟩ := doubleEncode_split m e hwf
    have hclean : lineClean body = true := lineClean_of_all_ne13 body hne13
    have hene : encodeFrame (.double m e) = 44 :: (body ++ [13, 10]) := hshape
    have hlen : (encodeFrame (.double m e)).length = body.length + 3 := by
      rw [hene]; simp
    rw [hlen] at hk
    match fuel, hkf with
    | 0, hkf => omega
    | fu + 1, _ =>
      rw [hene]
      exact scanPre_line 44 (Or.inr (Or.inr (Or.inr rfl))) body hclean fu k hk
  | .bulkString p, _, fuel, k, hkf, hk => by
    match fuel, hkf with
    | 0, hkf => omega
    | fu + 1, _ => exact scanPre_bulk p fu k hk
  | .nullBulkString, _, fuel, k, hkf, hk => by
    have hk5 : k < 5 := hk
    match fuel, hkf with
    | 0, hkf => omega
    | fu + 1, _ =>
      rw [show encodeFrame .nullBulkString = [36, 45, 49, 13, 10] from rfl]
      interval_cases k <;> rfl
  | .nullArray, _, fuel, k, hkf, hk => by
    have hk5 : k < 5 := hk
    match fuel, hkf with
    | 0, hkf => omega
    | fu + 1, _ =>
      rw [show encodeFrame .nullArray = [42, 45, 49, 13, 10] from rfl]
      interval_cases k <;> rfl
  | .null, _, fuel, k, hkf, hk => by
    have hk3 : k < 3 := hk
    match fuel, hkf with
    | 0, hkf => omega
    | fu + 1, _ =>
      rw [show encodeFrame .null = [95, 13, 10] from rfl]
      interval_cases k <;> rfl
  | .boolean b, _, fuel, k, hkf, hk => by
    match b with
    | true =>
      have hk4 : k < 4 := hk
      match fuel, hkf with
      | 0, hkf => omega
      | fu + 1, _ =>
        rw [show encodeFrame (.boolean true) = [35, 116, 13, 10] from rfl]
        interval_cases k <;> rfl
    | false =>
      have hk4 : k < 4 := hk
      match fuel, hkf with
      | 0, hkf => omega
      | fu + 1, _ =>
        rw [show encodeFrame (.boolean false) = [35, 102, 13, 10] from rfl]
        interval_cases k <;> rfl
  | .array fs, hwf, fuel, k, hkf, hk => by
    have hwl : wfList fs = true := by simpa [wfFrame] using hwf
    have hd1 := natBytes_len_pos fs.length
    have hfull : encodeFrame (.array fs) =
        (42 :: (natBytes fs.length ++ [13, 10])) ++ encodeList fs := by
      simp [encodeFrame, CRLF]
    have hlen : (encodeFrame (.array fs)).length =
        (natBytes fs.length).length + (encodeList fs).length + 3 := by
      simp [encodeFrame, CRLF, List.length_append]
      omega
    have hlenA : ((42 : Nat) :: (natBytes fs.length ++ [13, 10])).length =
        (natBytes fs.length).length + 3 := by
      simp
    rw [hlen] at hk
    match fuel, hkf with
    | 0, hkf => omega
    | fu + 1, hf =>
      match k, hf, hk with
      | 0, _, _ => rfl
      | j + 1, hf, hk =>
        by_cases hcase : j + 1 < (natBytes fs.length).length + 3
        · have hbuf : (encodeFrame (.array fs)).take (j + 1) =
              42 :: ((natBytes fs.length ++ [13, 10]).take j) := by
            rw [hfull, take_app_le _ _ (j + 1) (by rw [hlenA]; omega), List.take_succ_cons]
          rw [hbuf]
          simp only [frameExpectLen]
          norm_num
          have hpl := parseLength_prefix 42 (natBytes fs.length)
            (natBytes_lineClean fs.length) (j + 1) hcase
          rw [List.take_succ_cons] at hpl
          simp only [hpl]
        · set j2 := j + 1 - ((natBytes fs.length).length + 3) with hj2def
          have hsplit : j + 1 = ((42 : Nat) :: (natBytes fs.length ++ [13, 10])).length + j2 := by
            rw [hlenA, hj2def]
            omega
          have hj2lt : j2 < (encodeList fs).length := by
            rw [hj2def]
            omega
          have hbuf : (encodeFrame (.array fs)).take (j + 1) =
              42 :: (natBytes fs.length ++ 13 :: 10 :: ((encodeList fs).take j2)) := by
            rw [hfull, hsplit, take_app_plus]
            simp
          rw [hbuf]
          simp only [frameExpectLen]
          norm_num
          simp only [parseLength_nat 42 fs.length ((encodeList fs).take j2), Int.toNat_natCast]
          rw [if_neg (by omega), if_neg (by omega)]
          rw [calcTotalLength]
          norm_num
          have hrec := scanPreList fs hwl fu j2 (by omega) hj2lt
          simp only [hrec]
  | .map entries, hwf, fuel, k, hkf, hk => by
    obtain ⟨hwp, hpos⟩ := wfMap_elim entries hwf
    have hd1 := natBytes_len_pos entries.length
    have hfull : encodeFrame (.map entries) =
        (37 :: (natBytes entries.length ++ [13, 10])) ++ encodePairs entries := by
      simp [encodeFrame, CRLF]
    have hlen : (encodeFrame (.map entries)).length =
        (natBytes entries.length).length + (encodePairs entries).length + 3 := by
      simp [encodeFrame, CRLF, List.length_append]
      omega
    have hlenA : ((37 : Nat) :: (natBytes entries.length ++ [13, 10])).length =
        (natBytes entries.length).length + 3 := by
      simp
    rw [hlen] at hk
    match fuel, hkf with
    | 0, hkf => omega
    | fu + 1, hf =>
      match k, hf, hk with
      | 0, _, _ => rfl
      | j + 1, hf, hk =>
        by_cases hcase : j + 1 < (natBytes entries.length).length + 3
        · have hbuf : (encodeFrame (.map entries)).take (j + 1) =
              37 :: ((natBytes entries.length ++ [13, 10]).take j) := by
            rw [hfull, take_app_le _ _ (j + 1) (by rw [hlenA]; omega), List.take_succ_cons]
          rw [hbuf]
          simp only [frameExpectLen]
          norm_num
          have hpl := parseLength_prefix 37 (natBytes entries.length)
            (natBytes_lineClean entries.length) (j + 1) hcase
          rw [List.take_succ_cons] at hpl
          simp only [hpl]
        · set j2 := j + 1 - ((natBytes entries.length).length + 3) with hj2def
          have hsplit : j + 1 =
              ((37 : Nat) :: (natBytes entries.length ++ [13, 10])).length + j2 := by
            rw [hlenA, hj2def]
            omega
          have hj2lt : j2 < (encodePairs entries).length := by
            rw [hj2def]
            omega
          have hbuf : (encodeFrame (.map entries)).take (j + 1) =
              37 :: (natBytes entries.length ++ 13 :: 10 :: ((encodePairs entries).take j2)) := by
            rw [hfull, hsplit, take_app_plus]
            simp
          rw [hbuf]
          simp only [frameExpectLen]
          norm_num
          simp only [parseLength_nat 37 entries.length ((encodePairs entries).take j2),
            Int.toNat_natCast]
          rw [calcTotalLength]
          norm_num
          rw [if_neg (by omega)]
          have hrec := scanPrePairs entries hwp fu j2 (by omega) hj2lt
          simp only [hrec]
  | .set fs, hwf, fuel, k, hkf, hk => by
    obtain ⟨hwl, hpos⟩ := wfSet_elim fs hwf
    have hd1 := natBytes_len_pos fs.length
    have hfull : encodeFrame (.set fs) =
        (126 :: (natBytes fs.length ++ [13, 10])) ++ encodeList fs := by
      simp [encodeFrame, CRLF]
    have hlen : (encodeFrame (.set fs)).length =
        (natBytes fs.length).length + (encodeList fs).length + 3 := by
      simp [encodeFrame, CRLF, List.length_append]
      omega
    have hlenA : ((126 : Nat) :: (natBytes fs.length ++ [13, 10])).length =
        (natBytes fs.length).length + 3 := by
      simp
    rw [hlen] at hk
    match fuel, hkf with
    | 0, hkf => omega
    | fu + 1, hf =>
      match k, hf, hk with
      | 0, _, _ => rfl
      | j + 1, hf, hk =>
        by_cases hcase : j + 1 < (natBytes fs.length).length + 3
        · have hbuf : (encodeFrame (.set fs)).take (j + 1) =
              126 :: ((natBytes fs.length ++ [13, 10]).take j) := by
            rw [hfull, take_app_le _ _ (j + 1) (by rw [hlenA]; omega), List.take_succ_cons]
          rw [hbuf]
          simp only [frameExpectLen]
          norm_num
          have hpl := parseLength_prefix 126 (natBytes fs.length)
            (natBytes_lineClean fs.length) (j + 1) hcase
          rw [List.take_succ_cons] at hpl
          simp only [hpl]
        · set j2 := j + 1 - ((natBytes fs.length).length + 3) with hj2def
          have hsplit : j + 1 =
              ((126 : Nat) :: (natBytes fs.length ++ [13, 10])).length + j2 := by
            rw [hlenA, hj2def]
            omega
          have hj2lt : j2 < (encodeList fs).length := by
            rw [hj2def]
            omega
          have hbuf : (encodeFrame (.set fs)).take (j + 1) =
              126 :: (natBytes fs.length ++ 13 :: 10 :: ((encodeList fs).take j2)) := by
            rw [hfull, hsplit, take_app_plus]
            simp
          rw [hbuf]
          simp only [frameExpectLen]
          norm_num
          simp only [parseLength_nat 126 fs.length ((encodeList fs).take j2), Int.toNat_natCast]
          rw [calcTotalLength]
          norm_num
          rw [if_neg (by omega)]
          have hrec := scanPreList fs hwl fu j2 (by omega) hj2lt
          simp only [hrec]

/-- Every strict truncation of a well-formed encoded frame sequence
makes the aggregate body walk report `notComplete`. -/
theorem scanPreList : ∀ (fs : FrameList), wfList fs = true → ∀ (fuel k : Nat),
    k < fuel → k < (encodeList fs).length →
    walkLens (frameExpectLen fuel) fs.length ((encodeList fs).take k) = .error .notComplete
  | .nil, _, fuel, k, _, hk => by simp [encodeList] at hk
  | .cons f fs, hwf, fuel, k, hkf, hk => by
    obtain ⟨hwf1, hwf2⟩ : wfFrame f = true ∧ wfList fs = true := by
      simpa [wfList, Bool.and_eq_true] using hwf
    have hlen : (encodeList (.cons f fs)).length =
        (encodeFrame f).length + (encodeList fs).length := by
      simp [encodeList]
    have hlenc : FrameList.length (.cons f fs) = fs.length + 1 := rfl
    have hfull : encodeList (.cons f fs) = encodeFrame f ++ encodeList fs := by
      simp [encodeList]
    rw [hlenc]
    by_cases hcase : k < (encodeFrame f).length
    · have hbuf : (encodeList (.cons f fs)).take k = (encodeFrame f).take k := by
        rw [hfull]
        exact take_app_le _ _ k (by omega)
      rw [hbuf]
      simp only [walkLens]
      have h1 := scanPre f hwf1 fuel k hkf hcase
      simp only [h1]
    · set j2 := k - (encodeFrame f).length with hj2def
      have hsplit : k = (encodeFrame f).length + j2 := by
        rw [hj2def]
        omega
      have hj2lt : j2 < (encodeList fs).length := by
        rw [hlen] at hk
        rw [hj2def]
        omega
      have hbuf : (encodeList (.cons f fs)).take k =
          encodeFrame f ++ ((encodeList fs).take j2) := by
        rw [hfull, hsplit, take_app_plus]
      rw [hbuf]
      simp only [walkLens]
      have h1 := scanOk f hwf1 fuel (by omega) ((encodeList fs).take j2)
      simp only [h1]
      rw [drop_app_zero]
      have h2 := scanPreList fs hwf2 fuel j2 (by omega) hj2lt
      simp only [h2]

/-- Every strict truncation of a well-formed encoded map body makes the
key/value pair walk report `notComplete`. -/
theorem scanPrePairs : ∀ (ps : PairList), wfPairs ps = true → ∀ (fuel k : Nat),
    k < fuel → k < (encodePairs ps).length →
    walkPairLens (frameExpectLen fuel) ps.length ((encodePairs ps).take k) =
      .error .notComplete
  | .nil, _, fuel, k, _, hk => by simp [encodePairs] at hk
  | .cons ky v ps, hwf, fuel, k, hkf, hk => by
    obtain ⟨⟨⟨hkc, hv⟩, _⟩, hps⟩ :
        ((lineClean ky = true ∧ wfFrame v = true) ∧ PairList.allGt ky ps = true) ∧
          wfPairs ps = true := by
      simpa [wfPairs, Bool.and_eq_true] using hwf
    have hlen : (encodePairs (.cons ky v ps)).length =
        ky.length + 3 + ((encodeFrame v).length + (encodePairs ps).length) := by
      simp [encodePairs, CRLF, List.length_append]
      omega
    have hlenc : PairList.length (.cons ky v ps) = ps.length + 1 := rfl
    have hfull : encodePairs (.cons ky v ps) =
        (43 :: (ky ++ [13, 10])) ++ (encodeFrame v ++ encodePairs ps) := by
      simp [encodePairs, CRLF]
    have hlenA : ((43 : Nat) :: (ky ++ [13, 10])).length = ky.length + 3 := by
      simp
    rw [hlenc]
    by_cases hcase : k < ky.length + 3
    · have hbuf : (encodePairs (.cons ky v ps)).take k = (43 :: (ky ++ [13, 10])).take k := by
        rw [hfull]
        exact take_app_le _ _ k (by rw [hlenA]; omega)
      rw [hbuf]
      simp only [walkPairLens]
      simp only [simpleExpectLen_trunc 43 ky hkc k hcase]
    · set j := k - (ky.length + 3) with hjdef
      have hsplit : k = ((43 : Nat) :: (ky ++ [13, 10])).length + j := by
        rw [hlenA, hjdef]
        omega
      have hjlt : j < (encodeFrame v).length + (encodePairs ps).length := by
        rw [hlen] at hk
        rw [hjdef]
        omega
      have hbuf : (encodePairs (.cons ky v ps)).take k =
          43 :: (ky ++ 13 :: 10 :: ((encodeFrame v ++ encodePairs ps).take j)) := by
        rw [hfull, hsplit, take_app_plus]
        simp
      rw [hbuf]
      simp only [walkPairLens]
      simp only [simpleExpectLen_complete 43 ky ((encodeFrame v ++ encodePairs ps).take j) hkc]
      rw [line_rest3]
      by_cases hj : j < (encodeFrame v).length
      · have hbv : (encodeFrame v ++ encodePairs ps).take j = (encodeFrame v).take j :=
          take_app_le _ _ j (by omega)
        rw [hbv]
        have h1 := scanPre v hv fuel j (by omega) hj
        simp only [h1]
      · set j2 := j - (encodeFrame v).length with hj2def
        have hsplit2 : j = (encodeFrame v).length + j2 := by
          rw [hj2def]
          omega
        have hj2lt : j2 < (encodePairs ps).length := by
          rw [hj2def]
          omega
        have hbv : (encodeFrame v ++ encodePairs ps).take j =
            encodeFrame v ++ ((encodePairs ps).take j2) := by
          rw [hsplit2, take_app_plus]
        rw [hbv]
        have h1 := scanOk v hv fuel (by omega) ((encodePairs ps).take j2)
        simp only [h1]
        rw [← List.drop_drop, line_rest3, drop_app_zero]
        have h2 := scanPrePairs ps hps fuel j2 (by omega) hj2lt
        simp only [h2]

end

/-! ## Decode round-trip lemmas for the scalar frame kinds -/

theorem drop_line2 (s r : List Nat) (k : Nat) (hk : k = s.length + 2) :
    (s ++ 13 :: 10 :: r).drop k = r := by
  subst hk
  rw [drop_app]
  rfl

theorem drop_bulk_end (s p rest : List Nat) (k : Nat) (hk : k = s.length + p.length + 4) :
    (s ++ 13 :: 10 :: (p ++ 13 :: 10 :: rest)).drop k = rest := by
  have h1 : k = s.length + (p.length + 2 + 1 + 1) := by omega
  rw [h1, drop_app]
  simp only [List.drop_succ_cons]
  rw [drop_app]
  rfl

theorem decodeOk_simpleString (s : List Nat) (hwf : lineClean s = true) (fuel : Nat)
    (hfuel : (encodeFrame (.simpleString s)).length ≤ fuel) (rest : List Nat) :
    frameDecodeA fuel (encodeFrame (.simpleString s) ++ rest) = (.ok (.simpleString s), rest) := by
  have hlen : (encodeFrame (.simpleString s)).length = s.length + 3 := by
    simp [encodeFrame, CRLF]
  have hene : encodeFrame (.simpleString s) ++ rest = 43 :: (s ++ 13 :: 10 :: rest) := by
    simp [encodeFrame, CRLF]
  match fuel, hfuel with
  | 0, hf => rw [hlen] at hf; omega
  | fuel + 1, _ =>
    rw [hene]
    simp only [frameDecodeA]
    norm_num
    simp only [lineDecode_complete 43 s rest hwf]

theorem decodeOk_error (s : List Nat) (hwf : lineClean s = true) (fuel : Nat)
    (hfuel : (encodeFrame (.error s)).length ≤ fuel) (rest : List Nat) :
    frameDecodeA fuel (encodeFrame (.error s) ++ rest) = (.ok (.error s), rest) := by
  have hlen : (encodeFrame (.error s)).length = s.length + 3 := by
    simp [encodeFrame, CRLF]
  have hene : encodeFrame (.error s) ++ rest = 45 :: (s ++ 13 :: 10 :: rest) := by
    simp [encodeFrame, CRLF]
  match fuel, hfuel with
  | 0, hf => rw [hlen] at hf; omega
  | fuel + 1, _ =>
    rw [hene]
    simp only [frameDecodeA]
    norm_num
    simp only [lineDecode_complete 45 s rest hwf]

theorem decodeOk_integer (i : Int) (fuel : Nat)
    (hfuel : (encodeFrame (.integer i)).length ≤ fuel) (rest : List Nat) :
    frameDecodeA fuel (encodeFrame (.integer i) ++ rest) = (.ok (.integer i), rest) := by
  obtain ⟨s, hshape, hclean, hps⟩ := intEncode_shape i
  have hene : encodeFrame (.integer i) = 58 :: (s ++ [13, 10]) := hshape
  have hlen : (encodeFrame (.integer i)).length = s.length + 3 := by
    rw [hene]; simp
  have hene2 : encodeFrame (.integer i) ++ rest = 58 :: (s ++ 13 :: 10 :: rest) := by
    rw [hene]; simp
  match fuel, hfuel with
  | 0, hf => rw [hlen] at hf; omega
  | fuel + 1, _ =>
    rw [hene2]
    simp only [frameDecodeA]
    norm_num
    simp only [lineDecode_complete 58 s rest hclean, hps]

theorem decodeOk_double (m e : Int) (hwf : wfFrame (.double m e) = true) (fuel : Nat)
    (hfuel : (encodeFrame (.double m e)).length ≤ fuel) (rest : List Nat) :
    frameDecodeA fuel (encodeFrame (.double m e) ++ rest) = (.ok (.double m e), rest) := by
  obtain ⟨body, hshape, hne13, hparse⟩ := doubleEncode_split m e hwf
  obtain ⟨p, hpl, hnorm⟩ := hparse [] rfl
  rw [List.append_nil] at hpl
  have hclean : lineClean body = true := lineClean_of_all_ne13 body hne13
  have hene : encodeFrame (.double m e) = 44 :: (body ++ [13, 10]) := hshape
  have hlen : (encodeFrame (.double m e)).length = body.length + 3 := by
    rw [hene]; simp
  have hene2 : encodeFrame (.double m e) ++ rest = 44 :: (body ++ 13 :: 10 :: rest) := by
    rw [hene]; simp
  match fuel, hfuel with
  | 0, hf => rw [hlen] at hf; omega
  | fuel + 1, _ =>
    rw [hene2]
    simp only [frameDecodeA]
    norm_num
    simp only [lineDecode_complete 44 body rest hclean, hpl, hnorm]

theorem decodeOk_bulk (p : List Nat) (fuel : Nat)
    (hfuel : (encodeFrame (.bulkString p)).length ≤ fuel) (rest : List Nat) :
    frameDecodeA fuel (encodeFrame (.bulkString p) ++ rest) = (.ok (.bulkString p), rest) := by
  have hlen : (encodeFrame (.bulkString p)).length =
      (natBytes p.length).length + p.length + 5 := by
    simp [encodeFrame, CRLF, List.length_append]
    omega
  have hene : encodeFrame (.bulkString p) ++ rest =
      36 :: (natBytes p.length ++ 13 :: 10 :: (p ++ 13 :: 10 :: rest)) := by
    simp [encodeFrame, CRLF]
  match fuel, hfuel with
  | 0, hf => rw [hlen] at hf; omega
  | fuel + 1, _ =>
    rw [hene]
    simp only [frameDecodeA]
    norm_num
    obtain ⟨d0, ds, hds, hd0⟩ := natBytes_cons p.length
    have hd045 : d0 ≠ 45 := by rw [isDigitByte_iff] at hd0; omega
    have hmis : extractFixedData
        (36 :: (natBytes p.length ++ 13 :: 10 :: (p ++ 13 :: 10 :: rest))) nullBulkPat =
        .error .invalidFrameType := by
      rw [hds]
      have h := extractFixed_mismatch2 36 d0 45 (ds ++ 13 :: 10 :: (p ++ 13 :: 10 :: rest))
        [49, 13, 10] hd045
      simpa [nullBulkPat] using h
    simp only [hmis]
    simp only [parseLength_nat 36 p.length (p ++ 13 :: 10 :: rest), Int.toNat_natCast]
    rw [if_neg (by omega)]
    rw [if_neg (by simp [List.length_append]; omega)]
    rw [drop_line2 (natBytes p.length) (p ++ 13 :: 10 :: rest)
      ((natBytes p.length).length + 1 + 1) (by omega)]
    rw [take_app]
    rw [drop_bulk_end (natBytes p.length) p rest
      ((natBytes p.length).length + 1 + 2 + p.length + 1) (by omega)]

theorem decodeOk_nullBulk (fuel : Nat)
    (hfuel : (encodeFrame .nullBulkString).length ≤ fuel) (rest : List Nat) :
    frameDecodeA fuel (encodeFrame .nullBulkString ++ rest) = (.ok .nullBulkString, rest) := by
  match fuel, hfuel with
  | 0, hf => simp [encodeFrame] at hf
  | fuel + 1, _ =>
    have hene : encodeFrame .nullBulkString ++ rest = 36 :: 45 :: 49 :: 13 :: 10 :: rest := by
      simp [encodeFrame]
    rw [hene]
    simp only [frameDecodeA]
    norm_num
    have hfix : extractFixedData (36 :: 45 :: 49 :: 13 :: 10 :: rest) nullBulkPat = .ok () := by
      have h := extractFixed_complete nullBulkPat rest
      simpa [nullBulkPat] using h
    simp only [hfix]

theorem decodeOk_nullArray (fuel : Nat)
    (hfuel : (encodeFrame .nullArray).length ≤ fuel) (rest : List Nat) :
    frameDecodeA fuel (encodeFrame .nullArray ++ rest) = (.ok .nullArray, rest) := by
  match fuel, hfuel with
  | 0, hf => simp [encodeFrame] at hf
  | fuel + 1, _ =>
    have hene : encodeFrame .nullArray ++ rest = 42 :: 45 :: 49 :: 13 :: 10 :: rest := by
      simp [encodeFrame]
    rw [hene]
    simp only [frameDecodeA]
    norm_num
    have hfix : extractFixedData (42 :: 45 :: 49 :: 13 :: 10 :: rest) nullArrayPat = .ok () := by
      have h := extractFixed_complete nullArrayPat rest
      simpa [nullArrayPat] using h
    simp only [hfix]

theorem decodeOk_null (fuel : Nat)
    (hfuel : (encodeFrame .null).length ≤ fuel) (rest : List Nat) :
    frameDecodeA fuel (encodeFrame .null ++ rest) = (.ok .null, rest) := by
  match fuel, hfuel with
  | 0, hf => simp [encodeFrame] at hf
  | fuel + 1, _ =>
    have hene : encodeFrame .null ++ rest = 95 :: 13 :: 10 :: rest := by
      simp [encodeFrame]
    rw [hene]
    simp only [frameDecodeA]
    norm_num
    have hfix : extractFixedData (95 :: 13 :: 10 :: rest) nullPat = .ok () := by
      have h := extractFixed_complete nullPat rest
      simpa [nullPat] using h
    simp only [hfix]

theorem decodeOk_bool (b : Bool) (fuel : Nat)
    (hfuel : (encodeFrame (.boolean b)).length ≤ fuel) (rest : List Nat) :
    frameDecodeA fuel (encodeFrame (.boolean b) ++ rest) = (.ok (.boolean b), rest) := by
  match fuel, hfuel with
  | 0, hf => match b with
    | true => simp [encodeFrame] at hf
    | false => simp [encodeFrame] at hf
  | fuel + 1, _ =>
    match b with
    | true =>
      have hene : encodeFrame (.boolean true) ++ rest = 35 :: 116 :: 13 :: 10 :: rest := by
        simp [encodeFrame]
      rw [hene]
      simp only [frameDecodeA]
      norm_num
      have hfix : extractFixedData (35 :: 116 :: 13 :: 10 :: rest) truePat = .ok () := by
        have h := extractFixed_complete truePat rest
        simpa [truePat] using h
      simp only [hfix]
    | false =>
      have hene : encodeFrame (.boolean false) ++ rest = 35 :: 102 :: 13 :: 10 :: rest := by
        simp [encodeFrame]
      rw [hene]
      simp only [frameDecodeA]
      norm_num
      have hmis : extractFixedData (35 :: 102 :: 13 :: 10 :: rest) truePat =
          .error .invalidFrameType := by
        have h := extractFixed_mismatch2 35 102 116 (13 :: 10 :: rest) [13, 10] (by omega)
        simpa [truePat] using h
      simp only [hmis]
      have hfix : extractFixedData (35 :: 102 :: 13 :: 10 :: rest) falsePat = .ok () := by
        have h := extractFixed_complete falsePat rest
        simpa [falsePat] using h
      simp only [hfix]

mutual

/-- Strategy A decodes a well-formed encoded frame back to itself,
consuming exactly the encoding and leaving the following bytes. -/
theorem decodeOk : ∀ (f : RespFrame), wfFrame f = true → ∀ (fuel : Nat),
    (encodeFrame f).length ≤ fuel → ∀ rest : List Nat,
    frameDecodeA fuel (encodeFrame f ++ rest) = (.ok f, rest)
  | .simpleString s, hwf, fuel, hfuel, rest =>
    decodeOk_simpleString s (by simpa [wfFrame] using hwf) fuel hfuel rest
  | .error s, hwf, fuel, hfuel, rest =>
    decodeOk_error s (by simpa [wfFrame] using hwf) fuel hfuel rest
  | .integer i, _, fuel, hfuel, rest => decodeOk_integer i fuel hfuel rest
  | .bulkString p, _, fuel, hfuel, rest => decodeOk_bulk p fuel hfuel rest
  | .nullBulkString, _, fuel, hfuel, rest => decodeOk_nullBulk fuel hfuel rest
  | .nullArray, _, fuel, hfuel, rest => decodeOk_nullArray fuel hfuel rest
  | .null, _, fuel, hfuel, rest => decodeOk_null fuel hfuel rest
  | .boolean b, _, fuel, hfuel, rest => decodeOk_bool b fuel hfuel rest
  | .double m e, hwf, fuel, hfuel, rest => decodeOk_double m e hwf fuel hfuel rest
  | .array fs, hwf, fuel, hfuel, rest => by
    have hwl : wfList fs = true := by simpa [wfFrame] using hwf
    have hd1 := natBytes_len_pos fs.length
    have hlen : (encodeFrame (.array fs)).length =
        (natBytes fs.length).length + (encodeList fs).length + 3 := by
      simp [encodeFrame, CRLF, List.length_append]
      omega
    have hene : encodeFrame (.array fs) ++ rest =
        42 :: (natBytes fs.length ++ 13 :: 10 :: (encodeList fs ++ rest)) := by
      simp [encodeFrame, CRLF]
    match fuel, hfuel with
    | 0, hf => rw [hlen] at hf; omega
    | fuel + 1, hf =>
      rw [hene]
      simp only [frameDecodeA]
      norm_num
      obtain ⟨d0, ds, hds, hd0⟩ := natBytes_cons fs.length
      have hd045 : d0 ≠ 45 := by rw [isDigitByte_iff] at hd0; omega
      have hmis : extractFixedData
          (42 :: (natBytes fs.length ++ 13 :: 10 :: (encodeList fs ++ rest))) nullArrayPat =
          .error .invalidFrameType := by
        rw [hds]
        have h := extractFixed_mismatch2 42 d0 45 (ds ++ 13 :: 10 :: (encodeList fs ++ rest))
          [49, 13, 10] hd045
        simpa [nullArrayPat] using h
      simp only [hmis]
      simp only [parseLength_nat 42 fs.length (encodeList fs ++ rest), Int.toNat_natCast]
      rw [if_neg (by omega)]
      rw [calcTotalLength]
      norm_num
      have hscan := scanOkList fs hwl fuel (by omega) rest
      simp only [hscan]
      rw [if_neg (by simp [List.length_append]; omega)]
      rw [drop_line2 (natBytes fs.length) (encodeList fs ++ rest)
        ((natBytes fs.length).length + 1 + 1) (by omega)]
      have hdec := decodeOkList fs hwl fuel (by omega) rest
      simp only [hdec]
  | .map entries, hwf, fuel, hfuel, rest => by
    obtain ⟨hwp, hpos⟩ := wfMap_elim entries hwf
    have hd1 := natBytes_len_pos entries.length
    have hlen : (encodeFrame (.map entries)).length =
        (natBytes entries.length).length + (encodePairs entries).length + 3 := by
      simp [encodeFrame, CRLF, List.length_append]
      omega
    have hene : encodeFrame (.map entries) ++ rest =
        37 :: (natBytes entries.length ++ 13 :: 10 :: (encodePairs entries ++ rest)) := by
      simp [encodeFrame, CRLF]
    match fuel, hfuel with
    | 0, hf => rw [hlen] at hf; omega
    | fuel + 1, hf =>
      rw [hene]
      simp only [frameDecodeA]
      norm_num
      simp only [parseLength_nat 37 entries.length (encodePairs entries ++ rest),
        Int.toNat_natCast]
      rw [calcTotalLength]
      norm_num
      rw [if_neg (by omega)]
      have hscan := scanOkPairs entries hwp fuel (by omega) rest
      simp only [hscan]
      rw [if_neg (by simp [List.length_append]; omega)]
      rw [drop_line2 (natBytes entries.length) (encodePairs entries ++ rest)
        ((natBytes entries.length).length + 1 + 1) (by omega)]
      have hdec := decodeOkPairs entries hwp fuel (by omega) rest
      simp only [hdec]
      rw [pairsFold_sorted entries hwp]
  | .set fs, hwf, fuel, hfuel, rest => by
    obtain ⟨hwl, hpos⟩ := wfSet_elim fs hwf
    have hd1 := natBytes_len_pos fs.length
    have hlen : (encodeFrame (.set fs)).length =
        (natBytes fs.length).length + (encodeList fs).length + 3 := by
      simp [encodeFrame, CRLF, List.length_append]
      omega
    have hene : encodeFrame (.set fs) ++ rest =
        126 :: (natBytes fs.length ++ 13 :: 10 :: (encodeList fs ++ rest)) := by
      simp [encodeFrame, CRLF]
    match fuel, hfuel with
    | 0, hf => rw [hlen] at hf; omega
    | fuel + 1, hf =>
      rw [hene]
      simp only [frameDecodeA]
      norm_num
      simp only [parseLength_nat 126 fs.length (encodeList fs ++ rest), Int.toNat_natCast]
      rw [calcTotalLength]
      norm_num
      rw [if_neg (by omega)]
      have hscan := scanOkList fs hwl fuel (by omega) rest
      simp only [hscan]
      rw [if_neg (by simp [List.length_append]; omega)]
      rw [drop_line2 (natBytes fs.length) (encodeList fs ++ rest)
        ((natBytes fs.length).length + 1 + 1) (by omega)]
      have hdec := decodeOkList fs hwl fuel (by omega) rest
      simp only [hdec]

/-- Strategy A's element loop decodes a well-formed encoded frame
sequence back to itself. -/
theorem decodeOkList : ∀ (fs : FrameList), wfList fs = true → ∀ (fuel : Nat),
    (encodeList fs).length ≤ fuel → ∀ rest : List Nat,
    walkDecode (frameDecodeA fuel) fs.length (encodeList fs ++ rest) = (.ok fs, rest)
  | .nil, _, fuel, _, rest => by
    simp [encodeList, walkDecode, FrameList.length]
  | .cons f fs, hwf, fuel, hfuel, rest => by
    obtain ⟨hwf1, hwf2⟩ : wfFrame f = true ∧ wfList fs = true := by
      simpa [wfList, Bool.and_eq_true] using hwf
    have hlen : (encodeList (.cons f fs)).length =
        (encodeFrame f).length + (encodeList fs).length := by
      simp [encodeList]
    have hene : encodeList (.cons f fs) ++ rest = encodeFrame f ++ (encodeList fs ++ rest) := by
      simp [encodeList]
    have hlenc : FrameList.length (.cons f fs) = fs.length + 1 := rfl
    rw [hlenc, hene]
    simp only [walkDecode]
    have h1 := decodeOk f hwf1 fuel (by rw [hlen] at hfuel; omega) (encodeList fs ++ rest)
    simp only [h1]
    have h2 := decodeOkList fs hwf2 fuel (by rw [hlen] at hfuel; omega) rest
    simp only [h2]

/-- Strategy A's pair loop decodes a well-formed encoded map body back
to itself. -/
theorem decodeOkPairs : ∀ (ps : PairList), wfPairs ps = true → ∀ (fuel : Nat),
    (encodePairs ps).length ≤ fuel → ∀ rest : List Nat,
    walkDecodePairs (frameDecodeA fuel) ps.length (encodePairs ps ++ rest) = (.ok ps, rest)
  | .nil, _, fuel, _, rest => by
    simp [encodePairs, walkDecodePairs, PairList.length]
  | .cons ky v ps, hwf, fuel, hfuel, rest => by
    obtain ⟨⟨⟨hkc, hv⟩, _⟩, hps⟩ :
        ((lineClean ky = true ∧ wfFrame v = true) ∧ PairList.allGt ky ps = true) ∧
          wfPairs ps = true := by
      simpa [wfPairs, Bool.and_eq_true] using hwf
    have hlen : (encodePairs (.cons ky v ps)).length =
        ky.length + 3 + ((encodeFrame v).length + (encodePairs ps).length) := by
      simp [encodePairs, CRLF, List.length_append]
      omega
    have hene : encodePairs (.cons ky v ps) ++ rest =
        43 :: (ky ++ 13 :: 10 :: (encodeFrame v ++ (encodePairs ps ++ rest))) := by
      simp [encodePairs, CRLF]
    have hlenc : PairList.length (.cons ky v ps) = ps.length + 1 := rfl
    rw [hlenc, hene]
    simp only [walkDecodePairs]
    simp only [lineDecode_complete 43 ky (encodeFrame v ++ (encodePairs ps ++ rest)) hkc]
    have h1 := decodeOk v hv fuel (by rw [hlen] at hfuel; omega) (encodePairs ps ++ rest)
    simp only [h1]
    have h2 := decodeOkPairs ps hps fuel (by rw [hlen] at hfuel; omega) rest
    simp only [h2]

end

/-! ## Decode-prefix lemmas: strict truncations leave the buffer alone -/

theorem lineDecode_prefix (pb : Nat) (s : List Nat) (hclean : lineClean s = true)
    (k : Nat) (hk : k < s.length + 3) :
    lineDecode pb ((pb :: (s ++ [13, 10])).take k) =
      (.error .notComplete, (pb :: (s ++ [13, 10])).take k) := by
  rw [lineDecode]
  simp only [extractSimple_trunc pb s hclean k hk]

theorem decodePre_line43 (s : List Nat) (hclean : lineClean s = true) (fuel k : Nat)
    (hk : k < s.length + 3) :
    frameDecodeA (fuel + 1) ((43 :: (s ++ [13, 10])).take k) =
      (.error .notComplete, (43 :: (s ++ [13, 10])).take k) := by
  match k, hk with
  | 0, _ => rfl
  | j + 1, hk =>
    rw [List.take_succ_cons]
    simp only [frameDecodeA]
    norm_num
    have hld := lineDecode_prefix 43 s hclean (j + 1) hk
    rw [List.take_succ_cons] at hld
    simp only [hld]

theorem decodePre_line45 (s : List Nat) (hclean : lineClean s = true) (fuel k : Nat)
    (hk : k < s.length + 3) :
    frameDecodeA (fuel + 1) ((45 :: (s ++ [13, 10])).take k) =
      (.error .notComplete, (45 :: (s ++ [13, 10])).take k) := by
  match k, hk with
  | 0, _ => rfl
  | j + 1, hk =>
    rw [List.take_succ_cons]
    simp only [frameDecodeA]
    norm_num
    have hld := lineDecode_prefix 45 s hclean (j + 1) hk
    rw [List.take_succ_cons] at hld
    simp only [hld]

theorem decodePre_line58 (s : List Nat) (hclean : lineClean s = true) (fuel k : Nat)
    (hk : k < s.length + 3) :
    frameDecodeA (fuel + 1) ((58 :: (s ++ [13, 10])).take k) =
      (.error .notComplete, (58 :: (s ++ [13, 10])).take k) := by
  match k, hk with
  | 0, _ => rfl
  | j + 1, hk =>
    rw [List.take_succ_cons]
    simp only [frameDecodeA]
    norm_num
    have hld := lineDecode_prefix 58 s hclean (j + 1) hk
    rw [List.take_succ_cons] at hld
    simp only [hld]

theorem decodePre_line44 (s : List Nat) (hclean : lineClean s = true) (fuel k : Nat)
    (hk : k < s.length + 3) :
    frameDecodeA (fuel + 1) ((44 :: (s ++ [13, 10])).take k) =
      (.error .notComplete, (44 :: (s ++ [13, 10])).take k) := by
  match k, hk with
  | 0, _ => rfl
  | j + 1, hk =>
    rw [List.take_succ_cons]
    simp only [frameDecodeA]
    norm_num
    have hld := lineDecode_prefix 44 s hclean (j + 1) hk
    rw [List.take_succ_cons] at hld
    simp only [hld]

theorem decodePre_bulk (p : List Nat) (fuel k : Nat)
    (hk : k < (encodeFrame (.bulkString p)).length) :
    frameDecodeA (fuel + 1) ((encodeFrame (.bulkString p)).take k) =
      (.error .notComplete, (encodeFrame (.bulkString p)).take k) := by
  have hfull : encodeFrame (.bulkString p) =
      (36 :: (natBytes p.length ++ [13, 10])) ++ (p ++ [13, 10]) := by
    simp [encodeFrame, CRLF]
  have hlen : (encodeFrame (.bulkString p)).length =
      (natBytes p.length).length + p.length + 5 := by
    simp [encodeFrame, CRLF, List.length_append]
    omega
  have hlenA : ((36 : Nat) :: (natBytes p.length ++ [13, 10])).length =
      (natBytes p.length).length + 3 := by
    simp
  obtain ⟨d0, ds, hds, hd0⟩ := natBytes_cons p.length
  have hd045 : d0 ≠ 45 := by rw [isDigitByte_iff] at hd0; omega
  rw [hlen] at hk
  match k, hk with
  | 0, _ => rfl
  | j + 1, hk =>
    by_cases hcase : j + 1 < (natBytes p.length).length + 3
    · have hbuf : (encodeFrame (.bulkString p)).take (j + 1) =
          36 :: ((natBytes p.length ++ [13, 10]).take j) := by
        rw [hfull, take_app_le _ _ (j + 1) (by rw [hlenA]; omega), List.take_succ_cons]
      rw [hbuf]
      match j with
      | 0 => rfl
      | j0 + 1 =>
        have htail : (natBytes p.length ++ [13, 10]).take (j0 + 1) =
            d0 :: ((ds ++ [13, 10]).take j0) := by
          rw [hds, List.cons_append, List.take_succ_cons]
        rw [htail]
        simp only [frameDecodeA]
        norm_num
        have hmis : extractFixedData (36 :: d0 :: ((ds ++ [13, 10]).take j0)) nullBulkPat =
            .error .invalidFrameType := by
          have h := extractFixed_mismatch2 36 d0 45 ((ds ++ [13, 10]).take j0) [49, 13, 10] hd045
          simpa [nullBulkPat] using h
        simp only [hmis]
        have hpl := parseLength_prefix 36 (natBytes p.length) (natBytes_lineClean p.length)
          (j0 + 2) (by omega)
        rw [show (j0 + 2) = (j0 + 1) + 1 from rfl, List.take_succ_cons, hds, List.cons_append,
          List.take_succ_cons] at hpl
        simp only [hpl]
    · set j2 := j + 1 - ((natBytes p.length).length + 3) with hj2def
      have hsplit : j + 1 = ((36 : Nat) :: (natBytes p.length ++ [13, 10])).length + j2 := by
        rw [hlenA, hj2def]
        omega
      have hj2lt : j2 < p.length + 2 := by
        rw [hj2def]
        omega
      have hbuf : (encodeFrame (.bulkString p)).take (j + 1) =
          36 :: (natBytes p.length ++ 13 :: 10 :: ((p ++ [13, 10]).take j2)) := by
        rw [hfull, hsplit, take_app_plus]
        simp
      rw [hbuf]
      simp only [frameDecodeA]
      norm_num
      have hmis : extractFixedData
          (36 :: (natBytes p.length ++ 13 :: 10 :: ((p ++ [13, 10]).take j2))) nullBulkPat =
          .error .invalidFrameType := by
        rw [hds]
        have h := extractFixed_mismatch2 36 d0 45 (ds ++ 13 :: 10 :: ((p ++ [13, 10]).take j2))
          [49, 13, 10] hd045
        simpa [nullBulkPat] using h
      simp only [hmis]
      simp only [parseLength_nat 36 p.length ((p ++ [13, 10]).take j2), Int.toNat_natCast]
      rw [if_neg (by omega)]
      rw [if_pos (by omega)]

theorem decodePre_array (fs : FrameList) (hwl : wfList fs = true) (fuel k : Nat)
    (hkf : k < fuel + 1)
    (hk : k < (encodeFrame (.array fs)).length) :
    frameDecodeA (fuel + 1) ((encodeFrame (.array fs)).take k) =
      (.error .notComplete, (encodeFrame (.array fs)).take k) := by
  have hd1 := natBytes_len_pos fs.length
  have hfull : encodeFrame (.array fs) =
      (42 :: (natBytes fs.length ++ [13, 10])) ++ encodeList fs := by
    simp [encodeFrame, CRLF]
  have hlen : (encodeFrame (.array fs)).length =
      (natBytes fs.length).length + (encodeList fs).length + 3 := by
    simp [encodeFrame, CRLF, List.length_append]
    omega
  have hlenA : ((42 : Nat) :: (natBytes fs.length ++ [13, 10])).length =
      (natBytes fs.length).length + 3 := by
    simp
  obtain ⟨d0, ds, hds, hd0⟩ := natBytes_cons fs.length
  have hd045 : d0 ≠ 45 := by rw [isDigitByte_iff] at hd0; omega
  rw [hlen] at hk
  match k, hkf, hk with
  | 0, _, _ => rfl
  | j + 1, hkf, hk =>
    by_cases hcase : j + 1 < (natBytes fs.length).length + 3
    · have hbuf : (encodeFrame (.array fs)).take (j + 1) =
          42 :: ((natBytes fs.length ++ [13, 10]).take j) := by
        rw [hfull, take_app_le _ _ (j + 1) (by rw [hlenA]; omega), List.take_succ_cons]
      rw [hbuf]
      match j with
      | 0 => rfl
      | j0 + 1 =>
        have htail : (natBytes fs.length ++ [13, 10]).take (j0 + 1) =
            d0 :: ((ds ++ [13, 10]).take j0) := by
          rw [hds, List.cons_append, List.take_succ_cons]
        rw [htail]
        simp only [frameDecodeA]
        norm_num
        have hmis : extractFixedData (42 :: d0 :: ((ds ++ [13, 10]).take j0)) nullArrayPat =
            .error .invalidFrameType := by
          have h := extractFixed_mismatch2 42 d0 45 ((ds ++ [13, 10]).take j0) [49, 13, 10] hd045
          simpa [nullArrayPat] using h
        simp only [hmis]
        have hpl := parseLength_prefix 42 (natBytes fs.length) (natBytes_lineClean fs.length)
          (j0 + 2) (by omega)
        rw [show (j0 + 2) = (j0 + 1) + 1 from rfl, List.take_succ_cons, hds, List.cons_append,
          List.take_succ_cons] at hpl
        simp only [hpl]
    · set j2 := j + 1 - ((natBytes fs.length).length + 3) with hj2def
      have hsplit : j + 1 = ((42 : Nat) :: (natBytes fs.length ++ [13, 10])).length + j2 := by
        rw [hlenA, hj2def]
        omega
      have hj2lt : j2 < (encodeList fs).length := by
        rw [hj2def]
        omega
      have hbuf : (encodeFrame (.array fs)).take (j + 1) =
          42 :: (natBytes fs.length ++ 13 :: 10 :: ((encodeList fs).take j2)) := by
        rw [hfull, hsplit, take_app_plus]
        simp
      rw [hbuf]
      simp only [frameDecodeA]
      norm_num
      have hmis : extractFixedData
          (42 :: (natBytes fs.length ++ 13 :: 10 :: ((encodeList fs).take j2))) nullArrayPat =
          .error .invalidFrameType := by
        rw [hds]
        have h := extractFixed_mismatch2 42 d0 45 (ds ++ 13 :: 10 :: ((encodeList fs).take j2))
          [49, 13, 10] hd045
        simpa [nullArrayPat] using h
      simp only [hmis]
      simp only [parseLength_nat 42 fs.length ((encodeList fs).take j2), Int.toNat_natCast]
      rw [if_neg (by omega)]
      rw [calcTotalLength]
      norm_num
      have hrec := scanPreList fs hwl fuel j2 (by omega) hj2lt
      simp only [hrec]

theorem decodePre_map (entries : PairList) (hwp : wfPairs entries = true)
    (hpos : 1 ≤ entries.length) (fuel k : Nat)
    (hkf : k < fuel + 1)
    (hk : k < (encodeFrame (.map entries)).length) :
    frameDecodeA (fuel + 1) ((encodeFrame (.map entries)).take k) =
      (.error .notComplete, (encodeFrame (.map entries)).take k) := by
  have hd1 := natBytes_len_pos entries.length
  have hfull : encodeFrame (.map entries) =
      (37 :: (natBytes entries.length ++ [13, 10])) ++ encodePairs entries := by
    simp [encodeFrame, CRLF]
  have hlen : (encodeFrame (.map entries)).length =
      (natBytes entries.length).length + (encodePairs entries).length + 3 := by
    simp [encodeFrame, CRLF, List.length_append]
    omega
  have hlenA : ((37 : Nat) :: (natBytes entries.length ++ [13, 10])).length =
      (natBytes entries.length).length + 3 := by
    simp
  rw [hlen] at hk
  match k, hkf, hk with
  | 0, _, _ => rfl
  | j + 1, hkf, hk =>
    by_cases hcase : j + 1 < (natBytes entries.length).length + 3
    · have hbuf : (encodeFrame (.map entries)).take (j + 1) =
          37 :: ((natBytes entries.length ++ [13, 10]).take j) := by
        rw [hfull, take_app_le _ _ (j + 1) (by rw [hlenA]; omega), List.take_succ_cons]
      rw [hbuf]
      simp only [frameDecodeA]
      norm_num
      have hpl := parseLength_prefix 37 (natBytes entries.length)
        (natBytes_lineClean entries.length) (j + 1) hcase
      rw [List.take_succ_cons] at hpl
      simp only [hpl]
    · set j2 := j + 1 - ((natBytes entries.length).length + 3) with hj2def
      have hsplit : j + 1 = ((37 : Nat) :: (natBytes entries.length ++ [13, 10])).length + j2 := by
        rw [hlenA, hj2def]
        omega
      have hj2lt : j2 < (encodePairs entries).length := by
        rw [hj2def]
        omega
      have hbuf : (encodeFrame (.map entries)).take (j + 1) =
          37 :: (natBytes entries.length ++ 13 :: 10 :: ((encodePairs entries).take j2)) := by
        rw [hfull, hsplit, take_app_plus]
        simp
      rw [hbuf]
      simp only [frameDecodeA]
      norm_num
      simp only [parseLength_nat 37 entries.length ((encodePairs entries).take j2),
        Int.toNat_natCast]
      rw [calcTotalLength]
      norm_num
      rw [if_neg (by omega)]
      have hrec := scanPrePairs entries hwp fuel j2 (by omega) hj2lt
      simp only [hrec]

theorem decodePre_set (fs : FrameList) (hwl : wfList fs = true)
    (hpos : 1 ≤ fs.length) (fuel k : Nat)
    (hkf : k < fuel + 1)
    (hk : k < (encodeFrame (.set fs)).length) :
    frameDecodeA (fuel + 1) ((encodeFrame (.set fs)).take k) =
      (.error .notComplete, (encodeFrame (.set fs)).take k) := by
  have hd1 := natBytes_len_pos fs.length
  have hfull : encodeFrame (.set fs) =
      (126 :: (natBytes fs.length ++ [13, 10])) ++ encodeList fs := by
    simp [encodeFrame, CRLF]
  have hlen : (encodeFrame (.set fs)).length =
      (natBytes fs.length).length + (encodeList fs).length + 3 := by
    simp [encodeFrame, CRLF, List.length_append]
    omega
  have hlenA : ((126 : Nat) :: (natBytes fs.length ++ [13, 10])).length =
      (natBytes fs.length).length + 3 := by
    simp
  rw [hlen] at hk
  match k, hkf, hk with
  | 0, _, _ => rfl
  | j + 1, hkf, hk =>
    by_cases hcase : j + 1 < (natBytes fs.length).length + 3
    · have hbuf : (encodeFrame (.set fs)).take (j + 1) =
          126 :: ((natBytes fs.length ++ [13, 10]).take j) := by
        rw [hfull, take_app_le _ _ (j + 1) (by rw [hlenA]; omega), List.take_succ_cons]
      rw [hbuf]
      simp only [frameDecodeA]
      norm_num
      have hpl := parseLength_prefix 126 (natBytes fs.length)
        (natBytes_lineClean fs.length) (j + 1) hcase
      rw [List.take_succ_cons] at hpl
      simp only [hpl]
    · set j2 := j + 1 - ((natBytes fs.length).length + 3) with hj2def
      have hsplit : j + 1 = ((126 : Nat) :: (natBytes fs.length ++ [13, 10])).length + j2 := by
        rw [hlenA, hj2def]
        omega
      have hj2lt : j2 < (encodeList fs).length := by
        rw [hj2def]
        omega
      have hbuf : (encodeFrame (.set fs)).take (j + 1) =
          126 :: (natBytes fs.length ++ 13 :: 10 :: ((encodeList fs).take j2)) := by
        rw [hfull, hsplit, take_app_plus]
        simp
      rw [hbuf]
      simp only [frameDecodeA]
      norm_num
      simp only [parseLength_nat 126 fs.length ((encodeList fs).take j2), Int.toNat_natCast]
      rw [calcTotalLength]
      norm_num
      rw [if_neg (by omega)]
      have hrec := scanPreList fs hwl fuel j2 (by omega) hj2lt
      simp only [hrec]

/-- Strategy A decode on any strict truncation of a well-formed encoded
frame: the recoverable `notComplete` error, with the buffer untouched. -/
theorem decodePre (f : RespFrame) (hwf : wfFrame f = true) (fuel k : Nat)
    (hkf : k < fuel) (hk : k < (encodeFrame f).length) :
    frameDecodeA fuel ((encodeFrame f).take k) = (.error .notComplete, (encodeFrame f).take k) :=
  match f, hwf, hk with
  | .simpleString s, hwf, hk => by
    have hclean : lineClean s = true := by simpa [wfFrame] using hwf
    have hene : encodeFrame (.simpleString s) = 43 :: (s ++ [13, 10]) := by
      simp [encodeFrame, CRLF]
    have hlen : (encodeFrame (.simpleString s)).length = s.length + 3 := by
      rw [hene]; simp
    rw [hlen] at hk
    match fuel, hkf with
    | 0, hkf => omega
    | fu + 1, _ =>
      rw [hene]
      exact decodePre_line43 s hclean fu k hk
  | .error s, hwf, hk => by
    have hclean : lineClean s = true := by simpa [wfFrame] using hwf
    have hene : encodeFrame (.error s) = 45 :: (s ++ [13, 10]) := by
      simp [encodeFrame, CRLF]
    have hlen : (encodeFrame (.error s)).length = s.length + 3 := by
      rw [hene]; simp
    rw [hlen] at hk
    match fuel, hkf with
    | 0, hkf => omega
    | fu + 1, _ =>
      rw [hene]
      exact decodePre_line45 s hclean fu k hk
  | .integer i, _, hk => by
    obtain ⟨s, hshape, hclean, _⟩ := intEncode_shape i
    have hene : encodeFrame (.integer i) = 58 :: (s ++ [13, 10]) := hshape
    have hlen : (encodeFrame (.integer i)).length = s.length + 3 := by
      rw [hene]; simp
    rw [hlen] at hk
    match fuel, hkf with
    | 0, hkf => omega
    | fu + 1, _ =>
      rw [hene]
      exact decodePre_line58 s hclean fu k hk
  | .double m e, hwf, hk => by
    obtain ⟨body, hshape, hne13, _⟩ := doubleEncode_split m e hwf
    have hclean : lineClean body = true := lineClean_of_all_ne13 body hne13
    have hene : encodeFrame (.double m e) = 44 :: (body ++ [13, 10]) := hshape
    have hlen : (encodeFrame (.double m e)).length = body.length + 3 := by
      rw [hene]; simp
    rw [hlen] at hk
    match fuel, hkf with
    | 0, hkf => omega
    | fu + 1, _ =>
      rw [hene]
      exact decodePre_line44 body hclean fu k hk
  | .bulkString p, _, hk => by
    match fuel, hkf with
    | 0, hkf => omega
    | fu + 1, _ => exact decodePre_bulk p fu k hk
  | .nullBulkString, _, hk => by
    have hk5 : k < 5 := hk
    match fuel, hkf with
    | 0, hkf => omega
    | fu + 1, _ =>
      rw [show encodeFrame .nullBulkString = [36, 45, 49, 13, 10] from rfl]
      interval_cases k <;> rfl
  | .nullArray, _, hk => by
    have hk5 : k < 5 := hk
    match fuel, hkf with
    | 0, hkf => omega
    | fu + 1, _ =>
      rw [show encodeFrame .nullArray = [42, 45, 49, 13, 10] from rfl]
      interval_cases k <;> rfl
  | .null, _, hk => by
    have hk3 : k < 3 := hk
    match fuel, hkf with
    | 0, hkf => omega
    | fu + 1, _ =>
      rw [show encodeFrame .null = [95, 13, 10] from rfl]
      interval_cases k <;> rfl
  | .boolean b, _, hk => by
    match b with
    | true =>
      have hk4 : k < 4 := hk
      match fuel, hkf with
      | 0, hkf => omega
      | fu + 1, _ =>
        rw [show encodeFrame (.boolean true) = [35, 116, 13, 10] from rfl]
        interval_cases k <;> rfl
    | false =>
      have hk4 : k < 4 := hk
      match fuel, hkf with
      | 0, hkf => omega
      | fu + 1, _ =>
        rw [show encodeFrame (.boolean false) = [35, 102, 13, 10] from rfl]
        interval_cases k <;> rfl
  | .array fs, hwf, hk => by
    have hwl : wfList fs = true := by simpa [wfFrame] using hwf
    match fuel, hkf with
    | 0, hkf => omega
    | fu + 1, hkf => exact decodePre_array fs hwl fu k hkf hk
  | .map entries, hwf, hk => by
    obtain ⟨hwp, hpos⟩ := wfMap_elim entries hwf
    match fuel, hkf with
    | 0, hkf => omega
    | fu + 1, hkf => exact decodePre_map entries hwp hpos fu k hkf hk
  | .set fs, hwf, hk => by
    obtain ⟨hwl, hpos⟩ := wfSet_elim fs hwf
    match fuel, hkf with
    | 0, hkf => omega
    | fu + 1, hkf => exact decodePre_set fs hwl hpos fu k hkf hk

/-! ## Byte-shape lemmas for the double encoder (C5) -/

theorem natBytes_mem_range (n b : Nat) (hb : b ∈ natBytes n) : 48 ≤ b ∧ b ≤ 57 := by
  have h := natBytes_all_digit n b hb
  rwa [isDigitByte_iff] at h

theorem renderFixedPos_mem (n : Nat) (e : Int) (b : Nat) (hb : b ∈ renderFixedPos n e) :
    b = 46 ∨ (48 ≤ b ∧ b ≤ 57) := by
  rw [renderFixedPos] at hb
  by_cases h0 : 0 ≤ e
  · rw [if_pos h0] at hb
    rcases List.mem_append.mp hb with hb | hb
    · right; exact natBytes_mem_range n b hb
    · right
      have := List.eq_of_mem_replicate hb
      omega
  · rw [if_neg h0] at hb
    by_cases h1 : (-e).toNat < (natBytes n).length
    · rw [if_pos h1] at hb
      rcases List.mem_append.mp hb with hb | hb
      · right; exact natBytes_mem_range n b (List.mem_of_mem_take hb)
      · rcases List.mem_cons.mp hb with hb | hb
        · left; exact hb
        · right; exact natBytes_mem_range n b (List.mem_of_mem_drop hb)
    · rw [if_neg h1] at hb
      rcases List.mem_cons.mp hb with hb | hb
      · right; omega
      · rcases List.mem_cons.mp hb with hb | hb
        · left; exact hb
        · rcases List.mem_append.mp hb with hb | hb
          · right
            have := List.eq_of_mem_replicate hb
            omega
          · right; exact natBytes_mem_range n b hb

theorem renderExpPos_mem (n : Nat) (e : Int) (b : Nat) (hb : b ∈ renderExpPos n e) :
    b = 46 ∨ b = 101 ∨ b = 45 ∨ (48 ≤ b ∧ b ≤ 57) := by
  rw [renderExpPos] at hb
  simp only [List.mem_append, List.mem_cons] at hb
  rcases hb with hb | hb | hb
  · rcases hb with hb | hb
    · subst hb
      match hd : natBytes n with
      | [] => exact absurd hd (natBytes_ne_nil n)
      | d :: ds =>
        right; right; right
        have hmem : d ∈ natBytes n := by rw [hd]; exact List.mem_cons_self d ds
        simpa using natBytes_mem_range n d hmem
    · by_cases hl : (natBytes n).length = 1
      · rw [if_pos hl] at hb
        simp at hb
      · rw [if_neg hl] at hb
        rcases List.mem_cons.mp hb with hb | hb
        · left; exact hb
        · right; right; right
          exact natBytes_mem_range n b (List.mem_of_mem_tail hb)
  · right; left; exact hb
  · by_cases hs : (e + (natBytes n).length - 1 : Int) < 0
    · rw [if_pos hs] at hb
      rcases List.mem_cons.mp hb with hb | hb
      · right; right; left; exact hb
      · right; right; right; exact natBytes_mem_range _ b hb
    · rw [if_neg hs] at hb
      right; right; right; exact natBytes_mem_range _ b hb

theorem renderExpPos_has101 (n : Nat) (e : Int) : 101 ∈ renderExpPos n e := by
  rw [renderExpPos]
  simp

/-! ## Mismatch helper and inversions (C6, C2) -/

theorem extractFixed_mismatch_pre (pre : List Nat) (a b : Nat) (suf1 suf2 : List Nat)
    (hab : a ≠ b) :
    extractFixedData (pre ++ a :: suf1) (pre ++ b :: suf2) = .error .invalidFrameType := by
  have htake1 : (pre ++ a :: suf1).take (pre.length + 1) = pre ++ [a] := by
    rw [take_app_plus]
    rfl
  have htake2 : (pre ++ b :: suf2).take (pre.length + 1) = pre ++ [b] := by
    rw [take_app_plus]
    rfl
  have hlb : pre.length + 1 ≤ (pre ++ a :: suf1).length := by simp
  have hlp : pre.length + 1 ≤ (pre ++ b :: suf2).length := by simp
  rw [extractFixedData]
  by_cases hl : (pre ++ a :: suf1).length < (pre ++ b :: suf2).length
  · rw [if_pos hl, if_neg]
    intro heq
    have h2 := congrArg (List.take (pre.length + 1)) heq
    rw [htake1, List.take_take, min_eq_left (by omega), htake2] at h2
    simp at h2
    exact hab h2
  · rw [if_neg hl, if_neg]
    intro heq
    have h2 := congrArg (List.take (pre.length + 1)) heq
    rw [List.take_take, min_eq_left (by omega), htake1, htake2] at h2
    simp at h2
    exact hab h2

theorem extractFixed_ok_inv (buf pat : List Nat) (h : extractFixedData buf pat = .ok ()) :
    pat.length ≤ buf.length ∧ buf = pat ++ buf.drop pat.length := by
  rw [extractFixedData] at h
  by_cases hl : buf.length < pat.length
  · rw [if_pos hl] at h
    split at h <;> simp at h
  · rw [if_neg hl] at h
    refine ⟨by omega, ?_⟩
    split at h
    · rename_i heq
      conv_lhs => rw [← List.take_append_drop pat.length buf]
      rw [heq]
    · simp at h

theorem findCRLF_bound : ∀ (l : List Nat) (i : Nat), findCRLF l = some i → i + 2 ≤ l.length
  | [], i, h => by simp [findCRLF] at h
  | [_], i, h => by simp [findCRLF] at h
  | a :: b :: rest, i, h => by
    rw [findCRLF] at h
    split at h
    · simp only [Option.some.injEq] at h
      subst h
      simp
    · simp only [Option.map_eq_some'] at h
      obtain ⟨j, hj, hij⟩ := h
      have := findCRLF_bound (b :: rest) j hj
      simp at this ⊢
      omega

theorem extractSimple_ok_inv (buf : List Nat) (pb e0 : Nat)
    (h : extractSimpleFrameData buf pb = .ok e0) : e0 + 2 ≤ buf.length := by
  rw [extractSimpleFrameData] at h
  split at h
  · simp at h
  · split at h
    · split at h
      case _ i hi =>
        simp only [Except.ok.injEq] at h
        have hb := findCRLF_bound _ i hi
        simp at hb
        omega
      case _ => simp at h
    · simp at h

theorem lineDecode_inv (pb : Nat) (buf s r : List Nat)
    (h : lineDecode pb buf = (.ok s, r)) :
    ∃ e0, extractSimpleFrameData buf pb = .ok e0 ∧ s = (buf.take e0).drop 1 ∧
      r = buf.drop (e0 + 2) := by
  rw [lineDecode] at h
  match hx : extractSimpleFrameData buf pb with
  | .error e => rw [hx] at h; simp at h
  | .ok e0 =>
    rw [hx] at h
    simp only [Prod.mk.injEq, Except.ok.injEq] at h
    exact ⟨e0, rfl, h.1.symm, h.2.symm⟩

/-! ## Strategy B scanner error collapse (C8) -/

theorem v2ExpectLength_err (buf : List Nat) (e : RespError)
    (h : v2ExpectLength buf = .error e) : e = .notComplete := by
  rw [v2ExpectLength, parseFrameLength] at h
  match hp : parseFrameLenB (buf.length + 1) buf with
  | .ok (u, rest) => rw [hp] at h; simp at h
  | .error pe =>
    rw [hp] at h
    simp only [Except.error.injEq] at h
    exact h.symm

/-! ## Malformed declared lengths are rejected by strategy A (C6) -/

theorem decodeMalformed_map (s : List Nat) (L : Int) (rest : List Nat)
    (hclean : lineClean s = true) (hps : parseSignedInt s = some L) (hL : L ≤ 0) :
    respDecode (37 :: (s ++ 13 :: 10 :: rest)) =
      (.error (.invalidFrameLength L), 37 :: (s ++ 13 :: 10 :: rest)) := by
  rw [respDecode]
  simp only [frameDecodeA]
  norm_num
  simp only [parseLength_complete 37 s rest hclean, hps]
  rw [calcTotalLength]
  norm_num
  rw [if_pos hL]

theorem decodeMalformed_set (s : List Nat) (L : Int) (rest : List Nat)
    (hclean : lineClean s = true) (hps : parseSignedInt s = some L) (hL : L ≤ 0) :
    respDecode (126 :: (s ++ 13 :: 10 :: rest)) =
      (.error (.invalidFrameLength L), 126 :: (s ++ 13 :: 10 :: rest)) := by
  rw [respDecode]
  simp only [frameDecodeA]
  norm_num
  simp only [parseLength_complete 126 s rest hclean, hps]
  rw [calcTotalLength]
  norm_num
  rw [if_pos hL]

theorem nullBulkPat_mismatch (pb : Nat) (pat : List Nat)
    (hpat2 : pat = [pb, 45] ++ 49 :: [13, 10]) (hpat3 : pat = [pb, 45, 49] ++ 13 :: [10])
    (n : Nat) (hn : 2 ≤ n) (tail : List Nat) :
    extractFixedData (pb :: 45 :: (natBytes n ++ tail)) pat = .error .invalidFrameType := by
  obtain ⟨d0, ds, hds, hd0⟩ := natBytes_cons n
  by_cases h49 : d0 = 49
  · match hds2 : ds with
    | [] =>
      exfalso
      have hval := digitsVal_natBytes n
      rw [hds, h49] at hval
      simp [digitsVal] at hval
      omega
    | d1 :: ds2 =>
      have hd1mem : d1 ∈ natBytes n := by rw [hds]; simp
      have hd1 := natBytes_mem_range n d1 hd1mem
      have hsh : pb :: 45 :: (natBytes n ++ tail) =
          [pb, 45, 49] ++ d1 :: (ds2 ++ tail) := by
        rw [hds, h49]
        simp
      rw [hsh, hpat3]
      exact extractFixed_mismatch_pre [pb, 45, 49] d1 13 _ _ (by omega)
  · have hsh : pb :: 45 :: (natBytes n ++ tail) = [pb, 45] ++ d0 :: (ds ++ tail) := by
      rw [hds]
      simp
    rw [hsh, hpat2]
    exact extractFixed_mismatch_pre [pb, 45] d0 49 _ _ h49

theorem decodeMalformed_bulk (n : Nat) (hn : 2 ≤ n) (rest : List Nat) :
    respDecode (36 :: 45 :: (natBytes n ++ 13 :: 10 :: rest)) =
      (.error (.invalidFrameLength (-(n : Int))), 36 :: 45 :: (natBytes n ++ 13 :: 10 :: rest)) := by
  rw [respDecode]
  simp only [frameDecodeA]
  norm_num
  have hmis := nullBulkPat_mismatch 36 nullBulkPat rfl rfl n hn (13 :: 10 :: rest)
  simp only [hmis]
  have hpl : parseLength (36 :: 45 :: (natBytes n ++ 13 :: 10 :: rest)) 36 =
      .ok ((natBytes n).length + 1 + 1, -(n : Int)) := by
    have h := parseLength_complete 36 (45 :: natBytes n) rest
      (lineClean_cons_digits 45 n (by omega))
    rw [parseSignedInt_neg n] at h
    simpa using h
  simp only [hpl]
  rw [if_pos (by omega)]

theorem decodeMalformed_array (n : Nat) (hn : 2 ≤ n) (rest : List Nat) :
    respDecode (42 :: 45 :: (natBytes n ++ 13 :: 10 :: rest)) =
      (.error (.invalidFrameLength (-(n : Int))), 42 :: 45 :: (natBytes n ++ 13 :: 10 :: rest)) := by
  rw [respDecode]
  simp only [frameDecodeA]
  norm_num
  have hmis := nullBulkPat_mismatch 42 nullArrayPat rfl rfl n hn (13 :: 10 :: rest)
  simp only [hmis]
  have hpl : parseLength (42 :: 45 :: (natBytes n ++ 13 :: 10 :: rest)) 42 =
      .ok ((natBytes n).length + 1 + 1, -(n : Int)) := by
    have h := parseLength_complete 42 (45 :: natBytes n) rest
      (lineClean_cons_digits 45 n (by omega))
    rw [parseSignedInt_neg n] at h
    simpa using h
  simp only [hpl]
  rw [if_pos (by omega)]

/-! ## Command dispatch lemmas (C9) -/

theorem commandFromArray_unrecognized (cmd : List Nat) (fs : FrameList)
    (h1 : cmd ≠ [103, 101, 116]) (h2 : cmd ≠ [115, 101, 116])
    (h3 : cmd ≠ [104, 103, 101, 116]) (h4 : cmd ≠ [104, 115, 101, 116])
    (h5 : cmd ≠ [104, 103, 101, 116, 97, 108, 108]) :
    commandFromArray (.cons (.bulkString cmd) fs) = .ok .unrecognized := by
  rw [commandFromArray]
  simp only [FrameList.get?]
  rw [if_neg h1, if_neg h2, if_neg h3, if_neg h4, if_neg h5]

theorem commandFromArray_nonbulk (f : RespFrame) (fs : FrameList)
    (h : ∀ b, f ≠ .bulkString b) :
    commandFromArray (.cons f fs) = .error .invalidCommand := by
  match f, h with
  | .simpleString s, _ => rfl
  | .error s, _ => rfl
  | .integer i, _ => rfl
  | .bulkString b, h => exact absurd rfl (h b)
  | .nullBulkString, _ => rfl
  | .array fs2, _ => rfl
  | .nullArray, _ => rfl
  | .null, _ => rfl
  | .boolean b, _ => rfl
  | .double m e, _ => rfl
  | .map ps, _ => rfl
  | .set fs2, _ => rfl

/-! ## Strategy B rejects encoded non-negative integers (C10) -/

theorem nonNumHead_43 (r : List Nat) : nonNumHead (43 :: r) = true := by
  simp [nonNumHead, isDigitByte]

theorem v2_integer_fail (i : Int) (hi : 0 ≤ i) :
    v2Decode (encodeFrame (.integer i)) = (.error .invalidFrame, []) := by
  have hene : encodeFrame (.integer i) = 58 :: 43 :: (natBytes i.toNat ++ 13 :: 10 :: []) := by
    simp [encodeFrame, intEncode, hi, CRLF]
  have hs : noCRLF (43 :: natBytes i.toNat) = true := by
    apply noCRLF_of_all_ne13
    intro b hb
    rcases List.mem_cons.mp hb with hb | hb
    · omega
    · exact natBytes_all_ne13 _ b hb
  have hlast : lastNotCR (43 :: natBytes i.toNat) = true := by
    apply lastNotCR_of_all_ne13
    intro b hb
    rcases List.mem_cons.mp hb with hb | hb
    · omega
    · exact natBytes_all_ne13 _ b hb
  have hfind : findCRLF (43 :: (natBytes i.toNat ++ 13 :: 10 :: [])) =
      some (43 :: natBytes i.toNat).length := by
    have h := findCRLF_append (43 :: natBytes i.toNat) [] hs hlast
    simpa using h
  have hlineok : pLine (43 :: (natBytes i.toNat ++ 13 :: 10 :: [])) =
      .ok (43 :: natBytes i.toNat, []) := by
    rw [pLine]
    simp only [hfind]
    have ht : (43 :: (natBytes i.toNat ++ 13 :: 10 :: [])).take (43 :: natBytes i.toNat).length =
        43 :: natBytes i.toNat := by
      have h := take_app (43 :: natBytes i.toNat) (13 :: 10 :: [])
      simpa using h
    have hd : (43 :: (natBytes i.toNat ++ 13 :: 10 :: [])).drop
        ((43 :: natBytes i.toNat).length + 2) = [] := by
      have h := drop_app (43 :: natBytes i.toNat) (13 :: 10 :: []) 2
      simpa using h
    rw [ht, hd]
  have hscan : parseFrameLength (encodeFrame (.integer i)) =
      .ok (encodeFrame (.integer i)).length := by
    rw [parseFrameLength]
    rw [hene]
    simp only [parseFrameLenB]
    norm_num
    rw [hlineok]
    simp
  simp only [v2Decode, hscan]
  rw [List.take_length]
  have hparse : parseFrameB ((encodeFrame (.integer i)).length + 1)
      (encodeFrame (.integer i)) = .error .backtrack := by
    rw [hene]
    simp only [parseFrameB]
    norm_num
    rw [pIntegerB]
    have hhead : (43 :: (natBytes i.toNat ++ 13 :: 10 :: [])).head? = some 43 := rfl
    norm_num [hhead]
    rw [takeDigits_stop _ (nonNumHead_43 _)]
  simp only [hparse]
  rw [List.drop_length]

/-! ## Decode/scan agreement (C2, strategy A) -/

theorem parseLength_null (pb : Nat) (X : List Nat) :
    parseLength (pb :: 45 :: 49 :: 13 :: 10 :: X) pb = .ok (3, -1) := by
  have h := parseLength_complete pb [45, 49] X (by decide)
  rw [show parseSignedInt [45, 49] = some (-1) from rfl] at h
  simpa using h

theorem simpleExpectLen_of_extract (pb : Nat) (buf : List Nat) (e0 : Nat)
    (h : extractSimpleFrameData buf pb = .ok e0) :
    simpleExpectLen pb buf = .ok (e0 + 2) := by
  rw [simpleExpectLen]
  simp only [h]

theorem scanNull36 (X : List Nat) (fuel : Nat) :
    frameExpectLen (fuel + 1) (36 :: 45 :: 49 :: 13 :: 10 :: X) = .ok 5 := by
  simp only [frameExpectLen]
  norm_num
  rw [bulkExpectLen]
  simp only [parseLength_null 36 X]
  norm_num

theorem scanNull42 (X : List Nat) (fuel : Nat) :
    frameExpectLen (fuel + 1) (42 :: 45 :: 49 :: 13 :: 10 :: X) = .ok 5 := by
  simp only [frameExpectLen]
  norm_num
  simp only [parseLength_null 42 X]
  norm_num

theorem calcTotal_inv42 (step : List Nat → Except RespError Nat) (buf : List Nat) (e : Nat)
    (len : Int) (total : Nat) (h : calcTotalLength step buf e len 42 = .ok total) :
    ∃ t, walkLens step len.toNat (buf.drop (e + 2)) = .ok t ∧ total = e + 2 + t := by
  rw [calcTotalLength] at h
  norm_num at h
  match hw : walkLens step len.toNat (buf.drop (e + 2)) with
  | .error err => simp only [hw] at h; simp at h
  | .ok t =>
    simp only [hw] at h
    simp only [Except.ok.injEq] at h
    exact ⟨t, rfl, h.symm⟩

theorem calcTotal_inv126 (step : List Nat → Except RespError Nat) (buf : List Nat) (e : Nat)
    (len : Int) (total : Nat) (h : calcTotalLength step buf e len 126 = .ok total) :
    ¬len ≤ 0 ∧ ∃ t, walkLens step len.toNat (buf.drop (e + 2)) = .ok t ∧ total = e + 2 + t := by
  rw [calcTotalLength] at h
  norm_num at h
  by_cases hl : len ≤ 0
  · rw [if_pos hl] at h
    simp at h
  · rw [if_neg hl] at h
    refine ⟨hl, ?_⟩
    match hw : walkLens step len.toNat (buf.drop (e + 2)) with
    | .error err => simp only [hw] at h; simp at h
    | .ok t =>
      simp only [hw] at h
      simp only [Except.ok.injEq] at h
      exact ⟨t, rfl, h.symm⟩

theorem calcTotal_inv37 (step : List Nat → Except RespError Nat) (buf : List Nat) (e : Nat)
    (len : Int) (total : Nat) (h : calcTotalLength step buf e len 37 = .ok total) :
    ¬len ≤ 0 ∧ ∃ t, walkPairLens step len.toNat (buf.drop (e + 2)) = .ok t ∧
      total = e + 2 + t := by
  rw [calcTotalLength] at h
  norm_num at h
  by_cases hl : len ≤ 0
  · rw [if_pos hl] at h
    simp at h
  · rw [if_neg hl] at h
    refine ⟨hl, ?_⟩
    match hw : walkPairLens step len.toNat (buf.drop (e + 2)) with
    | .error err => simp only [hw] at h; simp at h
    | .ok t =>
      simp only [hw] at h
      simp only [Except.ok.injEq] at h
      exact ⟨t, rfl, h.symm⟩

theorem walkAgree (fuel : Nat)
    (IH : ∀ buf f rest, frameDecodeA fuel buf = (.ok f, rest) →
      ∃ n, frameExpectLen fuel buf = .ok n ∧ n ≤ buf.length ∧ rest = buf.drop n) :
    ∀ (c : Nat) (buf : List Nat) (fs : FrameList) (rest : List Nat),
      walkDecode (frameDecodeA fuel) c buf = (.ok fs, rest) →
      ∃ t, walkLens (frameExpectLen fuel) c buf = .ok t ∧ t ≤ buf.length ∧
        rest = buf.drop t := by
  intro c
  induction c with
  | zero =>
    intro buf fs rest h
    rw [walkDecode] at h
    simp only [Prod.mk.injEq, Except.ok.injEq] at h
    exact ⟨0, rfl, by omega, h.2.symm⟩
  | succ c IHc =>
    intro buf fs rest h
    rw [walkDecode] at h
    match hstep : frameDecodeA fuel buf with
    | (.error e, r1) => simp only [hstep] at h; simp at h
    | (.ok f0, r1) =>
      simp only [hstep] at h
      match hw : walkDecode (frameDecodeA fuel) c r1 with
      | (.error e, r2) => simp only [hw] at h; simp at h
      | (.ok fs0, r2) =>
        simp only [hw, Prod.mk.injEq, Except.ok.injEq] at h
        obtain ⟨n, hs1, hn1, hr1⟩ := IH buf f0 r1 hstep
        obtain ⟨t, hs2, ht2, hr2⟩ := IHc r1 fs0 r2 hw
        refine ⟨n + t, ?_, ?_, ?_⟩
        · simp only [walkLens, hs1]
          rw [← hr1]
          simp only [hs2]
        · have hl1 : r1.length = buf.length - n := by
            rw [hr1]
            simp [List.length_drop]
          omega
        · rw [← h.2, hr2, hr1, List.drop_drop]

theorem walkPairsAgree (fuel : Nat)
    (IH : ∀ buf f rest, frameDecodeA fuel buf = (.ok f, rest) →
      ∃ n, frameExpectLen fuel buf = .ok n ∧ n ≤ buf.length ∧ rest = buf.drop n) :
    ∀ (c : Nat) (buf : List Nat) (ps : PairList) (rest : List Nat),
      walkDecodePairs (frameDecodeA fuel) c buf = (.ok ps, rest) →
      ∃ t, walkPairLens (frameExpectLen fuel) c buf = .ok t ∧ t ≤ buf.length ∧
        rest = buf.drop t := by
  intro c
  induction c with
  | zero =>
    intro buf ps rest h
    rw [walkDecodePairs] at h
    simp only [Prod.mk.injEq, Except.ok.injEq] at h
    exact ⟨0, rfl, by omega, h.2.symm⟩
  | succ c IHc =>
    intro buf ps rest h
    rw [walkDecodePairs] at h
    match hld : lineDecode 43 buf with
    | (.error e, r1) => simp only [hld] at h; simp at h
    | (.ok k0, r1) =>
      simp only [hld] at h
      match hstep : frameDecodeA fuel r1 with
      | (.error e, r2) => simp only [hstep] at h; simp at h
      | (.ok v0, r2) =>
        simp only [hstep] at h
        match hw : walkDecodePairs (frameDecodeA fuel) c r2 with
        | (.error e, r3) => simp only [hw] at h; simp at h
        | (.ok ps0, r3) =>
          simp only [hw, Prod.mk.injEq, Except.ok.injEq] at h
          obtain ⟨e0, hex, _, hr1⟩ := lineDecode_inv 43 buf k0 r1 hld
          have hse := simpleExpectLen_of_extract 43 buf e0 hex
          have hb0 := extractSimple_ok_inv buf 43 e0 hex
          obtain ⟨m, hs1, hm1, hr2⟩ := IH r1 v0 r2 hstep
          obtain ⟨t, hs2, ht2, hr3⟩ := IHc r2 ps0 r3 hw
          refine ⟨e0 + 2 + m + t, ?_, ?_, ?_⟩
          · simp only [walkPairLens, hse]
            rw [← hr1]
            simp only [hs1]
            have hdd : buf.drop (e0 + 2 + m) = r2 := by
              rw [hr2, hr1, List.drop_drop]
            rw [hdd]
            simp only [hs2]
          · have hl1 : r1.length = buf.length - (e0 + 2) := by
              rw [hr1]
              simp [List.length_drop]
            have hl2 : r2.length = r1.length - m := by
              rw [hr2]
              simp [List.length_drop]
            omega
          · rw [← h.2, hr3, hr2, hr1, List.drop_drop, List.drop_drop]
            congr 1
            omega

/-- On every buffer where strategy A's decode succeeds, its length scan
succeeds too, reporting exactly the bytes the decode consumed. -/
theorem decodeScanAgree : ∀ (fuel : Nat) (buf : List Nat) (f : RespFrame) (rest : List Nat),
    frameDecodeA fuel buf = (.ok f, rest) →
    ∃ n, frameExpectLen fuel buf = .ok n ∧ n ≤ buf.length ∧ rest = buf.drop n := by
  intro fuel
  induction fuel with
  | zero =>
    intro buf f rest h
    rw [frameDecodeA] at h
    simp at h
  | succ fuel IH =>
    intro buf f rest hdec
    match buf with
    | [] =>
      simp only [frameDecodeA] at hdec
      simp at hdec
    | b :: r =>
      by_cases h43 : b = 43
      · subst h43
        simp only [frameDecodeA] at hdec
        norm_num at hdec
        match hld : lineDecode 43 (43 :: r) with
        | (.error e, r1) => simp only [hld] at hdec; simp at hdec
        | (.ok s, r1) =>
          simp only [hld, Prod.mk.injEq, Except.ok.injEq] at hdec
          obtain ⟨e0, hex, _, hr1⟩ := lineDecode_inv 43 (43 :: r) s r1 hld
          have hb0 := extractSimple_ok_inv _ 43 e0 hex
          refine ⟨e0 + 2, ?_, hb0, ?_⟩
          · simp only [frameExpectLen]
            norm_num
            exact simpleExpectLen_of_extract 43 (43 :: r) e0 hex
          · rw [← hdec.2, hr1]
      by_cases h45 : b = 45
      · subst h45
        simp only [frameDecodeA] at hdec
        norm_num at hdec
        match hld : lineDecode 45 (45 :: r) with
        | (.error e, r1) => simp only [hld] at hdec; simp at hdec
        | (.ok s, r1) =>
          simp only [hld, Prod.mk.injEq, Except.ok.injEq] at hdec
          obtain ⟨e0, hex, _, hr1⟩ := lineDecode_inv 45 (45 :: r) s r1 hld
          have hb0 := extractSimple_ok_inv _ 45 e0 hex
          refine ⟨e0 + 2, ?_, hb0, ?_⟩
          · simp only [frameExpectLen]
            norm_num
            exact simpleExpectLen_of_extract 45 (45 :: r) e0 hex
          · rw [← hdec.2, hr1]
      by_cases h58 : b = 58
      · subst h58
        simp only [frameDecodeA] at hdec
        norm_num at hdec
        match hld : lineDecode 58 (58 :: r) with
        | (.error e, r1) => simp only [hld] at hdec; simp at hdec
        | (.ok s, r1) =>
          simp only [hld] at hdec
          match hps : parseSignedInt s with
          | none => simp only [hps] at hdec; simp at hdec
          | some i0 =>
            simp only [hps, Prod.mk.injEq, Except.ok.injEq] at hdec
            obtain ⟨e0, hex, _, hr1⟩ := lineDecode_inv 58 (58 :: r) s r1 hld
            have hb0 := extractSimple_ok_inv _ 58 e0 hex
            refine ⟨e0 + 2, ?_, hb0, ?_⟩
            · simp only [frameExpectLen]
              norm_num
              exact simpleExpectLen_of_extract 58 (58 :: r) e0 hex
            · rw [← hdec.2, hr1]
      by_cases h36 : b = 36
      · subst h36
        simp only [frameDecodeA] at hdec
        norm_num at hdec
        split at hdec
        · rename_i u heq
          cases u
          simp only [Prod.mk.injEq, Except.ok.injEq] at hdec
          obtain ⟨hl5, hshape⟩ := extractFixed_ok_inv _ _ heq
          generalize hG : (36 :: r).drop nullBulkPat.length = X at hshape
          have hr : r = 45 :: 49 :: 13 :: 10 :: X := by simpa [nullBulkPat] using hshape
          subst hr
          exact ⟨5, scanNull36 X fuel, by simp, hdec.2.symm.trans rfl⟩
        · simp at hdec
        · rename_i e hne heq
          split at hdec
          · simp at hdec
          · rename_i e0 len heqpl
            split at hdec
            · simp at hdec
            · rename_i hneg
              split at hdec
              · simp at hdec
              · rename_i hlen
                simp only [Prod.mk.injEq, Except.ok.injEq] at hdec
                refine ⟨e0 + 2 + len.toNat + 2, ?_, by simp; omega, ?_⟩
                · simp only [frameExpectLen]
                  norm_num
                  rw [bulkExpectLen]
                  simp only [heqpl]
                  rw [if_neg (by omega), if_neg hneg]
                  rw [if_neg (by simp; omega)]
                · exact hdec.2.symm.trans rfl
      by_cases h42 : b = 42
      · subst h42
        simp only [frameDecodeA] at hdec
        norm_num at hdec
        split at hdec
        · rename_i u heq
          cases u
          simp only [Prod.mk.injEq, Except.ok.injEq] at hdec
          obtain ⟨hl5, hshape⟩ := extractFixed_ok_inv _ _ heq
          generalize hG : (42 :: r).drop nullArrayPat.length = X at hshape
          have hr : r = 45 :: 49 :: 13 :: 10 :: X := by simpa [nullArrayPat] using hshape
          subst hr
          exact ⟨5, scanNull42 X fuel, by simp, hdec.2.symm.trans rfl⟩
        · simp at hdec
        · rename_i e hne heq
          split at hdec
          · simp at hdec
          · rename_i e0 len heqpl
            split at hdec
            · simp at hdec
            · rename_i hneg
              split at hdec
              · simp at hdec
              · rename_i total heqc
                split at hdec
                · simp at hdec
                · rename_i hlen
                  split at hdec
                  · simp at hdec
                  · rename_i fs0 rest0 heqw
                    simp only [Prod.mk.injEq, Except.ok.injEq] at hdec
                    obtain ⟨t2, hwl, htot⟩ :=
                      calcTotal_inv42 (frameExpectLen fuel) (42 :: r) e0 len total heqc
                    obtain ⟨t, hwalkL, htle, hrw⟩ := walkAgree fuel IH len.toNat _ fs0 rest0 heqw
                    have hbb : ((42 : Nat) :: r).drop (e0 + 2) = r.drop (e0 + 1) := rfl
                    rw [hbb] at hwl
                    have ht12 : t2 = t := by
                      rw [hwl] at hwalkL
                      exact Except.ok.inj hwalkL
                    refine ⟨total, ?_, by simp; omega, ?_⟩
                    · simp only [frameExpectLen]
                      norm_num
                      simp only [heqpl]
                      rw [if_neg (by omega), if_neg hneg]
                      exact heqc
                    · rw [← hdec.2, hrw, List.drop_drop, htot, ht12]
                      rw [(by omega : e0 + 2 + t = (e0 + 1 + t) + 1), List.drop_succ_cons]
      by_cases h95 : b = 95
      · subst h95
        simp only [frameDecodeA] at hdec
        norm_num at hdec
        split at hdec
        · rename_i u heq
          cases u
          simp only [Prod.mk.injEq, Except.ok.injEq] at hdec
          obtain ⟨hl3, hshape⟩ := extractFixed_ok_inv _ _ heq
          generalize hG : (95 :: r).drop nullPat.length = X at hshape
          have hr : r = 13 :: 10 :: X := by simpa [nullPat] using hshape
          subst hr
          refine ⟨3, ?_, by simp, hdec.2.symm.trans rfl⟩
          simp only [frameExpectLen]
          norm_num
          rw [nullExpectLen]
          have hfix : extractFixedData (95 :: 13 :: 10 :: X) nullPat = .ok () := by
            have h := extractFixed_complete nullPat X
            simpa [nullPat] using h
          simp only [hfix]
        · simp at hdec
      by_cases h35 : b = 35
      · subst h35
        simp only [frameDecodeA] at hdec
        norm_num at hdec
        split at hdec
        · rename_i u heq
          cases u
          simp only [Prod.mk.injEq, Except.ok.injEq] at hdec
          obtain ⟨hl4, hshape⟩ := extractFixed_ok_inv _ _ heq
          generalize hG : (35 :: r).drop truePat.length = X at hshape
          have hr : r = 116 :: 13 :: 10 :: X := by simpa [truePat] using hshape
          subst hr
          refine ⟨4, ?_, by simp, hdec.2.symm.trans rfl⟩
          simp only [frameExpectLen]
          norm_num
          rw [boolExpectLen]
          have hfix : extractFixedData (35 :: 116 :: 13 :: 10 :: X) truePat = .ok () := by
            have h := extractFixed_complete truePat X
            simpa [truePat] using h
          simp only [hfix]
        · simp at hdec
        · rename_i e hne heq
          split at hdec
          · rename_i u heq2
            cases u
            simp only [Prod.mk.injEq, Except.ok.injEq] at hdec
            obtain ⟨hl4, hshape⟩ := extractFixed_ok_inv _ _ heq2
            generalize hG : (35 :: r).drop falsePat.length = X at hshape
            have hr : r = 102 :: 13 :: 10 :: X := by simpa [falsePat] using hshape
            subst hr
            refine ⟨4, ?_, by simp, hdec.2.symm.trans rfl⟩
            simp only [frameExpectLen]
            norm_num
            rw [boolExpectLen]
            have hmis : extractFixedData (35 :: 102 :: 13 :: 10 :: X) truePat =
                .error .invalidFrameType := by
              have h := extractFixed_mismatch2 35 102 116 (13 :: 10 :: X) [13, 10] (by omega)
              simpa [truePat] using h
            simp only [hmis]
            have hfix2 : extractFixedData (35 :: 102 :: 13 :: 10 :: X) falsePat = .ok () := by
              have h := extractFixed_complete falsePat X
              simpa [falsePat] using h
            simp only [hfix2]
          · simp at hdec
      by_cases h44 : b = 44
      · subst h44
        simp only [frameDecodeA] at hdec
        norm_num at hdec
        match hld : lineDecode 44 (44 :: r) with
        | (.error e, r1) => simp only [hld] at hdec; simp at hdec
        | (.ok s, r1) =>
          simp only [hld] at hdec
          split at hdec
          · simp only [Prod.mk.injEq, Except.ok.injEq] at hdec
            obtain ⟨e0, hex, _, hr1⟩ := lineDecode_inv 44 (44 :: r) s r1 hld
            have hb0 := extractSimple_ok_inv _ 44 e0 hex
            refine ⟨e0 + 2, ?_, hb0, ?_⟩
            · simp only [frameExpectLen]
              norm_num
              exact simpleExpectLen_of_extract 44 (44 :: r) e0 hex
            · rw [← hdec.2, hr1]
          · simp at hdec
      by_cases h37 : b = 37
      · subst h37
        simp only [frameDecodeA] at hdec
        norm_num at hdec
        split at hdec
        · simp at hdec
        · rename_i e0 len heqpl
          split at hdec
          · simp at hdec
          · rename_i total heqc
            split at hdec
            · simp at hdec
            · rename_i hlen
              split at hdec
              · simp at hdec
              · rename_i ps0 rest0 heqw
                simp only [Prod.mk.injEq, Except.ok.injEq] at hdec
                obtain ⟨hpos, t2, hwl, htot⟩ :=
                  calcTotal_inv37 (frameExpectLen fuel) (37 :: r) e0 len total heqc
                obtain ⟨t, hwalkL, htle, hrw⟩ :=
                  walkPairsAgree fuel IH len.toNat _ ps0 rest0 heqw
                have hbb : ((37 : Nat) :: r).drop (e0 + 2) = r.drop (e0 + 1) := rfl
                rw [hbb] at hwl
                have ht12 : t2 = t := by
                  rw [hwl] at hwalkL
                  exact Except.ok.inj hwalkL
                refine ⟨total, ?_, by simp; omega, ?_⟩
                · simp only [frameExpectLen]
                  norm_num
                  simp only [heqpl]
                  exact heqc
                · rw [← hdec.2, hrw, List.drop_drop, htot, ht12]
                  rw [(by omega : e0 + 2 + t = (e0 + 1 + t) + 1), List.drop_succ_cons]
      by_cases h126 : b = 126
      · subst h126
        simp only [frameDecodeA] at hdec
        norm_num at hdec
        split at hdec
        · simp at hdec
        · rename_i e0 len heqpl
          split at hdec
          · simp at hdec
          · rename_i total heqc
            split at hdec
            · simp at hdec
            · rename_i hlen
              split at hdec
              · simp at hdec
              · rename_i fs0 rest0 heqw
                simp only [Prod.mk.injEq, Except.ok.injEq] at hdec
                obtain ⟨hpos, t2, hwl, htot⟩ :=
                  calcTotal_inv126 (frameExpectLen fuel) (126 :: r) e0 len total heqc
                obtain ⟨t, hwalkL, htle, hrw⟩ := walkAgree fuel IH len.toNat _ fs0 rest0 heqw
                have hbb : ((126 : Nat) :: r).drop (e0 + 2) = r.drop (e0 + 1) := rfl
                rw [hbb] at hwl
                have ht12 : t2 = t := by
                  rw [hwl] at hwalkL
                  exact Except.ok.inj hwalkL
                refine ⟨total, ?_, by simp; omega, ?_⟩
                · simp only [frameExpectLen]
                  norm_num
                  simp only [heqpl]
                  exact heqc
                · rw [← hdec.2, hrw, List.drop_drop, htot, ht12]
                  rw [(by omega : e0 + 2 + t = (e0 + 1 + t) + 1), List.drop_succ_cons]
      · simp only [frameDecodeA] at hdec
        rw [if_neg h43, if_neg h45, if_neg h58, if_neg h36, if_neg h42, if_neg h95,
          if_neg h35, if_neg h44, if_neg h37, if_neg h126] at hdec
        simp at hdec

/-! ## Strategy B parser building blocks on complete input -/

theorem pLine_complete (s X : List Nat) (hclean : lineClean s = true) :
    pLine (s ++ 13 :: 10 :: X) = .ok (s, X) := by
  obtain ⟨h1, h2⟩ := lineClean_elim hclean
  rw [pLine]
  simp only [findCRLF_append s X h1 h2]
  rw [take_app, drop_line2 s X _ rfl]

theorem pIntegerB_nat (n : Nat) (hn : n ≤ maxI64) (X : List Nat) :
    pIntegerB (natBytes n ++ 13 :: 10 :: X) = .ok ((n : Int), X) := by
  obtain ⟨d0, ds, hds, hd0⟩ := natBytes_cons n
  have hd045 : d0 ≠ 45 := by rw [isDigitByte_iff] at hd0; omega
  have htd : takeDigits (natBytes n ++ 13 :: 10 :: X) = (natBytes n, 13 :: 10 :: X) :=
    takeDigits_block _ _ (natBytes_all_digit n) (nonNumHead_crlf X)
  have hdv := digitsVal_natBytes n
  rw [hds] at htd hdv ⊢
  rw [pIntegerB, if_neg (by simp [hd045])]
  simp only [htd]
  norm_num
  rw [hdv, if_pos hn, if_pos (show ([13, 10] : List Nat) = CRLF from rfl)]

theorem pIntegerB_negnat (n : Nat) (hn : n ≤ maxI64) (X : List Nat) :
    pIntegerB (45 :: (natBytes n ++ 13 :: 10 :: X)) = .ok (-(n : Int), X) := by
  obtain ⟨d0, ds, hds, hd0⟩ := natBytes_cons n
  have htd : takeDigits (natBytes n ++ 13 :: 10 :: X) = (natBytes n, 13 :: 10 :: X) :=
    takeDigits_block _ _ (natBytes_all_digit n) (nonNumHead_crlf X)
  have hdv := digitsVal_natBytes n
  rw [hds] at htd hdv ⊢
  rw [pIntegerB]
  rw [if_pos (show ((45 : Nat) :: (d0 :: ds ++ 13 :: 10 :: X)).head? = some 45 from rfl)]
  simp only [List.tail_cons, htd]
  norm_num
  rw [hdv, if_pos hn, if_pos (show ([13, 10] : List Nat) = CRLF from rfl)]

theorem pIntegerB_null (X : List Nat) :
    pIntegerB (45 :: 49 :: 13 :: 10 :: X) = .ok (-1, X) := by
  have h := pIntegerB_negnat 1 (by norm_num [maxI64]) X
  rw [show natBytes 1 = [49] from rfl] at h
  simpa using h

theorem lineClean_cons_ne13 (c : Nat) (hc : c ≠ 13) (l : List Nat) (h : lineClean l = true) :
    lineClean (c :: l) = true := by
  obtain ⟨h1, h2⟩ := lineClean_elim h
  rw [lineClean, Bool.and_eq_true]
  constructor
  · match l, h1 with
    | [], _ => rfl
    | b :: r, h1 =>
      rw [noCRLF, if_neg (by intro hab; exact hc hab.1)]
      exact h1
  · match l, h2 with
    | [], _ => simp [lastNotCR, hc]
    | b :: r, h2 => exact h2

/-! ## Strategy B scan-complete on the friendly fragment -/

mutual

/-- Strategy B's length scanner accepts a well-formed friendly encoded
frame, consuming exactly the encoding. -/
theorem scanOkB : ∀ (f : RespFrame), wfFrame f = true → v2Friendly f = true →
    ∀ (fuel : Nat), (encodeFrame f).length ≤ fuel → ∀ rest : List Nat,
    parseFrameLenB fuel (encodeFrame f ++ rest) = .ok ((), rest)
  | .simpleString s, hwf, _, fuel, hfuel, rest => by
    have hclean : lineClean s = true := by simpa [wfFrame] using hwf
    have hlen : (encodeFrame (.simpleString s)).length = s.length + 3 := by
      simp [encodeFrame, CRLF]
    have hene : encodeFrame (.simpleString s) ++ rest = 43 :: (s ++ 13 :: 10 :: rest) := by
      simp [encodeFrame, CRLF]
    match fuel, hfuel with
    | 0, hf => rw [hlen] at hf; omega
    | fuel + 1, _ =>
      rw [hene]
      simp only [parseFrameLenB]
      norm_num
      simp only [pLine_complete s rest hclean]
  | .error s, hwf, _, fuel, hfuel, rest => by
    have hclean : lineClean s = true := by simpa [wfFrame] using hwf
    have hlen : (encodeFrame (.error s)).length = s.length + 3 := by
      simp [encodeFrame, CRLF]
    have hene : encodeFrame (.error s) ++ rest = 45 :: (s ++ 13 :: 10 :: rest) := by
      simp [encodeFrame, CRLF]
    match fuel, hfuel with
    | 0, hf => rw [hlen] at hf; omega
    | fuel + 1, _ =>
      rw [hene]
      simp only [parseFrameLenB]
      norm_num
      simp only [pLine_complete s rest hclean]
  | .integer i, _, hfr, fuel, hfuel, rest => by
    have hi : i < 0 ∧ -i ≤ (maxI64 : Int) := by simpa [v2Friendly] using hfr
    have hene : encodeFrame (.integer i) ++ rest =
        58 :: (45 :: (natBytes (-i).toNat ++ 13 :: 10 :: rest)) := by
      simp [encodeFrame, intEncode, CRLF, if_neg (by omega : ¬(0 ≤ i))]
    have hlen : (encodeFrame (.integer i)).length = (natBytes (-i).toNat).length + 4 := by
      simp [encodeFrame, intEncode, CRLF, if_neg (by omega : ¬(0 ≤ i)), List.length_append]
    have hl : pLine (45 :: (natBytes (-i).toNat ++ 13 :: 10 :: rest)) =
        .ok (45 :: natBytes (-i).toNat, rest) := by
      have h := pLine_complete (45 :: natBytes (-i).toNat) rest
        (lineClean_cons_digits 45 _ (by omega))
      simpa using h
    match fuel, hfuel with
    | 0, hf => rw [hlen] at hf; omega
    | fuel + 1, _ =>
      rw [hene]
      simp only [parseFrameLenB]
      norm_num
      simp only [hl]
  | .double m e, hwf, _, fuel, hfuel, rest => by
    obtain ⟨body, hshape, hne13, _⟩ := doubleEncode_split m e hwf
    have hclean : lineClean body = true := lineClean_of_all_ne13 body hne13
    have hene : encodeFrame (.double m e) ++ rest = 44 :: (body ++ 13 :: 10 :: rest) := by
      rw [show encodeFrame (.double m e) = 44 :: (body ++ [13, 10]) from hshape]
      simp
    have hlen : (encodeFrame (.double m e)).length = body.length + 3 := by
      rw [show encodeFrame (.double m e) = 44 :: (body ++ [13, 10]) from hshape]
      simp
    match fuel, hfuel with
    | 0, hf => rw [hlen] at hf; omega
    | fuel + 1, _ =>
      rw [hene]
      simp only [parseFrameLenB]
      norm_num
      simp only [pLine_complete body rest hclean]
  | .bulkString p, _, hfr, fuel, hfuel, rest => by
    obtain ⟨hpe, hpmax⟩ : ¬p.isEmpty = true ∧ p.length ≤ maxI64 := by
      simpa [v2Friendly, Bool.and_eq_true] using hfr
    have hp : 0 < p.length := by
      cases p with
      | nil => simp [List.isEmpty] at hpe
      | cons a l => simp
    have hlen : (encodeFrame (.bulkString p)).length =
        (natBytes p.length).length + p.length + 5 := by
      simp [encodeFrame, CRLF, List.length_append]
      omega
    have hene : encodeFrame (.bulkString p) ++ rest =
        36 :: (natBytes p.length ++ 13 :: 10 :: (p ++ 13 :: 10 :: rest)) := by
      simp [encodeFrame, CRLF]
    match fuel, hfuel with
    | 0, hf => rw [hlen] at hf; omega
    | fuel + 1, _ =>
      rw [hene]
      simp only [parseFrameLenB]
      norm_num
      rw [bulkStringLenB]
      simp only [pIntegerB_nat p.length hpmax (p ++ 13 :: 10 :: rest)]
      rw [if_neg (by omega), if_neg (by omega)]
      simp only [Int.toNat_natCast]
      rw [if_neg (by simp [List.length_append])]
      rw [drop_line2 p rest _ rfl]
  | .nullBulkString, _, _, fuel, hfuel, rest => by
    match fuel, hfuel with
    | 0, hf => simp [encodeFrame] at hf
    | fuel + 1, _ =>
      have hene : encodeFrame .nullBulkString ++ rest = 36 :: 45 :: 49 :: 13 :: 10 :: rest := by
        simp [encodeFrame]
      rw [hene]
      simp only [parseFrameLenB]
      norm_num
      rw [bulkStringLenB]
      simp only [pIntegerB_null rest]
      norm_num
  | .nullArray, _, _, fuel, hfuel, rest => by
    match fuel, hfuel with
    | 0, hf => simp [encodeFrame] at hf
    | fuel + 1, _ =>
      have hene : encodeFrame .nullArray ++ rest = 42 :: 45 :: 49 :: 13 :: 10 :: rest := by
        simp [encodeFrame]
      rw [hene]
      simp only [parseFrameLenB]
      norm_num
      rw [arrayLenB]
      simp only [pIntegerB_null rest]
      norm_num
  | .null, _, _, fuel, hfuel, rest => by
    match fuel, hfuel with
    | 0, hf => simp [encodeFrame] at hf
    | fuel + 1, _ =>
      have hene : encodeFrame .null ++ rest = 95 :: 13 :: 10 :: rest := by
        simp [encodeFrame]
      rw [hene]
      simp only [parseFrameLenB]
      norm_num
      have hl : pLine (13 :: 10 :: rest) = .ok ([], rest) := by
        have h := pLine_complete [] rest (by decide)
        simpa using h
      simp only [hl]
  | .boolean b, _, hfr, fuel, hfuel, rest => by
    simp [v2Friendly] at hfr
  | .set fs, _, hfr, fuel, hfuel, rest => by
    simp [v2Friendly] at hfr
  | .array fs, hwf, hfr, fuel, hfuel, rest => by
    have hwl : wfList fs = true := by simpa [wfFrame] using hwf
    obtain ⟨hmaxA, hfl⟩ : fs.length ≤ maxI64 ∧ v2FriendlyList fs = true := by
      simpa [v2Friendly, Bool.and_eq_true] using hfr
    have hd1 := natBytes_len_pos fs.length
    have hlen : (encodeFrame (.array fs)).length =
        (natBytes fs.length).length + (encodeList fs).length + 3 := by
      simp [encodeFrame, CRLF, List.length_append]
      omega
    have hene : encodeFrame (.array fs) ++ rest =
        42 :: (natBytes fs.length ++ 13 :: 10 :: (encodeList fs ++ rest)) := by
      simp [encodeFrame, CRLF]
    match fuel, hfuel with
    | 0, hf => rw [hlen] at hf; omega
    | fuel + 1, hf =>
      rw [hene]
      simp only [parseFrameLenB]
      norm_num
      rw [arrayLenB]
      simp only [pIntegerB_nat fs.length hmaxA (encodeList fs ++ rest)]
      match fs, hwl, hfl with
      | .nil, _, _ =>
        rw [if_pos (by simp [FrameList.length])]
        simp [encodeList]
      | .cons f0 fs0, hwl, hfl =>
        rw [if_neg (by simp [FrameList.length]; omega), if_neg (by simp [FrameList.length]; omega)]
        simp only [Int.toNat_natCast]
        exact scanOkBList (.cons f0 fs0) hwl hfl fuel (by rw [hlen] at hf; omega) rest
  | .map entries, hwf, hfr, fuel, hfuel, rest => by
    obtain ⟨hwp, hpos⟩ := wfMap_elim entries hwf
    obtain ⟨hmaxM, hfp⟩ : entries.length ≤ maxI64 ∧ v2FriendlyPairs entries = true := by
      simpa [v2Friendly, Bool.and_eq_true] using hfr
    have hd1 := natBytes_len_pos entries.length
    have hlen : (encodeFrame (.map entries)).length =
        (natBytes entries.length).length + (encodePairs entries).length + 3 := by
      simp [encodeFrame, CRLF, List.length_append]
      omega
    have hene : encodeFrame (.map entries) ++ rest =
        37 :: (natBytes entries.length ++ 13 :: 10 :: (encodePairs entries ++ rest)) := by
      simp [encodeFrame, CRLF]
    match fuel, hfuel with
    | 0, hf => rw [hlen] at hf; omega
    | fuel + 1, hf =>
      rw [hene]
      simp only [parseFrameLenB]
      norm_num
      rw [mapLenB]
      simp only [pIntegerB_nat entries.length hmaxM (encodePairs entries ++ rest)]
      rw [if_neg (by omega)]
      simp only [Int.toNat_natCast]
      exact scanOkBPairs entries hwp hfp fuel (by rw [hlen] at hf; omega) rest

/-- Strategy B's skip loop accepts a well-formed friendly encoded frame
sequence. -/
theorem scanOkBList : ∀ (fs : FrameList), wfList fs = true → v2FriendlyList fs = true →
    ∀ (fuel : Nat), (encodeList fs).length ≤ fuel → ∀ rest : List Nat,
    walkUnitB (parseFrameLenB fuel) fs.length (encodeList fs ++ rest) = .ok ((), rest)
  | .nil, _, _, fuel, _, rest => by
    simp [encodeList, walkUnitB, FrameList.length]
  | .cons f fs, hwf, hfr, fuel, hfuel, rest => by
    obtain ⟨hwf1, hwf2⟩ : wfFrame f = true ∧ wfList fs = true := by
      simpa [wfList, Bool.and_eq_true] using hwf
    obtain ⟨hfr1, hfr2⟩ : v2Friendly f = true ∧ v2FriendlyList fs = true := by
      simpa [v2FriendlyList, Bool.and_eq_true] using hfr
    have hlen : (encodeList (.cons f fs)).length =
        (encodeFrame f).length + (encodeList fs).length := by
      simp [encodeList]
    have hene : encodeList (.cons f fs) ++ rest = encodeFrame f ++ (encodeList fs ++ rest) := by
      simp [encodeList]
    have hlenc : FrameList.length (.cons f fs) = fs.length + 1 := rfl
    rw [hlenc, hene]
    simp only [walkUnitB]
    have h1 := scanOkB f hwf1 hfr1 fuel (by rw [hlen] at hfuel; omega) (encodeList fs ++ rest)
    simp only [h1]
    exact scanOkBList fs hwf2 hfr2 fuel (by rw [hlen] at hfuel; omega) rest

/-- Strategy B's entry skip loop accepts a well-formed friendly encoded
map body. -/
theorem scanOkBPairs : ∀ (ps : PairList), wfPairs ps = true → v2FriendlyPairs ps = true →
    ∀ (fuel : Nat), (encodePairs ps).length ≤ fuel → ∀ rest : List Nat,
    walkUnitB (mapEntryLenB (parseFrameLenB fuel)) ps.length (encodePairs ps ++ rest) =
      .ok ((), rest)
  | .nil, _, _, fuel, _, rest => by
    simp [encodePairs, walkUnitB, PairList.length]
  | .cons ky v ps, hwf, hfr, fuel, hfuel, rest => by
    obtain ⟨⟨⟨hkc, hv⟩, _⟩, hps⟩ :
        ((lineClean ky = true ∧ wfFrame v = true) ∧ PairList.allGt ky ps = true) ∧
          wfPairs ps = true := by
      simpa [wfPairs, Bool.and_eq_true] using hwf
    obtain ⟨hfv, hfp⟩ : v2Friendly v = true ∧ v2FriendlyPairs ps = true := by
      simpa [v2FriendlyPairs, Bool.and_eq_true] using hfr
    have hlen : (encodePairs (.cons ky v ps)).length =
        ky.length + 3 + ((encodeFrame v).length + (encodePairs ps).length) := by
      simp [encodePairs, CRLF, List.length_append]
      omega
    have hene : encodePairs (.cons ky v ps) ++ rest =
        43 :: (ky ++ 13 :: 10 :: (encodeFrame v ++ (encodePairs ps ++ rest))) := by
      simp [encodePairs, CRLF]
    have hlenc : PairList.length (.cons ky v ps) = ps.length + 1 := rfl
    rw [hlenc, hene]
    simp only [walkUnitB]
    rw [mapEntryLenB]
    have hl : pLine (43 :: (ky ++ 13 :: 10 :: (encodeFrame v ++ (encodePairs ps ++ rest)))) =
        .ok (43 :: ky, encodeFrame v ++ (encodePairs ps ++ rest)) := by
      have h := pLine_complete (43 :: ky) (encodeFrame v ++ (encodePairs ps ++ rest))
        (lineClean_cons_ne13 43 (by omega) ky hkc)
      simpa using h
    simp only [hl]
    have h1 := scanOkB v hv hfv fuel (by rw [hlen] at hfuel; omega) (encodePairs ps ++ rest)
    simp only [h1]
    exact scanOkBPairs ps hps hfp fuel (by rw [hlen] at hfuel; omega) rest

end

/-! ## Strategy B parse-complete on the friendly fragment -/

theorem pTag_digits_backtrack (pat : List Nat) (hpat : pat.length = 4)
    (hpat0 : ∀ x, pat.head? = some x → x = 45) (n : Nat) (T : List Nat) :
    pTag pat (natBytes n ++ T) = .error .backtrack := by
  obtain ⟨d0, ds, hds, hd0⟩ := natBytes_cons n
  have hd045 : d0 ≠ 45 := by rw [isDigitByte_iff] at hd0; omega
  rw [pTag, if_neg]
  intro heq
  match pat, hpat, hpat0 with
  | p0 :: p1 :: p2 :: p3 :: [], _, hpat0 =>
    have hp0 : p0 = 45 := hpat0 p0 rfl
    rw [hds] at heq
    simp only [List.length_cons, List.cons_append, List.take_succ_cons] at heq
    have := List.cons.inj heq
    exact hd045 (this.1.trans hp0)

mutual

/-- Strategy B's single-pass parser decodes a well-formed friendly
encoded frame back to itself. -/
theorem parseOkB : ∀ (f : RespFrame), wfFrame f = true → v2Friendly f = true →
    ∀ (fuel : Nat), (encodeFrame f).length ≤ fuel → ∀ rest : List Nat,
    parseFrameB fuel (encodeFrame f ++ rest) = .ok (f, rest)
  | .simpleString s, hwf, _, fuel, hfuel, rest => by
    have hclean : lineClean s = true := by simpa [wfFrame] using hwf
    have hlen : (encodeFrame (.simpleString s)).length = s.length + 3 := by
      simp [encodeFrame, CRLF]
    have hene : encodeFrame (.simpleString s) ++ rest = 43 :: (s ++ 13 :: 10 :: rest) := by
      simp [encodeFrame, CRLF]
    match fuel, hfuel with
    | 0, hf => rw [hlen] at hf; omega
    | fuel + 1, _ =>
      rw [hene]
      simp only [parseFrameB]
      norm_num
      simp only [pLine_complete s rest hclean]
  | .error s, hwf, _, fuel, hfuel, rest => by
    have hclean : lineClean s = true := by simpa [wfFrame] using hwf
    have hlen : (encodeFrame (.error s)).length = s.length + 3 := by
      simp [encodeFrame, CRLF]
    have hene : encodeFrame (.error s) ++ rest = 45 :: (s ++ 13 :: 10 :: rest) := by
      simp [encodeFrame, CRLF]
    match fuel, hfuel with
    | 0, hf => rw [hlen] at hf; omega
    | fuel + 1, _ =>
      rw [hene]
      simp only [parseFrameB]
      norm_num
      simp only [pLine_complete s rest hclean]
  | .integer i, _, hfr, fuel, hfuel, rest => by
    have hi : i < 0 ∧ -i ≤ (maxI64 : Int) := by simpa [v2Friendly] using hfr
    have hene : encodeFrame (.integer i) ++ rest =
        58 :: (45 :: (natBytes (-i).toNat ++ 13 :: 10 :: rest)) := by
      simp [encodeFrame, intEncode, CRLF, if_neg (by omega : ¬(0 ≤ i))]
    have hlen : (encodeFrame (.integer i)).length = (natBytes (-i).toNat).length + 4 := by
      simp [encodeFrame, intEncode, CRLF, if_neg (by omega : ¬(0 ≤ i)), List.length_append]
    match fuel, hfuel with
    | 0, hf => rw [hlen] at hf; omega
    | fuel + 1, _ =>
      rw [hene]
      simp only [parseFrameB]
      norm_num
      simp only [pIntegerB_negnat (-i).toNat (by omega) rest]
      rw [show -(((-i).toNat : Int)) = i from by omega]
  | .double m e, hwf, _, fuel, hfuel, rest => by
    obtain ⟨body, hshape, hne13, hparse⟩ := doubleEncode_split m e hwf
    obtain ⟨p, hpl, hnorm⟩ := hparse (13 :: 10 :: rest) (nonNumHead_crlf rest)
    have hene : encodeFrame (.double m e) ++ rest = 44 :: (body ++ 13 :: 10 :: rest) := by
      rw [show encodeFrame (.double m e) = 44 :: (body ++ [13, 10]) from hshape]
      simp
    have hlen : (encodeFrame (.double m e)).length = body.length + 3 := by
      rw [show encodeFrame (.double m e) = 44 :: (body ++ [13, 10]) from hshape]
      simp
    match fuel, hfuel with
    | 0, hf => rw [hlen] at hf; omega
    | fuel + 1, _ =>
      rw [hene]
      simp only [parseFrameB]
      norm_num
      simp only [hpl]
      rw [if_pos (show ((13 : Nat) :: 10 :: rest).take 2 = CRLF from rfl)]
      rw [hnorm]
      rfl
  | .bulkString p, _, hfr, fuel, hfuel, rest => by
    obtain ⟨hpe, hpmax⟩ : ¬p.isEmpty = true ∧ p.length ≤ maxI64 := by
      simpa [v2Friendly, Bool.and_eq_true] using hfr
    have hp : 0 < p.length := by
      cases p with
      | nil => simp [List.isEmpty] at hpe
      | cons a l => simp
    have hlen : (encodeFrame (.bulkString p)).length =
        (natBytes p.length).length + p.length + 5 := by
      simp [encodeFrame, CRLF, List.length_append]
      omega
    have hene : encodeFrame (.bulkString p) ++ rest =
        36 :: (natBytes p.length ++ 13 :: 10 :: (p ++ 13 :: 10 :: rest)) := by
      simp [encodeFrame, CRLF]
    match fuel, hfuel with
    | 0, hf => rw [hlen] at hf; omega
    | fuel + 1, _ =>
      rw [hene]
      simp only [parseFrameB]
      norm_num
      have htag := pTag_digits_backtrack [45, 49, 13, 10] rfl (by intro x hx; simpa using hx.symm)
        p.length (13 :: 10 :: (p ++ 13 :: 10 :: rest))
      simp only [htag]
      simp only [pIntegerB_nat p.length hpmax (p ++ 13 :: 10 :: rest)]
      rw [if_neg (by omega), if_neg (by omega)]
      simp only [Int.toNat_natCast]
      rw [if_neg (by simp [List.length_append]; omega)]
      rw [drop_app_zero]
      rw [if_pos (show ((13 : Nat) :: 10 :: rest).take 2 = CRLF from rfl)]
      rw [take_app]
      rw [drop_line2 p rest _ rfl]
  | .nullBulkString, _, _, fuel, hfuel, rest => by
    match fuel, hfuel with
    | 0, hf => simp [encodeFrame] at hf
    | fuel + 1, _ =>
      have hene : encodeFrame .nullBulkString ++ rest = 36 :: 45 :: 49 :: 13 :: 10 :: rest := by
        simp [encodeFrame]
      rw [hene]
      simp only [parseFrameB]
      norm_num
      have htag : pTag [45, 49, 13, 10] (45 :: 49 :: 13 :: 10 :: rest) = .ok ((), rest) := by
        rw [pTag,
          if_pos (show List.take ([45, 49, 13, 10] : List Nat).length
            ((45 : Nat) :: 49 :: 13 :: 10 :: rest) = [45, 49, 13, 10] from rfl)]
        rfl
      simp only [htag]
  | .nullArray, _, _, fuel, hfuel, rest => by
    match fuel, hfuel with
    | 0, hf => simp [encodeFrame] at hf
    | fuel + 1, _ =>
      have hene : encodeFrame .nullArray ++ rest = 42 :: 45 :: 49 :: 13 :: 10 :: rest := by
        simp [encodeFrame]
      rw [hene]
      simp only [parseFrameB]
      norm_num
      have htag : pTag [45, 49, 13, 10] (45 :: 49 :: 13 :: 10 :: rest) = .ok ((), rest) := by
        rw [pTag,
          if_pos (show List.take ([45, 49, 13, 10] : List Nat).length
            ((45 : Nat) :: 49 :: 13 :: 10 :: rest) = [45, 49, 13, 10] from rfl)]
        rfl
      simp only [htag]
  | .null, _, _, fuel, hfuel, rest => by
    match fuel, hfuel with
    | 0, hf => simp [encodeFrame] at hf
    | fuel + 1, _ =>
      have hene : encodeFrame .null ++ rest = 95 :: 13 :: 10 :: rest := by
        simp [encodeFrame]
      rw [hene]
      simp only [parseFrameB]
      norm_num
      have htag : pTag CRLF (13 :: 10 :: rest) = .ok ((), rest) := by
        rw [pTag, if_pos (show ((13 : Nat) :: 10 :: rest).take CRLF.length = CRLF from rfl)]
        rfl
      simp only [htag]
  | .boolean b, _, hfr, fuel, hfuel, rest => by
    simp [v2Friendly] at hfr
  | .set fs, _, hfr, fuel, hfuel, rest => by
    simp [v2Friendly] at hfr
  | .array fs, hwf, hfr, fuel, hfuel, rest => by
    have hwl : wfList fs = true := by simpa [wfFrame] using hwf
    obtain ⟨hmaxA, hfl⟩ : fs.length ≤ maxI64 ∧ v2FriendlyList fs = true := by
      simpa [v2Friendly, Bool.and_eq_true] using hfr
    have hd1 := natBytes_len_pos fs.length
    have hlen : (encodeFrame (.array fs)).length =
        (natBytes fs.length).length + (encodeList fs).length + 3 := by
      simp [encodeFrame, CRLF, List.length_append]
      omega
    have hene : encodeFrame (.array fs) ++ rest =
        42 :: (natBytes fs.length ++ 13 :: 10 :: (encodeList fs ++ rest)) := by
      simp [encodeFrame, CRLF]
    match fuel, hfuel with
    | 0, hf => rw [hlen] at hf; omega
    | fuel + 1, hf =>
      rw [hene]
      simp only [parseFrameB]
      norm_num
      have htag := pTag_digits_backtrack [45, 49, 13, 10] rfl (by intro x hx; simpa using hx.symm)
        fs.length (13 :: 10 :: (encodeList fs ++ rest))
      simp only [htag]
      simp only [pIntegerB_nat fs.length hmaxA (encodeList fs ++ rest)]
      match fs, hwl, hfl with
      | .nil, _, _ =>
        rw [if_pos (by simp [FrameList.length])]
        simp [encodeList]
      | .cons f0 fs0, hwl, hfl =>
        rw [if_neg (by simp [FrameList.length]; omega),
          if_neg (by simp [FrameList.length]; omega)]
        simp only [Int.toNat_natCast]
        have hrec := parseOkBList (.cons f0 fs0) hwl hfl fuel (by rw [hlen] at hf; omega) rest
        simp only [hrec]
  | .map entries, hwf, hfr, fuel, hfuel, rest => by
    obtain ⟨hwp, hpos⟩ := wfMap_elim entries hwf
    obtain ⟨hmaxM, hfp⟩ : entries.length ≤ maxI64 ∧ v2FriendlyPairs entries = true := by
      simpa [v2Friendly, Bool.and_eq_true] using hfr
    have hd1 := natBytes_len_pos entries.length
    have hlen : (encodeFrame (.map entries)).length =
        (natBytes entries.length).length + (encodePairs entries).length + 3 := by
      simp [encodeFrame, CRLF, List.length_append]
      omega
    have hene : encodeFrame (.map entries) ++ rest =
        37 :: (natBytes entries.length ++ 13 :: 10 :: (encodePairs entries ++ rest)) := by
      simp [encodeFrame, CRLF]
    match fuel, hfuel with
    | 0, hf => rw [hlen] at hf; omega
    | fuel + 1, hf =>
      rw [hene]
      simp only [parseFrameB]
      norm_num
      simp only [pIntegerB_nat entries.length hmaxM (encodePairs entries ++ rest)]
      rw [if_neg (by omega)]
      simp only [Int.toNat_natCast]
      have hrec := parseOkBPairs entries hwp hfp fuel (by rw [hlen] at hf; omega) rest
      simp only [hrec]
      rw [pairsFold_sorted entries hwp]

/-- Strategy B's element loop parses a well-formed friendly encoded
frame sequence back to itself. -/
theorem parseOkBList : ∀ (fs : FrameList), wfList fs = true → v2FriendlyList fs = true →
    ∀ (fuel : Nat), (encodeList fs).length ≤ fuel → ∀ rest : List Nat,
    walkParseB (parseFrameB fuel) fs.length (encodeList fs ++ rest) = .ok (fs, rest)
  | .nil, _, _, fuel, _, rest => by
    simp [encodeList, walkParseB, FrameList.length]
  | .cons f fs, hwf, hfr, fuel, hfuel, rest => by
    obtain ⟨hwf1, hwf2⟩ : wfFrame f = true ∧ wfList fs = true := by
      simpa [wfList, Bool.and_eq_true] using hwf
    obtain ⟨hfr1, hfr2⟩ : v2Friendly f = true ∧ v2FriendlyList fs = true := by
      simpa [v2FriendlyList, Bool.and_eq_true] using hfr
    have hlen : (encodeList (.cons f fs)).length =
        (encodeFrame f).length + (encodeList fs).length := by
      simp [encodeList]
    have hene : encodeList (.cons f fs) ++ rest = encodeFrame f ++ (encodeList fs ++ rest) := by
      simp [encodeList]
    have hlenc : FrameList.length (.cons f fs) = fs.length + 1 := rfl
    rw [hlenc, hene]
    simp only [walkParseB]
    have h1 := parseOkB f hwf1 hfr1 fuel (by rw [hlen] at hfuel; omega) (encodeList fs ++ rest)
    simp only [h1]
    have h2 := parseOkBList fs hwf2 hfr2 fuel (by rw [hlen] at hfuel; omega) rest
    simp only [h2]

/-- Strategy B's entry loop parses a well-formed friendly encoded map
body back to itself. -/
theorem parseOkBPairs : ∀ (ps : PairList), wfPairs ps = true → v2FriendlyPairs ps = true →
    ∀ (fuel : Nat), (encodePairs ps).length ≤ fuel → ∀ rest : List Nat,
    walkParseMapB (parseFrameB fuel) ps.length (encodePairs ps ++ rest) = .ok (ps, rest)
  | .nil, _, _, fuel, _, rest => by
    simp [encodePairs, walkParseMapB, PairList.length]
  | .cons ky v ps, hwf, hfr, fuel, hfuel, rest => by
    obtain ⟨⟨⟨hkc, hv⟩, _⟩, hps⟩ :
        ((lineClean ky = true ∧ wfFrame v = true) ∧ PairList.allGt ky ps = true) ∧
          wfPairs ps = true := by
      simpa [wfPairs, Bool.and_eq_true] using hwf
    obtain ⟨hfv, hfp⟩ : v2Friendly v = true ∧ v2FriendlyPairs ps = true := by
      simpa [v2FriendlyPairs, Bool.and_eq_true] using hfr
    have hlen : (encodePairs (.cons ky v ps)).length =
        ky.length + 3 + ((encodeFrame v).length + (encodePairs ps).length) := by
      simp [encodePairs, CRLF, List.length_append]
      omega
    have hene : encodePairs (.cons ky v ps) ++ rest =
        43 :: (ky ++ 13 :: 10 :: (encodeFrame v ++ (encodePairs ps ++ rest))) := by
      simp [encodePairs, CRLF]
    have hlenc : PairList.length (.cons ky v ps) = ps.length + 1 := rfl
    rw [hlenc, hene]
    simp only [walkParseMapB]
    rw [if_pos (show ((43 : Nat) ::
        (ky ++ 13 :: 10 :: (encodeFrame v ++ (encodePairs ps ++ rest)))).head? = some 43
      from rfl)]
    simp only [List.tail_cons]
    simp only [pLine_complete ky (encodeFrame v ++ (encodePairs ps ++ rest)) hkc]
    have h1 := parseOkB v hv hfv fuel (by rw [hlen] at hfuel; omega) (encodePairs ps ++ rest)
    simp only [h1]
    have h2 := parseOkBPairs ps hps hfp fuel (by rw [hlen] at hfuel; omega) rest
    simp only [h2]

end

/-! ## Entry-point corollaries -/

theorem respDecode_encode (f : RespFrame) (hwf : wfFrame f = true) :
    respDecode (encodeFrame f) = (.ok f, []) := by
  rw [respDecode]
  have h := decodeOk f hwf ((encodeFrame f).length + 1) (by omega) []
  rwa [List.append_nil] at h

theorem respExpectLength_encode (f : RespFrame) (hwf : wfFrame f = true) :
    respExpectLength (encodeFrame f) = .ok (encodeFrame f).length := by
  rw [respExpectLength]
  have h := scanOk f hwf ((encodeFrame f).length + 1) (by omega) []
  rwa [List.append_nil] at h

theorem respExpectLength_pre (f : RespFrame) (hwf : wfFrame f = true) (k : Nat)
    (hk : k < (encodeFrame f).length) :
    respExpectLength ((encodeFrame f).take k) = .error .notComplete := by
  rw [respExpectLength]
  have hlt : ((encodeFrame f).take k).length = k := by
    simp [List.length_take]
    omega
  rw [hlt]
  exact scanPre f hwf (k + 1) k (by omega) hk

theorem respDecode_pre (f : RespFrame) (hwf : wfFrame f = true) (k : Nat)
    (hk : k < (encodeFrame f).length) :
    respDecode ((encodeFrame f).take k) = (.error .notComplete, (encodeFrame f).take k) := by
  rw [respDecode]
  have hlt : ((encodeFrame f).take k).length = k := by
    simp [List.length_take]
    omega
  rw [hlt]
  exact decodePre f hwf (k + 1) k (by omega) hk

theorem v2ExpectLength_encode (f : RespFrame) (hwf : wfFrame f = true)
    (hfr : v2Friendly f = true) :
    v2ExpectLength (encodeFrame f) = .ok (encodeFrame f).length := by
  rw [v2ExpectLength, parseFrameLength]
  have h2 : parseFrameLenB ((encodeFrame f).length + 1) (encodeFrame f) = .ok ((), []) := by
    have h := scanOkB f hwf hfr ((encodeFrame f).length + 1) (by omega) []
    rwa [List.append_nil] at h
  simp only [h2]
  simp

theorem v2Decode_encode (f : RespFrame) (hwf : wfFrame f = true)
    (hfr : v2Friendly f = true) :
    v2Decode (encodeFrame f) = (.ok f, []) := by
  have hlen := v2ExpectLength_encode f hwf hfr
  rw [v2ExpectLength] at hlen
  simp only [v2Decode, hlen]
  rw [List.take_length]
  have hparse : parseFrameB ((encodeFrame f).length + 1) (encodeFrame f) = .ok (f, []) := by
    have h := parseOkB f hwf hfr ((encodeFrame f).length + 1) (by omega) []
    rwa [List.append_nil] at h
  simp only [hparse]
  rw [List.drop_length]

theorem parseFrameLength_le (buf : List Nat) (n : Nat) (h : parseFrameLength buf = .ok n) :
    n ≤ buf.length := by
  rw [parseFrameLength] at h
  match hp : parseFrameLenB (buf.length + 1) buf with
  | .ok (u, r0) =>
    simp only [hp] at h
    simp only [Except.ok.injEq] at h
    omega
  | .error e => simp only [hp] at h; simp at h

theorem v2Agree (buf : List Nat) (f : RespFrame) (rest : List Nat)
    (h : v2Decode buf = (.ok f, rest)) :
    ∃ n, v2ExpectLength buf = .ok n ∧ n ≤ buf.length ∧ rest = buf.drop n := by
  rw [v2Decode] at h
  match hs : parseFrameLength buf with
  | .error e => simp only [hs] at h; simp at h
  | .ok len =>
    simp only [hs] at h
    refine ⟨len, hs, parseFrameLength_le buf len hs, ?_⟩
    match hp : parseFrameB (len + 1) (buf.take len) with
    | .ok (f0, r0) =>
      simp only [hp, Prod.mk.injEq, Except.ok.injEq] at h
      exact h.2.symm
    | .error e => simp only [hp] at h; simp at h

/-! ## The claims -/

theorem doubleVal_zero_lt : |doubleVal 0 0| < (1 / 100000000 : ℚ) := by
  norm_num [doubleVal]

/-- C1: for every wire-well-formed frame value, decoding the bytes
produced by encoding it with the strategy-A incremental decoder yields
the same frame and consumes exactly the encoded bytes (the leftover
buffer is empty). -/
theorem c1_roundtrip (f : RespFrame) (hwf : wfFrame f = true) :
    respDecode (encodeFrame f) = (.ok f, []) :=
  respDecode_encode f hwf

theorem c1_roundtrip_witness :
    respDecode (encodeFrame (.array (.cons (.simpleString [79, 75])
        (.cons (.integer (-5)) .nil)))) =
      (.ok (.array (.cons (.simpleString [79, 75]) (.cons (.integer (-5)) .nil))), []) :=
  c1_roundtrip (.array (.cons (.simpleString [79, 75]) (.cons (.integer (-5)) .nil))) (by decide)

theorem c1_roundtrip_cex :
    respDecode (encodeFrame (.simpleString [13, 10])) ≠
      (.ok (.simpleString [13, 10]), []) := by
  decide

/-- C2: on every buffer where decode succeeds, expect_length succeeds
and returns exactly the number of bytes the decode consumed (the rest of
the buffer is the input with that prefix dropped), for both the
strategy-A pair and the strategy-B pair. -/
theorem c2_scan_agree (buf : List Nat) (f : RespFrame) (rest : List Nat) :
    (respDecode buf = (.ok f, rest) →
      ∃ n, respExpectLength buf = .ok n ∧ n ≤ buf.length ∧ rest = buf.drop n) ∧
    (v2Decode buf = (.ok f, rest) →
      ∃ n, v2ExpectLength buf = .ok n ∧ n ≤ buf.length ∧ rest = buf.drop n) := by
  refine ⟨fun h => ?_, v2Agree buf f rest⟩
  rw [respDecode] at h
  obtain ⟨n, hn, hle, hr⟩ := decodeScanAgree (buf.length + 1) buf f rest h
  exact ⟨n, by rw [respExpectLength]; exact hn, hle, hr⟩

theorem c2_scan_agree_witness :
    (∃ n, respExpectLength [43, 79, 75, 13, 10] = .ok n ∧
      n ≤ ([43, 79, 75, 13, 10] : List Nat).length ∧
      ([] : List Nat) = ([43, 79, 75, 13, 10] : List Nat).drop n) ∧
    (∃ n, v2ExpectLength [43, 79, 75, 13, 10] = .ok n ∧
      n ≤ ([43, 79, 75, 13, 10] : List Nat).length ∧
      ([] : List Nat) = ([43, 79, 75, 13, 10] : List Nat).drop n) :=
  ⟨(c2_scan_agree [43, 79, 75, 13, 10] (.simpleString [79, 75]) []).1 (by decide),
   (c2_scan_agree [43, 79, 75, 13, 10] (.simpleString [79, 75]) []).2 (by decide)⟩

/-- C3: truncating the encoding of a wire-well-formed frame strictly
before its end makes the strategy-A length scanner and the strategy-A
decoder both report the recoverable incomplete signal, the decoder
consuming nothing.  (The strategy-B scanner violates this; see the
counterexample.) -/
theorem c3_truncation (f : RespFrame) (hwf : wfFrame f = true) (k : Nat)
    (hk : k < (encodeFrame f).length) :
    respExpectLength ((encodeFrame f).take k) = .error .notComplete ∧
    respDecode ((encodeFrame f).take k) = (.error .notComplete, (encodeFrame f).take k) :=
  ⟨respExpectLength_pre f hwf k hk, respDecode_pre f hwf k hk⟩

theorem c3_truncation_witness :
    respExpectLength ((encodeFrame (.bulkString [97])).take 5) = .error .notComplete ∧
    respDecode ((encodeFrame (.bulkString [97])).take 5) =
      (.error .notComplete, (encodeFrame (.bulkString [97])).take 5) :=
  c3_truncation (.bulkString [97]) (by decide) 5 (by decide)

theorem c3_truncation_cex :
    4 < (encodeFrame (.bulkString [])).length ∧
    v2ExpectLength ((encodeFrame (.bulkString [])).take 4) = .ok 4 := by
  exact ⟨by decide, by decide⟩

/-- C4: on the fragment of wire-well-formed frames that are also
strategy-B friendly (no sets, no non-negative integers, no integers
whose digit run overflows the unsigned-first `i64` parse — the smallest
`i64` in particular — no booleans, no empty bulk strings, and no
payload or declared element count beyond `maxI64`), the two decoders
agree: both decode an encoded frame back to itself, consuming the whole
encoding.  (Outside the fragment they disagree; see the counterexample,
a set frame.) -/
theorem c4_agreement (f : RespFrame) (hwf : wfFrame f = true) (hfr : v2Friendly f = true) :
    respDecode (encodeFrame f) = (.ok f, []) ∧ v2Decode (encodeFrame f) = (.ok f, []) :=
  ⟨respDecode_encode f hwf, v2Decode_encode f hwf hfr⟩

theorem c4_agreement_witness :
    respDecode (encodeFrame (.map (.cons [104] (.bulkString [119]) .nil))) =
      (.ok (.map (.cons [104] (.bulkString [119]) .nil)), []) ∧
    v2Decode (encodeFrame (.map (.cons [104] (.bulkString [119]) .nil))) =
      (.ok (.map (.cons [104] (.bulkString [119]) .nil)), []) :=
  c4_agreement (.map (.cons [104] (.bulkString [119]) .nil)) (by decide) (by decide)

theorem c4_agreement_cex :
    respDecode (encodeFrame (.set (.cons (.simpleString [79, 75]) .nil))) =
      (.ok (.set (.cons (.simpleString [79, 75]) .nil)), []) ∧
    v2Decode (encodeFrame (.set (.cons (.simpleString [79, 75]) .nil))) =
      (.error .notComplete, encodeFrame (.set (.cons (.simpleString [79, 75]) .nil))) := by
  exact ⟨by decide, by decide⟩

/-- C5: the double encoder always puts an explicit sign on the
significand; it chooses exponential notation exactly when the magnitude
of the value exceeds 1e8 or is below 1e-8 — including the value 0, which
the spec instead assigns to the fixed branch — and no plus sign ever
appears past the significand sign, so positive exponents are unsigned. -/
theorem c5_double_format (m e : Int) :
    (∃ tail, doubleEncode m e = 44 :: (if m < 0 then 45 else 43) :: tail) ∧
    (101 ∈ doubleEncode m e ↔
      (|doubleVal m e| > (100000000 : ℚ) ∨ |doubleVal m e| < (1 / 100000000 : ℚ))) ∧
    (∀ b ∈ (doubleEncode m e).drop 2, b ≠ 43) := by
  by_cases hc : |doubleVal m e| > (100000000 : ℚ) ∨ |doubleVal m e| < (1 / 100000000 : ℚ)
  · simp only [doubleEncode]
    rw [if_pos hc]
    refine ⟨⟨renderExpPos m.natAbs e ++ CRLF, rfl⟩, ?_, ?_⟩
    · constructor
      · intro _; exact hc
      · intro _
        exact List.mem_cons_of_mem _ (List.mem_cons_of_mem _
          (List.mem_append_left _ (renderExpPos_has101 m.natAbs e)))
    · intro b hb
      have hb2 : b ∈ renderExpPos m.natAbs e ++ CRLF := hb
      rcases List.mem_append.mp hb2 with h | h
      · rcases renderExpPos_mem m.natAbs e b h with h1 | h1 | h1 | h1 <;> omega
      · simp [CRLF] at h; omega
  · simp only [doubleEncode]
    rw [if_neg hc]
    by_cases hm : m < 0
    · rw [if_pos hm, List.cons_append]
      refine ⟨⟨renderFixedPos m.natAbs e ++ CRLF, by rw [if_pos hm]; exact rfl⟩, ?_, ?_⟩
      · constructor
        · intro h101
          exfalso
          simp [CRLF] at h101
          rcases renderFixedPos_mem m.natAbs e 101 h101 with h1 | h1 <;> omega
        · intro h; exact absurd h hc
      · intro b hb
        have hb2 : b ∈ renderFixedPos m.natAbs e ++ CRLF := hb
        rcases List.mem_append.mp hb2 with h | h
        · rcases renderFixedPos_mem m.natAbs e b h with h1 | h1 <;> omega
        · simp [CRLF] at h; omega
    · rw [if_neg hm, List.cons_append]
      refine ⟨⟨renderFixedPos m.natAbs e ++ CRLF, by rw [if_neg hm]; exact rfl⟩, ?_, ?_⟩
      · constructor
        · intro h101
          exfalso
          simp [CRLF] at h101
          rcases renderFixedPos_mem m.natAbs e 101 h101 with h1 | h1 <;> omega
        · intro h; exact absurd h hc
      · intro b hb
        have hb2 : b ∈ renderFixedPos m.natAbs e ++ CRLF := hb
        rcases List.mem_append.mp hb2 with h | h
        · rcases renderFixedPos_mem m.natAbs e b h with h1 | h1 <;> omega
        · simp [CRLF] at h; omega

theorem c5_double_format_witness :
    (∃ tail, doubleEncode (-15) (-1) = 44 :: (if (-15 : Int) < 0 then 45 else 43) :: tail) ∧
    101 ∈ doubleEncode 0 0 ∧ 43 ∉ (doubleEncode (-15) (-1)).drop 2 :=
  ⟨(c5_double_format (-15) (-1)).1,
   (c5_double_format 0 0).2.1.mpr (Or.inr doubleVal_zero_lt),
   fun h => (c5_double_format (-15) (-1)).2.2 43 h rfl⟩

theorem c5_double_format_cex : doubleEncode 0 0 = [44, 43, 48, 101, 48, 13, 10] := by
  have h : |doubleVal 0 0| > (100000000 : ℚ) ∨ |doubleVal 0 0| < (1 / 100000000 : ℚ) :=
    Or.inr doubleVal_zero_lt
  rw [doubleEncode, if_pos h]
  decide

/-- C6: the strategy-A decoder rejects as malformed — reporting an
invalid-frame-length error carrying the declared value — every bulk
string or array header with declared length strictly less than -1, and
every map or set header with declared count at most 0.  (Strategy B
reports such inputs as incomplete instead; see the counterexample.) -/
theorem c6_negative_length :
    (∀ (n : Nat), 2 ≤ n → ∀ (rest : List Nat),
      respDecode (36 :: 45 :: (natBytes n ++ 13 :: 10 :: rest)) =
        (.error (.invalidFrameLength (-(n : Int))),
          36 :: 45 :: (natBytes n ++ 13 :: 10 :: rest))) ∧
    (∀ (n : Nat), 2 ≤ n → ∀ (rest : List Nat),
      respDecode (42 :: 45 :: (natBytes n ++ 13 :: 10 :: rest)) =
        (.error (.invalidFrameLength (-(n : Int))),
          42 :: 45 :: (natBytes n ++ 13 :: 10 :: rest))) ∧
    (∀ (s : List Nat) (L : Int) (rest : List Nat), lineClean s = true →
      parseSignedInt s = some L → L ≤ 0 →
      respDecode (37 :: (s ++ 13 :: 10 :: rest)) =
        (.error (.invalidFrameLength L), 37 :: (s ++ 13 :: 10 :: rest))) ∧
    (∀ (s : List Nat) (L : Int) (rest : List Nat), lineClean s = true →
      parseSignedInt s = some L → L ≤ 0 →
      respDecode (126 :: (s ++ 13 :: 10 :: rest)) =
        (.error (.invalidFrameLength L), 126 :: (s ++ 13 :: 10 :: rest))) :=
  ⟨fun n hn rest => decodeMalformed_bulk n hn rest,
   fun n hn rest => decodeMalformed_array n hn rest,
   fun s L rest hc hp hL => decodeMalformed_map s L rest hc hp hL,
   fun s L rest hc hp hL => decodeMalformed_set s L rest hc hp hL⟩

theorem c6_negative_length_witness :
    respDecode (36 :: 45 :: (natBytes 2 ++ 13 :: 10 :: [])) =
      (.error (.invalidFrameLength (-(2 : Int))), 36 :: 45 :: (natBytes 2 ++ 13 :: 10 :: [])) ∧
    respDecode (42 :: 45 :: (natBytes 2 ++ 13 :: 10 :: [])) =
      (.error (.invalidFrameLength (-(2 : Int))), 42 :: 45 :: (natBytes 2 ++ 13 :: 10 :: [])) ∧
    respDecode (37 :: ([48] ++ 13 :: 10 :: [])) =
      (.error (.invalidFrameLength 0), 37 :: ([48] ++ 13 :: 10 :: [])) ∧
    respDecode (126 :: ([48] ++ 13 :: 10 :: [])) =
      (.error (.invalidFrameLength 0), 126 :: ([48] ++ 13 :: 10 :: [])) :=
  ⟨c6_negative_length.1 2 (by decide) [],
   c6_negative_length.2.1 2 (by decide) [],
   c6_negative_length.2.2.1 [48] 0 [] (by decide) (by decide) (by decide),
   c6_negative_length.2.2.2 [48] 0 [] (by decide) (by decide) (by decide)⟩

theorem c6_negative_length_cex :
    v2Decode [37, 48, 13, 10] = (.error .notComplete, [37, 48, 13, 10]) := by
  decide

/-- C7: a wire-well-formed aggregate frame (array, map or set) whose
encoding is only partially buffered makes the strategy-A decoder report
the incomplete signal while returning the buffer untouched, so no bytes
are consumed and the call can be retried. -/
theorem c7_aggregate_partial (f : RespFrame) (hwf : wfFrame f = true)
    (hagg : (∃ fs, f = .array fs) ∨ (∃ ps, f = .map ps) ∨ (∃ fs, f = .set fs))
    (k : Nat) (hk : k < (encodeFrame f).length) :
    respDecode ((encodeFrame f).take k) = (.error .notComplete, (encodeFrame f).take k) :=
  respDecode_pre f hwf k hk

theorem c7_aggregate_partial_witness :
    respDecode ((encodeFrame (.array (.cons (.simpleString [79, 75]) .nil))).take 6) =
      (.error .notComplete, (encodeFrame (.array (.cons (.simpleString [79, 75]) .nil))).take 6) :=
  c7_aggregate_partial (.array (.cons (.simpleString [79, 75]) .nil)) (by decide)
    (Or.inl ⟨.cons (.simpleString [79, 75]) .nil, rfl⟩) 6 (by decide)

/-- C8: every failure of the strategy-B length scanner is the
incomplete signal — bad prefixes, non-numeric lengths and out-of-range
declared lengths included — so the scanner never reports a malformed
error distinct from incomplete. -/
theorem c8_scanner_collapse (buf : List Nat) (e : RespError)
    (h : v2ExpectLength buf = .error e) : e = .notComplete :=
  v2ExpectLength_err buf e h

theorem c8_scanner_collapse_witness :
    RespError.notComplete = RespError.notComplete ∧
    v2ExpectLength [64, 102, 111, 111, 13, 10] = .error .notComplete :=
  ⟨c8_scanner_collapse [64, 102, 111, 111, 13, 10] .notComplete (by decide), by decide⟩

theorem c8_scanner_collapse_cex :
    v2ExpectLength [36, 45, 50, 13, 10] = .error .notComplete := by
  decide

/-- C9: the command layer dispatches on the first array element, which
must be a bulk string, by byte-exact comparison against the five
lowercase command names: an exact lowercase name dispatches to its
command — succeeding when the key bytes are valid UTF-8 and failing with
the distinct UTF-8 error otherwise — any other name, uppercase spellings
included, maps to the unrecognized command, a non-bulk-string first
element is an invalid-command error, and the unrecognized command
executes to the canonical OK response. -/
theorem c9_dispatch :
    (∀ (key : List Nat), isUtf8 key = true →
      commandFromArray (.cons (.bulkString [103, 101, 116]) (.cons (.bulkString key) .nil)) =
        .ok (.get key)) ∧
    (∀ (key : List Nat), isUtf8 key = false →
      commandFromArray (.cons (.bulkString [103, 101, 116]) (.cons (.bulkString key) .nil)) =
        .error .utf8Err) ∧
    (∀ (cmd : List Nat) (fs : FrameList), cmd ≠ [103, 101, 116] → cmd ≠ [115, 101, 116] →
      cmd ≠ [104, 103, 101, 116] → cmd ≠ [104, 115, 101, 116] →
      cmd ≠ [104, 103, 101, 116, 97, 108, 108] →
      commandFromArray (.cons (.bulkString cmd) fs) = .ok .unrecognized) ∧
    (∀ (f : RespFrame) (fs : FrameList), (∀ b, f ≠ .bulkString b) →
      commandFromArray (.cons f fs) = .error .invalidCommand) ∧
    commandFromArray .nil = .error .invalidCommand ∧
    unrecognizedExecute = respOk := by
  refine ⟨fun key hk => ?_, fun key hk => ?_,
    commandFromArray_unrecognized, commandFromArray_nonbulk, rfl, rfl⟩
  · have h0 : commandFromArray (.cons (.bulkString [103, 101, 116])
        (.cons (.bulkString key) .nil)) =
        (if isUtf8 key then Except.ok (Command.get key) else Except.error CommandError.utf8Err) :=
      rfl
    rw [h0, hk]
    simp
  · have h0 : commandFromArray (.cons (.bulkString [103, 101, 116])
        (.cons (.bulkString key) .nil)) =
        (if isUtf8 key then Except.ok (Command.get key) else Except.error CommandError.utf8Err) :=
      rfl
    rw [h0, hk]
    simp

theorem c9_dispatch_witness :
    commandFromArray (.cons (.bulkString [103, 101, 116]) (.cons (.bulkString [104, 105]) .nil)) =
      .ok (.get [104, 105]) ∧
    commandFromArray (.cons (.bulkString [103, 101, 116]) (.cons (.bulkString [255]) .nil)) =
      .error .utf8Err ∧
    commandFromArray (.cons (.bulkString [112, 105, 110, 103]) .nil) = .ok .unrecognized ∧
    commandFromArray (.cons (.integer 1) .nil) = .error .invalidCommand :=
  ⟨c9_dispatch.1 [104, 105] (by decide),
   c9_dispatch.2.1 [255] (by decide),
   c9_dispatch.2.2.1 [112, 105, 110, 103] .nil (by decide) (by decide) (by decide) (by decide)
     (by decide),
   c9_dispatch.2.2.2.1 (.integer 1) .nil (fun b h => RespFrame.noConfusion h)⟩

theorem c9_dispatch_cex :
    commandFromArray (.cons (.bulkString [71, 69, 84])
      (.cons (.bulkString [104, 101, 108, 108, 111]) .nil)) = .ok .unrecognized := by
  decide

/-- C10: the strategy-B decoder fails with an invalid-frame error on
the encoding of every non-negative integer frame, because the encoder
writes an explicit plus sign that the strategy-B integer parser does not
accept. -/
theorem c10_plus_integer (i : Int) (hi : 0 ≤ i) :
    v2Decode (encodeFrame (.integer i)) = (.error .invalidFrame, []) :=
  v2_integer_fail i hi

theorem c10_plus_integer_witness :
    v2Decode (encodeFrame (.integer 1234)) = (.error .invalidFrame, []) :=
  c10_plus_integer 1234 (by decide)

end SimpleRedis
